import Mathlib

/-!
# i2cflash: the device protocol layer (device/device.go)

A shallow embedding of the Go package `device`.  The raw bus transport
(package `i2c`) is a collaborator of the package: it is a parameter of every
definition (`Bus σ`, a transport over a device state `σ`).  Every primitive
transfer, every sleep and every line printed is recorded in the `World`, so that
statements about what the host issues, and in which order, can be made.

Machine integers: a `byte` is `Fin 256`; `uint16`, `uint32` and `int` values are
natural numbers (or integers), reduced explicitly where the Go code can wrap.
-/

namespace I2cflash

/-! ## Bytes and constants -/

/-- A Go `byte`. -/
abbrev Byte := Fin 256

/-- The conversion `byte(n)` of a non-negative integer: the low 8 bits. -/
def toByte (n : Nat) : Byte := ⟨n % 256, Nat.mod_lt n (by decide)⟩

/-- The conversion `uint32(n)` of a non-negative integer, and the wrap of `uint32` arithmetic. -/
def u32 (n : Nat) : Nat := n % 2 ^ 32

/-- The wrap of `uint16` arithmetic. -/
def u16 (n : Nat) : Nat := n % 2 ^ 16

def ADDR_MARKER : Byte := 0
def ADDR_MCUID : Byte := 4
def ADDR_PAGE_SIZE : Byte := 8
def ADDR_FLASH_SIZE : Byte := 10
def ADDR_PROG_START : Byte := 12
def ADDR_VERSION : Byte := 16
def ADDR_ERR : Byte := 18
def ADDR_PROG : Byte := 19
def ADDR_ADDR : Byte := 20
def ADDR_DATA : Byte := 24
def MAX_DATA_LEN : Nat := 128

def PROG_NONE : Byte := 0
def PROG_ERASE_PAGE : Byte := 1
def PROG_READ : Byte := 2
def PROG_WRITE : Byte := 3
def PROG_EXIT : Byte := 4

/-! ## Errors and outcomes -/

/-- The `error` values of the package.  `transport` stands for the errors made by the
bus transport; the other constructors are the `fmt.Errorf` sites of device.go, with the
arguments of the format string. -/
inductive Error where
  /-- An error made by the bus transport. -/
  | transport (code : Nat)
  /-- Open: "Failed to open I2C bus %d". -/
  | busOpen (i2c_bus : Int)
  /-- Open: "Incorrect device signature at address 0: %q". -/
  | signature (observed : List Byte)
  /-- Device.waitProg: "Timed out waiting for PROG code 0x%02x to execute." -/
  | timedOut (prog : Byte)
  /-- Device.AutoTest: "Inconsistent autotest at byte %d". -/
  | autotest (i : Nat)
  /-- Device.flashErase: "Flash erase failed at 0x%x for block %d/%d with error code 0x%02x". -/
  | eraseFailed (addr : Nat) (pos : Nat) (block_count : Int) (ecode : Byte)
  /-- Device.flashWrite: "Flash write failed, error code 0x%02x". -/
  | writeFailed (ecode : Byte)
  /-- Device.FlashWrite: "Inconsistent flash at byte %x (start+%d), expected 0x%02x, found 0x%02x". -/
  | inconsistent (addr : Nat) (i : Nat) (expected : Byte) (found : Byte)
  deriving DecidableEq

/-- The run-time panics the package can raise. -/
inductive Crash where
  /-- The slice expression `buf[:high]` on an array of `cap` elements with `high > cap`. -/
  | sliceBounds (high : Nat) (cap : Nat)
  /-- An integer division by zero. -/
  | divideByZero
  /-- The index expression `s[i]` on a slice of `len` elements with `i >= len`. -/
  | indexRange (i : Nat) (len : Nat)
  deriving DecidableEq

/-- How a call of a function of type `func(...) error` ends. -/
inductive Outcome where
  /-- The call returned `nil`. -/
  | ok
  /-- The call returned a non-nil error. -/
  | err (e : Error)
  /-- The call panicked. -/
  | crash (c : Crash)
  /-- The call does not return: the loop of the model ran out of fuel. -/
  | diverge
  deriving DecidableEq

/-- The outcome of a transfer that returned the Go value `e`. -/
def Outcome.ofError : Option Error → Outcome
  | none => Outcome.ok
  | some e => Outcome.err e

/-! ## The world: transport, transfers issued, lines printed -/

/-- One observable step on the bus side: a primitive transfer with what it returned, the
opening and closing of the bus handle, or a sleep. -/
inductive Event where
  /-- The call `i2c.OpenBus(id)` and the handle it returned. -/
  | openBus (id : Int) (handle : Int)
  /-- The call `bus.CloseBus()`. -/
  | closeBus
  /-- The call `bus.ReadBytes(addr, reg, data)` on a slice of `len` bytes; `got` is the
  slice afterwards. -/
  | readBytes (addr : Byte) (reg : Byte) (len : Nat) (got : List Byte) (res : Option Error)
  /-- The call `bus.WriteBytes(addr, reg, data)`. -/
  | writeBytes (addr : Byte) (reg : Byte) (data : List Byte) (res : Option Error)
  /-- The call `bus.ReadByte(addr, reg)`. -/
  | readByte (addr : Byte) (reg : Byte) (got : Byte) (res : Option Error)
  /-- The call `bus.WriteByte(addr, reg, data)`. -/
  | writeByte (addr : Byte) (reg : Byte) (data : Byte) (res : Option Error)
  /-- The call `time.Sleep(gap)`, the gap in nanoseconds. -/
  | sleep (gap : Nat)
  deriving DecidableEq

/-- One call of `fmt.Print`, `fmt.Printf` or `fmt.Println`, with the arguments of the
format. -/
inductive Out where
  /-- The text "Reading %d bytes from address 0x%08x in pages of %d bytes each\n". -/
  | readingHeader (len : Nat) (progStart : Nat) (psize : Nat)
  /-- The text "Reading: [". -/
  | readingOpen
  /-- The text "Erasing: [". -/
  | erasingOpen
  /-- The text "Writing: [". -/
  | writingOpen
  /-- The text "#". -/
  | hash
  /-- The text "]". -/
  | closeBracket
  /-- The text "\n" (also the empty `fmt.Println()`). -/
  | newline
  /-- The text "File 0x%08x:". -/
  | fileLabel (addr : Nat)
  /-- The text "Read 0x%08x:". -/
  | readLabel (addr : Nat)
  /-- The text " %02x". -/
  | hexByte (b : Byte)
  /-- The text "Error status byte is %02x\n". -/
  | errorStatus (b : Byte)
  /-- The text "Flash content verified.\n". -/
  | verified
  deriving DecidableEq

/-- The bus transport of package `i2c`, over the state `σ` of whatever is attached to the
bus.  `ReadBytes` receives the slice to fill and returns its new contents. -/
structure Bus (σ : Type) where
  OpenBus : σ → Int → Int × σ
  CloseBus : σ → σ
  ReadBytes : σ → Byte → Byte → List Byte → (List Byte × Option Error) × σ
  WriteBytes : σ → Byte → Byte → List Byte → Option Error × σ
  ReadByte : σ → Byte → Byte → (Byte × Option Error) × σ
  WriteByte : σ → Byte → Byte → Byte → Option Error × σ

/-- The state threaded through the host code. -/
structure World (σ : Type) where
  /-- The state behind the transport. -/
  bus : σ
  /-- The bus events so far, oldest first. -/
  trace : List Event
  /-- The print calls so far, oldest first. -/
  out : List Out

/-- A transfer into a slice can change the bytes of the slice, not its length: `fill old new`
is the slice `old` after the transport produced `new` for it. -/
def fill (old new : List Byte) : List Byte := (new ++ old.drop new.length).take old.length

/-- The call `fmt.Print...` recorded as `o`. -/
def emit {σ : Type} (o : Out) (w : World σ) : World σ :=
  { w with out := w.out ++ [o] }

/-- The call `time.Sleep(gap)`. -/
def sleep {σ : Type} (gap : Nat) (w : World σ) : World σ :=
  { w with trace := w.trace ++ [Event.sleep gap] }

/-- The call `i2c.OpenBus(id)`. -/
def busOpen {σ : Type} (b : Bus σ) (id : Int) (w : World σ) : Int × World σ :=
  let r := b.OpenBus w.bus id
  (r.1, { w with bus := r.2, trace := w.trace ++ [Event.openBus id r.1] })

/-- The call `bus.CloseBus()`. -/
def busClose {σ : Type} (b : Bus σ) (w : World σ) : World σ :=
  { w with bus := b.CloseBus w.bus, trace := w.trace ++ [Event.closeBus] }

/-- The call `bus.ReadBytes(addr, reg, data)`: the slice afterwards and the error. -/
def busReadBytes {σ : Type} (b : Bus σ) (addr reg : Byte) (data : List Byte) (w : World σ) :
    (List Byte × Option Error) × World σ :=
  let r := b.ReadBytes w.bus addr reg data
  let got := fill data r.1.1
  ((got, r.1.2),
    { w with bus := r.2, trace := w.trace ++ [Event.readBytes addr reg data.length got r.1.2] })

/-- The call `bus.WriteBytes(addr, reg, data)`. -/
def busWriteBytes {σ : Type} (b : Bus σ) (addr reg : Byte) (data : List Byte) (w : World σ) :
    Option Error × World σ :=
  let r := b.WriteBytes w.bus addr reg data
  (r.1, { w with bus := r.2, trace := w.trace ++ [Event.writeBytes addr reg data r.1] })

/-- The call `bus.ReadByte(addr, reg)`. -/
def busReadByte {σ : Type} (b : Bus σ) (addr reg : Byte) (w : World σ) :
    (Byte × Option Error) × World σ :=
  let r := b.ReadByte w.bus addr reg
  (r.1, { w with bus := r.2, trace := w.trace ++ [Event.readByte addr reg r.1.1 r.1.2] })

/-- The call `bus.WriteByte(addr, reg, data)`. -/
def busWriteByte {σ : Type} (b : Bus σ) (addr reg : Byte) (data : Byte) (w : World σ) :
    Option Error × World σ :=
  let r := b.WriteByte w.bus addr reg data
  (r.1, { w with bus := r.2, trace := w.trace ++ [Event.writeByte addr reg data r.1] })

/-! ## The session -/

/-- The Go struct `Device`.  `I2cBus` is the bus handle; `McuId` and `ProgStart` are
`uint32`, `PageSize` and `FlashSize` are `uint16`. -/
structure Device where
  Address : Byte
  I2cBus : Int
  McuId : Nat
  PageSize : Nat
  FlashSize : Nat
  ProgStart : Nat
  Version : Byte
  deriving DecidableEq

/-! ## Register transport -/

/-- The loop of `Device.WriteBytes`: one iteration per unit of fuel. -/
def WriteBytesLoop {σ : Type} (b : Bus σ) (dev : Device) :
    Nat → Byte → List Byte → World σ → Outcome × World σ
  | 0, _, _, w => (Outcome.diverge, w)
  | fuel + 1, reg, data, w =>
    if data.length ≤ 32 then
      let r := busWriteBytes b dev.Address reg data w
      (Outcome.ofError r.1, r.2)
    else
      let r := busWriteBytes b dev.Address reg (data.take 32) w
      match r.1 with
      | some e => (Outcome.err e, r.2)
      | none => WriteBytesLoop b dev fuel (toByte (reg.val + 32)) (data.drop 32) r.2

/-- The method `Device.WriteBytes(reg, data)`.  Every iteration but the last shortens `data`
by 32 bytes, so `len(data) + 1` iterations are never used up. -/
def Device.WriteBytes {σ : Type} (b : Bus σ) (dev : Device) (reg : Byte) (data : List Byte)
    (w : World σ) : Outcome × World σ :=
  WriteBytesLoop b dev (data.length + 1) reg data w

/-- The method `Device.WriteByte(reg, data)`. -/
def Device.WriteByte {σ : Type} (b : Bus σ) (dev : Device) (reg : Byte) (data : Byte)
    (w : World σ) : Option Error × World σ :=
  busWriteByte b dev.Address reg data w

/-- The loop of `Device.ReadBytes`: one iteration per unit of fuel.  The first component of
the result is the slice `data` afterwards. -/
def ReadBytesLoop {σ : Type} (b : Bus σ) (dev : Device) :
    Nat → Byte → List Byte → World σ → (List Byte × Outcome) × World σ
  | 0, _, data, w => ((data, Outcome.diverge), w)
  | fuel + 1, reg, data, w =>
    if data.length ≤ 32 then
      let r := busReadBytes b dev.Address reg data w
      ((r.1.1, Outcome.ofError r.1.2), r.2)
    else
      let r := busReadBytes b dev.Address reg (data.take 32) w
      match r.1.2 with
      | some e => ((r.1.1 ++ data.drop 32, Outcome.err e), r.2)
      | none =>
        let rest := ReadBytesLoop b dev fuel (toByte (reg.val + 32)) (data.drop 32) r.2
        ((r.1.1 ++ rest.1.1, rest.1.2), rest.2)

/-- The method `Device.ReadBytes(reg, data)`: the slice `data` afterwards and the outcome. -/
def Device.ReadBytes {σ : Type} (b : Bus σ) (dev : Device) (reg : Byte) (data : List Byte)
    (w : World σ) : (List Byte × Outcome) × World σ :=
  ReadBytesLoop b dev (data.length + 1) reg data w

/-- The method `Device.ReadByte(reg)`. -/
def Device.ReadByte {σ : Type} (b : Bus σ) (dev : Device) (reg : Byte) (w : World σ) :
    (Byte × Option Error) × World σ :=
  busReadByte b dev.Address reg w

/-- The method `Device.ErrorStatusByte()`: the byte of register 18, or 0x80 when the transfer
fails. -/
def Device.ErrorStatusByte {σ : Type} (b : Bus σ) (dev : Device) (w : World σ) :
    Byte × World σ :=
  let r := dev.ReadByte b ADDR_ERR w
  match r.1.2 with
  | some _ => (0x80, r.2)
  | none => (r.1.1, r.2)

/-- The four bytes `byte(addr), byte(addr >> 8), byte(addr >> 16), byte(addr >> 24)`. -/
def addrBytes (addr : Nat) : List Byte :=
  [toByte addr, toByte (addr >>> 8), toByte (addr >>> 16), toByte (addr >>> 24)]

/-- The method `Device.FlashSetAddress(addr)`. -/
def Device.FlashSetAddress {σ : Type} (b : Bus σ) (dev : Device) (addr : Nat) (w : World σ) :
    Outcome × World σ :=
  dev.WriteBytes b ADDR_ADDR (addrBytes addr) w

/-- The method `Device.FlashGetAddress()`. -/
def Device.FlashGetAddress {σ : Type} (b : Bus σ) (dev : Device) (w : World σ) :
    (Nat × Outcome) × World σ :=
  let r := dev.ReadBytes b ADDR_ADDR [0, 0, 0, 0] w
  match r.1.2 with
  | Outcome.ok =>
    ((u32 ((r.1.1.getD 0 0).val + u32 ((r.1.1.getD 1 0).val <<< 8)
        + u32 ((r.1.1.getD 2 0).val <<< 16) + u32 ((r.1.1.getD 3 0).val <<< 24)), Outcome.ok), r.2)
  | o => ((0, o), r.2)

/-! ## Program-operation state machine -/

/-- The polling loop of `Device.waitProg`, with `n` iterations left (`n = 3 - i`); when none
is left the function returns the timeout error. -/
def waitProgLoop {σ : Type} (b : Bus σ) (dev : Device) (prog : Byte) (gap : Nat) :
    Nat → World σ → Outcome × World σ
  | 0, w => (Outcome.err (Error.timedOut prog), w)
  | n + 1, w =>
    let r := dev.ReadByte b ADDR_PROG (sleep gap w)
    match r.1.2 with
    | some e => (Outcome.err e, r.2)
    | none => if r.1.1 = 0 then (Outcome.ok, r.2) else waitProgLoop b dev prog gap n r.2

/-- The method `Device.waitProg(prog, gap)`. -/
def Device.waitProg {σ : Type} (b : Bus σ) (dev : Device) (prog : Byte) (gap : Nat)
    (w : World σ) : Outcome × World σ :=
  let r := dev.WriteByte b ADDR_PROG prog w
  match r.1 with
  | some e => (Outcome.err e, r.2)
  | none => waitProgLoop b dev prog gap 3 r.2

/-- The duration `time.Millisecond`, in nanoseconds. -/
def Millisecond : Nat := 1000000

/-! ## Flash engines -/

/-- The builtin `copy(dst, src)`: the slice `dst` afterwards. -/
def copy (dst src : List Byte) : List Byte := src.take dst.length ++ dst.drop src.length

/-- The loop of `Device.FlashRead`: `buf` is the staging array `[4096]byte`, `data` the
destination, and the first component of the result is the destination afterwards. -/
def FlashReadLoop {σ : Type} (b : Bus σ) (dev : Device) (psize : Nat) :
    Nat → Nat → List Byte → List Byte → World σ → (List Byte × Outcome) × World σ
  | 0, _, _, data, w => ((data, Outcome.diverge), w)
  | fuel + 1, pos, buf, data, w =>
    if pos < data.length then
      let r := dev.waitProg b PROG_READ (1 * Millisecond) w
      match r.1 with
      | Outcome.ok =>
        if psize ≤ 4096 then
          let rd := dev.ReadBytes b ADDR_DATA (buf.take psize) r.2
          match rd.1.2 with
          | Outcome.ok =>
            let buf1 := rd.1.1 ++ buf.drop psize
            let data1 := data.take pos ++ copy (data.drop pos) (buf1.take psize)
            FlashReadLoop b dev psize fuel (pos + psize) buf1 data1 (emit Out.hash rd.2)
          | o => ((data, o), rd.2)
        else ((data, Outcome.crash (Crash.sliceBounds psize 4096)), r.2)
      | o => ((data, o), r.2)
    else ((data, Outcome.ok), emit Out.closeBracket w)

/-- The method `Device.FlashRead(data)`: the destination afterwards and the outcome.  The
deferred newline is printed on every exit after the address has been set.  With a page
size of at least 1 the loop runs at most `len(data)` times. -/
def Device.FlashRead {σ : Type} (b : Bus σ) (dev : Device) (data : List Byte) (w : World σ) :
    (List Byte × Outcome) × World σ :=
  let psize := dev.PageSize
  let w0 := emit (Out.readingHeader data.length dev.ProgStart psize) w
  let r := dev.FlashSetAddress b dev.ProgStart w0
  match r.1 with
  | Outcome.ok =>
    let l := FlashReadLoop b dev psize (data.length + 1) 0 (List.replicate 4096 0) data
      (emit Out.readingOpen r.2)
    (l.1, emit Out.newline l.2)
  | o => ((data, o), r.2)

/-- The loop of `Device.flashErase`. -/
def flashEraseLoop {σ : Type} (b : Bus σ) (dev : Device) (block_count : Int) :
    Nat → Nat → World σ → Outcome × World σ
  | 0, _, w => (Outcome.diverge, w)
  | fuel + 1, pos, w =>
    if (pos : Int) < block_count then
      let addr := u32 (dev.ProgStart + u32 (u32 pos * dev.PageSize))
      let r := dev.FlashSetAddress b addr (emit Out.hash w)
      match r.1 with
      | Outcome.ok =>
        let p := dev.waitProg b PROG_ERASE_PAGE (50 * Millisecond) r.2
        match p.1 with
        | Outcome.ok =>
          let e := dev.ErrorStatusByte b p.2
          if e.1 ≠ 0 then (Outcome.err (Error.eraseFailed addr pos block_count e.1), e.2)
          else flashEraseLoop b dev block_count fuel (pos + 1) e.2
        | o => (o, p.2)
      | o => (o, r.2)
    else (Outcome.ok, emit Out.closeBracket w)

/-- The method `Device.flashErase(block_count)`; the loop runs `block_count` times at most. -/
def Device.flashErase {σ : Type} (b : Bus σ) (dev : Device) (block_count : Int)
    (w : World σ) : Outcome × World σ :=
  let l := flashEraseLoop b dev block_count (block_count.toNat + 1) 0 (emit Out.erasingOpen w)
  (l.1, emit Out.newline l.2)

/-- The loop of `Device.flashWrite`: `buf` is the staging array `[4096]byte`, which is
allocated once and not cleared between pages. -/
def flashWriteLoop {σ : Type} (b : Bus σ) (dev : Device) (psize : Nat) (data : List Byte) :
    Nat → Nat → List Byte → World σ → Outcome × World σ
  | 0, _, _, w => (Outcome.diverge, w)
  | fuel + 1, pos, buf, w =>
    if pos < data.length then
      if psize ≤ 4096 then
        let buf1 := copy (buf.take psize) (data.drop pos) ++ buf.drop psize
        let r := dev.WriteBytes b ADDR_DATA (buf1.take psize) w
        match r.1 with
        | Outcome.ok =>
          let p := dev.waitProg b PROG_WRITE (3 * Millisecond) r.2
          match p.1 with
          | Outcome.ok =>
            let e := dev.ErrorStatusByte b p.2
            if e.1 ≠ 0 then (Outcome.err (Error.writeFailed e.1), e.2)
            else flashWriteLoop b dev psize data fuel (pos + psize) buf1 (emit Out.hash e.2)
          | o => (o, p.2)
        | o => (o, r.2)
      else (Outcome.crash (Crash.sliceBounds psize 4096), w)
    else (Outcome.ok, emit Out.closeBracket w)

/-- The method `Device.flashWrite(data)`. -/
def Device.flashWrite {σ : Type} (b : Bus σ) (dev : Device) (data : List Byte) (w : World σ) :
    Outcome × World σ :=
  let l := flashWriteLoop b dev dev.PageSize data (data.length + 1) 0 (List.replicate 4096 0)
    (emit Out.writingOpen w)
  (l.1, emit Out.newline l.2)

/-- The two printing loops `for j := start; (j < start+16) && (j < len(data)); j++` of
`Device.FlashWrite`, with `n` iterations left before `j` reaches `start + 16`; `item j` is
the byte printed at `j`. -/
def hexDumpLoop {σ : Type} (len : Nat) (item : Nat → Byte) : Nat → Nat → World σ → World σ
  | 0, _, w => w
  | n + 1, j, w => if j < len then hexDumpLoop len item n (j + 1) (emit (Out.hexByte (item j)) w) else w

/-- The body of `if data[i] != data_copy[i]` in `Device.FlashWrite` (lines 269 to 281): the
two dump lines, the error-status line and the error returned.  The expression `i & (^0xf)`
clears the low four bits of the non-negative `i`: it is `i - i % 16`.  The second dump loop
prints `data_copy[i]` at every `j`, as the source does. -/
def reportMismatch {σ : Type} (b : Bus σ) (dev : Device) (data data_copy : List Byte)
    (i : Nat) (w : World σ) : Outcome × World σ :=
  let start := i - i % 16
  let w1 := emit (Out.fileLabel (u32 (u32 start + dev.ProgStart))) w
  let w2 := emit Out.newline (hexDumpLoop data.length (fun j => data.getD j 0) 16 start w1)
  let w3 := emit (Out.readLabel (u32 (u32 start + dev.ProgStart))) w2
  let w4 := emit Out.newline (hexDumpLoop data.length (fun _ => data_copy.getD i 0) 16 start w3)
  let e := dev.ErrorStatusByte b w4
  (Outcome.err (Error.inconsistent (u32 (dev.ProgStart + u32 i)) i (data.getD i 0)
      (data_copy.getD i 0)), emit (Out.errorStatus e.1) e.2)

/-- The comparison loop of `Device.FlashWrite` (lines 267 to 285). -/
def verifyLoop {σ : Type} (b : Bus σ) (dev : Device) (data data_copy : List Byte) :
    Nat → Nat → World σ → Outcome × World σ
  | 0, _, w => (Outcome.diverge, w)
  | fuel + 1, i, w =>
    if i < data.length then
      if i < data_copy.length then
        if data.getD i 0 ≠ data_copy.getD i 0 then reportMismatch b dev data data_copy i w
        else verifyLoop b dev data data_copy fuel (i + 1) w
      else (Outcome.crash (Crash.indexRange i data_copy.length), w)
    else (Outcome.ok, emit Out.verified w)

/-- The method `Device.FlashWrite(data)`: erase, set the address, write, read back, compare. -/
def Device.FlashWrite {σ : Type} (b : Bus σ) (dev : Device) (data : List Byte) (w : World σ) :
    Outcome × World σ :=
  if dev.PageSize = 0 then (Outcome.crash Crash.divideByZero, w)
  else
    let er := dev.flashErase b
      (((data.length : Int) + ((dev.PageSize : Int) - 1)) / (dev.PageSize : Int)) w
    match er.1 with
    | Outcome.ok =>
      let sa := dev.FlashSetAddress b dev.ProgStart er.2
      match sa.1 with
      | Outcome.ok =>
        let wr := dev.flashWrite b data sa.2
        match wr.1 with
        | Outcome.ok =>
          let rd := dev.FlashRead b (List.replicate data.length 0) wr.2
          match rd.1.2 with
          | Outcome.ok => verifyLoop b dev data rd.1.1 (data.length + 1) 0 rd.2
          | o => (o, rd.2)
        | o => (o, wr.2)
      | o => (o, sa.2)
    | o => (o, er.2)

/-- The method `Device.FlashExit()`. -/
def Device.FlashExit {σ : Type} (b : Bus σ) (dev : Device) (w : World σ) :
    Option Error × World σ :=
  dev.WriteByte b ADDR_PROG PROG_EXIT w

/-- The method `Device.Close()`. -/
def Device.Close {σ : Type} (b : Bus σ) (_dev : Device) (w : World σ) : World σ :=
  busClose b w

/-! ## Session handshake -/

/-- The function `Open(i2c_bus, i2c_addr)`: the session or the error. -/
def Open {σ : Type} (b : Bus σ) (i2c_bus : Int) (i2c_addr : Byte) (w : World σ) :
    Except Error Device × World σ :=
  let req : List Byte := List.replicate 17 0
  let o := busOpen b i2c_bus w
  if o.1 < 0 then (Except.error (Error.busOpen i2c_bus), o.2)
  else
    let r1 := busReadBytes b i2c_addr ADDR_MARKER (req.take 4) o.2
    let req1 := r1.1.1 ++ req.drop 4
    match r1.1.2 with
    | some e => (Except.error e, busClose b r1.2)
    | none =>
      if req1.getD 0 0 ≠ 66 ∨ req1.getD 1 0 ≠ 79 ∨ req1.getD 2 0 ≠ 79 ∨ req1.getD 3 0 ≠ 84 then
        (Except.error (Error.signature (req1.take 4)), busClose b r1.2)
      else
        let r2 := busReadBytes b i2c_addr ADDR_MARKER req1 r1.2
        let req2 := r2.1.1
        match r2.1.2 with
        | some e => (Except.error e, busClose b r2.2)
        | none =>
          let McuId := (req2.getD 4 0).val ||| ((req2.getD 5 0).val <<< 8)
            ||| ((req2.getD 6 0).val <<< 16) ||| ((req2.getD 7 0).val <<< 24)
          let PageSize := (req2.getD 8 0).val ||| ((req2.getD 9 0).val <<< 8)
          let FlashSize := (req2.getD 10 0).val ||| ((req2.getD 11 0).val <<< 8)
          let ProgStart := (req2.getD 12 0).val ||| ((req2.getD 13 0).val <<< 8)
            ||| ((req2.getD 14 0).val <<< 16) ||| ((req2.getD 15 0).val <<< 24)
          let Version := req2.getD 16 0
          (Except.ok { Address := i2c_addr, I2cBus := o.1, McuId := McuId, PageSize := PageSize,
                       FlashSize := FlashSize, ProgStart := ProgStart, Version := Version }, r2.2)

/-- The 64 bytes `63, 62, ..., 0` of `Device.AutoTest`. -/
def autoTestPattern : List Byte := (List.range 64).map (fun i => toByte (63 - i))

/-- The comparison loop of `Device.AutoTest`, with `n` iterations left (`n = 64 - i`). -/
def autoTestLoop (buf : List Byte) : Nat → Nat → Outcome
  | 0, _ => Outcome.ok
  | n + 1, i =>
    if buf.getD i 0 ≠ toByte (63 - i) then Outcome.err (Error.autotest i)
    else autoTestLoop buf n (i + 1)

/-- The method `Device.AutoTest()`. -/
def Device.AutoTest {σ : Type} (b : Bus σ) (dev : Device) (w : World σ) : Outcome × World σ :=
  let wr := dev.WriteBytes b ADDR_DATA autoTestPattern w
  match wr.1 with
  | Outcome.ok =>
    let rd := dev.ReadBytes b ADDR_DATA autoTestPattern wr.2
    match rd.1.2 with
    | Outcome.ok => (autoTestLoop rd.1.1 64 0, rd.2)
    | o => (o, rd.2)
  | o => (o, wr.2)

/-! ## Vocabulary of the statements -/

/-- The world before anything happened, over the transport state `s`. -/
def World.start {σ : Type} (s : σ) : World σ := { bus := s, trace := [], out := [] }

/-- What a primitive transfer returned (`none` for the events that return no error). -/
def Event.result : Event → Option Error
  | Event.readBytes _ _ _ _ r => r
  | Event.writeBytes _ _ _ r => r
  | Event.readByte _ _ _ r => r
  | Event.writeByte _ _ _ r => r
  | _ => none

/-- The number of primitive transfers a chunked transfer of `data` is made of: one for at
most 32 bytes (also for none), one more for every further 32 bytes begun. -/
def numChunks (data : List Byte) : Nat := (data.length - 1) / 32 + 1

/-- The `k`-th consecutive 32-byte slice of `data`. -/
def chunk (data : List Byte) (k : Nat) : List Byte := (data.drop (32 * k)).take 32

/-! ## Model transports -/

/-- A transport on which every transfer succeeds, with nothing behind it: a read leaves the
slice as it is. -/
def nullBus : Bus Unit where
  OpenBus := fun s _ => (3, s)
  CloseBus := fun s => s
  ReadBytes := fun s _ _ d => ((d, none), s)
  WriteBytes := fun s _ _ _ => (none, s)
  ReadByte := fun s _ _ => ((0, none), s)
  WriteByte := fun s _ _ _ => (none, s)

/-- A transport that fails: its state is the number of transfers that still succeed, and
every transfer after them returns the transport error 5. -/
def flakyBus : Bus Nat where
  OpenBus := fun s _ => (3, s)
  CloseBus := fun s => s
  ReadBytes := fun s _ _ d =>
    match s with
    | 0 => ((d, some (Error.transport 5)), 0)
    | n + 1 => ((d, none), n)
  WriteBytes := fun s _ _ _ =>
    match s with
    | 0 => (some (Error.transport 5), 0)
    | n + 1 => (none, n)
  ReadByte := fun s _ _ =>
    match s with
    | 0 => ((0, some (Error.transport 5)), 0)
    | n + 1 => ((0, none), n)
  WriteByte := fun s _ _ _ =>
    match s with
    | 0 => (some (Error.transport 5), 0)
    | n + 1 => (none, n)

/-- The bytes of the registers `r, r + 1, ..., r + n - 1` of the register space `R`. -/
def regSlice (R : Nat → Byte) (r n : Nat) : List Byte := (List.range n).map (fun i => R (r + i))

/-- The register space `R` after `data` was stored from register `r` on. -/
def regStore (R : Nat → Byte) (r : Nat) (data : List Byte) : Nat → Byte :=
  fun x => if r ≤ x ∧ x < r + data.length then data.getD (x - r) 0 else R x

/-- A contiguous register space as a transport: a read of `n` bytes at register `r` returns
`R[r .. r+n)`, a write stores its bytes from register `r` on, and no transfer fails. -/
def regSpaceBus : Bus (Nat → Byte) where
  OpenBus := fun s _ => (3, s)
  CloseBus := fun s => s
  ReadBytes := fun s _ r d => ((regSlice s r.val d.length, none), s)
  WriteBytes := fun s _ r d => (none, regStore s r.val d)
  ReadByte := fun s _ r => ((s r.val, none), s)
  WriteByte := fun s _ r x => (none, regStore s r.val [x])

/-- A session at the default bus address 0x6C with pages of `psize` bytes and the
application flash at `progStart`. -/
def sessionOf (psize progStart : Nat) : Device :=
  { Address := 0x6C, I2cBus := 3, McuId := 0x440, PageSize := psize, FlashSize := 64,
    ProgStart := progStart, Version := 1 }

/-- The 17 header bytes of a device: "BOOT", chip id 0x440, pages of 1024 bytes, 64 KiB of
flash, the application at 0x08002000, version 1. -/
def sampleHeader : List Byte :=
  [66, 79, 79, 84, 0x40, 0x04, 0, 0, 0x00, 0x04, 64, 0, 0x00, 0x20, 0x00, 0x08, 1]

/-- The register space that holds 0 everywhere. -/
def zeroRegs : Nat → Byte := fun _ => 0

/-- The bus events of polls whose reads returned `rs`: every poll is one sleep of `gap`
followed by one read of the operation register. -/
def pollEvents (addr : Byte) (gap : Nat) (rs : List (Byte × Option Error)) : List Event :=
  rs.flatMap (fun p => [Event.sleep gap, Event.readByte addr ADDR_PROG p.1 p.2])

/-- The value of a little-endian byte sequence: the first byte is the least
significant. -/
def leValue : List Byte → Nat
  | [] => 0
  | x :: xs => x.val + 256 * leValue xs

/-- The bus events of one successful erase of page `kp.1`, whose polls read `kp.2`: the
address written to the target-address register, the ErasePage operation code, the polls,
and the read of the error status, which is 0. -/
def eraseCycle (dev : Device) (kp : Nat × List Byte) : List Event :=
  [Event.writeBytes dev.Address ADDR_ADDR (addrBytes (dev.ProgStart + kp.1 * dev.PageSize)) none,
   Event.writeByte dev.Address ADDR_PROG PROG_ERASE_PAGE none]
  ++ pollEvents dev.Address (50 * Millisecond) (kp.2.map (fun r => (r, none)))
  ++ [Event.readByte dev.Address ADDR_ERR 0 none]

/-- The indices `start <= j < min(start + 16, len)` that a dump loop of `Device.FlashWrite`
goes through. -/
def dumpIndices (len start : Nat) : List Nat := List.range' start (min 16 (len - start))

/-- The model device of the round trip.  Its register space is contiguous, with the data
window from register 24 on; `flash` is the flash memory, `cursor` the address cursor and
`pageSize` the page size of the device. -/
structure Chip where
  regs : Nat → Byte
  flash : Nat → Byte
  cursor : Nat
  pageSize : Nat

/-- The device runs the operation whose code is in register 19 and clears the register: a
Write programs the page in the data window at the cursor, a Read loads the page at the
cursor into the data window, both advance the cursor by one page; any other code does
nothing else. -/
def Chip.exec (c : Chip) : Chip :=
  if c.regs 19 = PROG_WRITE then
    { c with
      flash := fun a =>
        if c.cursor ≤ a ∧ a < c.cursor + c.pageSize then c.regs (24 + (a - c.cursor))
        else c.flash a,
      cursor := c.cursor + c.pageSize,
      regs := regStore c.regs 19 [0] }
  else if c.regs 19 = PROG_READ then
    { c with
      regs := regStore (regStore c.regs 24 (regSlice c.flash c.cursor c.pageSize)) 19 [0],
      cursor := c.cursor + c.pageSize }
  else { c with regs := regStore c.regs 19 [0] }

/-- The device receives `data` at register `r`: the bytes are stored; a write that reaches
the target-address registers 20 to 23 sets the cursor to their little-endian value; a
write that reaches register 19 starts the operation. -/
def Chip.write (c : Chip) (r : Nat) (data : List Byte) : Chip :=
  let c1 : Chip := { c with regs := regStore c.regs r data }
  let c2 : Chip :=
    if r < 24 ∧ 20 < r + data.length then { c1 with cursor := leValue (regSlice c1.regs 20 4) }
    else c1
  if r ≤ 19 ∧ 19 < r + data.length then c2.exec else c2

/-- The transport to the model device: no transfer fails, a read returns the registers
from `r` on and changes nothing. -/
def chipBus : Bus Chip where
  OpenBus := fun c _ => (3, c)
  CloseBus := fun c => c
  ReadBytes := fun c _ r d => ((regSlice c.regs r.val d.length, none), c)
  WriteBytes := fun c _ r d => (none, c.write r.val d)
  ReadByte := fun c _ r => ((c.regs r.val, none), c)
  WriteByte := fun c _ r x => (none, c.write r.val [x])

/-- A model device with pages of `psize` bytes, all registers 0, the flash holding `flash`
and the cursor at 0. -/
def Chip.fresh (psize : Nat) (flash : Nat → Byte) : Chip :=
  { regs := fun _ => 0, flash := flash, cursor := 0, pageSize := psize }

/-- The 8 bytes 1, 2, ..., 8. -/
def sampleImage : List Byte := [1, 2, 3, 4, 5, 6, 7, 8]

/-- The register a primitive transfer is addressed to. -/
def Event.reg : Event → Option Byte
  | Event.readBytes _ r _ _ _ => some r
  | Event.writeBytes _ r _ _ => some r
  | Event.readByte _ r _ _ => some r
  | Event.writeByte _ r _ _ => some r
  | _ => none

/-- Whether the event is a read of the error-status register (18). -/
def Event.isStatusRead : Event → Bool
  | Event.readByte _ r _ _ => decide (r = ADDR_ERR)
  | _ => false

/-- Whether the event is a write to the target-address register (20). -/
def Event.isAddrWrite : Event → Bool
  | Event.writeBytes _ r _ _ => decide (r = ADDR_ADDR)
  | _ => false

/-- Whether the event is the write of an operation code to the operation register (19). -/
def Event.isOp : Event → Bool
  | Event.writeByte _ r _ _ => decide (r = ADDR_PROG)
  | _ => false

/-- The byte `Device.ErrorStatusByte` returns for a read of the error-status register that
returned `got` and `res`. -/
def statusCode (got : Byte) (res : Option Error) : Byte :=
  match res with
  | some _ => 0x80
  | none => got

/-- A transport like `b` whose multi-byte reads return the byte of register `bad`
incremented by one: a device that corrupts one byte of what is read back. -/
def corruptReads {σ : Type} (b : Bus σ) (bad : Nat) : Bus σ where
  OpenBus := b.OpenBus
  CloseBus := b.CloseBus
  ReadBytes := fun s a r d =>
    let res := b.ReadBytes s a r d
    ((List.zipWith (fun i x => if r.val + i = bad then x + 1 else x)
        (List.range res.1.1.length) res.1.1, res.1.2), res.2)
  WriteBytes := b.WriteBytes
  ReadByte := b.ReadByte
  WriteByte := b.WriteByte

/-- A transport on which no transfer fails and every operation completes at once; its
state is the list of the bytes the next reads of the error-status register return (0 when
the list is used up). -/
def statusBus : Bus (List Byte) where
  OpenBus := fun s _ => (3, s)
  CloseBus := fun s => s
  ReadBytes := fun s _ _ d => ((d, none), s)
  WriteBytes := fun s _ _ _ => (none, s)
  ReadByte := fun s _ r =>
    if r = ADDR_ERR then ((s.headD 0, none), s.tail) else ((0, none), s)
  WriteByte := fun s _ _ _ => (none, s)

/-- The bus events of one successful read cycle of `Device.FlashRead`: the Read operation
(its code written to register 19 and the polls, whose reads returned `c.1`), then the read
of one page from the data-window register, in chunks; `c.2` are the chunks as read. -/
def readCycle (dev : Device) (c : List Byte × List (List Byte)) : List Event :=
  (Event.writeByte dev.Address ADDR_PROG PROG_READ none ::
    pollEvents dev.Address (1 * Millisecond) (c.1.map (fun r => (r, none))))
  ++ c.2.mapIdx (fun k g =>
      Event.readBytes dev.Address (toByte (ADDR_DATA.val + 32 * k)) g.length g none)

/-- A well-formed read cycle for pages of `psize` bytes: 1 to 3 polls of which only the last
read 0, and the chunks of one page: `(psize - 1) / 32 + 1` of them, the `k`-th of
`min 32 (psize - 32 k)` bytes, `psize` bytes in all. -/
def GoodCycle (psize : Nat) (c : List Byte × List (List Byte)) : Prop :=
  1 ≤ c.1.length ∧ c.1.length ≤ 3 ∧ c.1.getLast? = some 0 ∧ (∀ r ∈ c.1.dropLast, r ≠ 0) ∧
  c.2.length = (psize - 1) / 32 + 1 ∧
  (∀ k g, c.2[k]? = some g → g.length = min 32 (psize - 32 * k)) ∧
  c.2.flatten.length = psize

/-- Whether the event is a control transfer: a write to the target-address register or the
write of an operation code. -/
def Event.isControl (ev : Event) : Bool := ev.isAddrWrite || ev.isOp

/-- Whether the event is a read of the error-status register for which
`Device.ErrorStatusByte` returns a non-zero code. -/
def Event.isStatusFailure : Event → Bool
  | Event.readByte _ r got res => decide (r = ADDR_ERR) && decide (statusCode got res ≠ 0)
  | _ => false

/-- The address `dev.ProgStart + uint32(pos)*uint32(dev.PageSize)` of page `pos` in
`Device.flashErase`, a `uint32`. -/
def eraseAddr (dev : Device) (pos : Nat) : Nat :=
  u32 (dev.ProgStart + u32 (u32 pos * dev.PageSize))

/-- Transfers that all succeeded, none of them a read of the error-status register. -/
def Clean (evs : List Event) : Prop := ∀ ev ∈ evs, ev.result = none ∧ ev.isStatusRead = false

/-- How a run of transfers `evs` that returned `o` ended when transport errors are passed
on: either every transfer succeeded and the run returned nil or the timeout of the
operation `prog`; or the last transfer failed with `e`, every transfer before it succeeded,
and the run returned `e`.  No event of the run is a read of the error-status register. -/
def Passes (prog : Byte) (evs : List Event) (o : Outcome) : Prop :=
  (Clean evs ∧ (o = Outcome.ok ∨ o = Outcome.err (Error.timedOut prog))) ∨
  ∃ l ev e, evs = l ++ [ev] ∧ Clean l ∧ ev.result = some e ∧ ev.isStatusRead = false ∧
    o = Outcome.err e

/-- The control transfers of the erase of page `k`: the address of the page written to the
target-address register, then the ErasePage operation code. -/
def eraseControl (dev : Device) (k : Nat) : List Event :=
  [Event.writeBytes dev.Address ADDR_ADDR (addrBytes (eraseAddr dev k)) none,
   Event.writeByte dev.Address ADDR_PROG PROG_ERASE_PAGE none]

/-- How the loop of `Device.flashErase` ends at page `k`, with `tail` the transfers after
the last completed page and `o` the result: the loop is over (nil, or out of fuel); or a
step of page `k` passed a transport error or a timeout on; or the error status of page `k`
was read (or replaced by 0x80) as a non-zero code, after the address write, the operation
and its polls succeeded. -/
def EraseEnd (dev : Device) (n : Int) (k : Nat) (tail : List Event) (o : Outcome) : Prop :=
  (tail = [] ∧ ((o = Outcome.ok ∧ ¬ ((k : Int) < n)) ∨ o = Outcome.diverge)) ∨
  ((k : Int) < n ∧ Passes PROG_ERASE_PAGE tail o ∧ o ≠ Outcome.ok) ∨
  ((k : Int) < n ∧ ∃ head got res,
    tail = head ++ [Event.readByte dev.Address ADDR_ERR got res] ∧ Clean head ∧
    head.filter Event.isControl = eraseControl dev k ∧ statusCode got res ≠ 0 ∧
    o = Outcome.err (Error.eraseFailed (eraseAddr dev k) k n (statusCode got res)))

/-- How the loop of `Device.flashWrite` ends, with `tail` the transfers after the last
completed page and `o` the result: the loop is over (nil, out of fuel, or the panic of the
slice expression); or a step of the page passed a transport error or a timeout on; or the
error status of the page was read (or replaced by 0x80) as a non-zero code. -/
def WriteEnd (dev : Device) (tail : List Event) (o : Outcome) : Prop :=
  (tail = [] ∧ (o = Outcome.ok ∨ o = Outcome.diverge ∨ ∃ c, o = Outcome.crash c)) ∨
  (Passes PROG_WRITE tail o ∧ o ≠ Outcome.ok) ∨
  (∃ head got res,
    tail = head ++ [Event.readByte dev.Address ADDR_ERR got res] ∧ Clean head ∧
    statusCode got res ≠ 0 ∧ o = Outcome.err (Error.writeFailed (statusCode got res)))

/-! ## The command line: the case "read" of `process_command` (cmd/i2cflash.go) -/

/-- The `error` values of `process_command` in its case "read": an error of package
`device`, the `fmt.Errorf` sites of the case, and the errors of the two library calls. -/
inductive CmdError where
  /-- An error returned by `device.Open` or `FlashRead`. -/
  | device (e : Error)
  /-- The text "Missing file name parameter". -/
  | missingFileName
  /-- The text "Too many parameters". -/
  | tooManyParameters
  /-- The error of `strconv.ParseInt`. -/
  | parse
  /-- The text "Cannot read more than %d bytes from flash". -/
  | sizeLimit (limit : Int)
  /-- The error of `ioutil.WriteFile`. -/
  | writeFile (code : Nat)
  deriving DecidableEq

/-- How a call of `process_command` ends. -/
inductive CmdOutcome where
  /-- The call printed "OK" and returned `nil`. -/
  | ok
  /-- The call returned a non-nil error. -/
  | err (e : CmdError)
  /-- The call panicked. -/
  | crash (c : Crash)
  /-- The call does not return. -/
  | diverge
  deriving DecidableEq

/-- What a call of `process_command` leaves: how it ended, the buffer it passed to
`ioutil.WriteFile` (if it got there), and the world. -/
structure CmdResult (σ : Type) where
  outcome : CmdOutcome
  written : Option (List Byte)
  world : World σ

/-- The end of the case "read" (lines 77 to 82, the deferred `d.Close()` and the final
print), given what `d.FlashRead(buf)` returned: the buffer is written to the file `fname`.
The deferred `Close` runs on every return and on a panic. -/
def finishRead {σ : Type} (b : Bus σ) (d : Device) (writeFile : String → List Byte → Option Nat)
    (fname : String) (r : (List Byte × Outcome) × World σ) : CmdResult σ :=
  match r.1.2 with
  | Outcome.ok =>
    match writeFile fname r.1.1 with
    | some c => ⟨CmdOutcome.err (CmdError.writeFile c), some r.1.1, d.Close b r.2⟩
    | none => ⟨CmdOutcome.ok, some r.1.1, d.Close b r.2⟩
  | Outcome.err e => ⟨CmdOutcome.err (CmdError.device e), none, d.Close b r.2⟩
  | Outcome.crash c => ⟨CmdOutcome.crash c, none, d.Close b r.2⟩
  | Outcome.diverge => ⟨CmdOutcome.diverge, none, r.2⟩

/-- The case "read" of `process_command` (lines 43 to 82): `args` are the arguments
`fs.Args()`, of which the first is "read"; `parseInt s` is `strconv.ParseInt(s, 0, 32)` and
`writeFile` is `ioutil.WriteFile`, both of the standard library.  `bsize` and
`d.FlashSize-bsize` are `uint16` values; `length` is an `int`. -/
def process_command_read {σ : Type} (b : Bus σ) (i2c_addr : Byte)
    (parseInt : String → Option Int) (writeFile : String → List Byte → Option Nat)
    (args : List String) (w : World σ) : CmdResult σ :=
  if args.length < 2 then ⟨CmdOutcome.err CmdError.missingFileName, none, w⟩
  else if args.length > 3 then ⟨CmdOutcome.err CmdError.tooManyParameters, none, w⟩
  else
    let fname := args.getD 1 ""
    match (if args.length = 3 then parseInt (args.getD 2 "") else some (-1)) with
    | none => ⟨CmdOutcome.err CmdError.parse, none, w⟩
    | some length0 =>
      let o := Open b 1 i2c_addr w
      match o.1 with
      | Except.error e => ⟨CmdOutcome.err (CmdError.device e), none, o.2⟩
      | Except.ok d =>
        let bsize := u16 ((d.ProgStart &&& 0xFFFF) / 1024)
        let avail : Int := (((d.FlashSize : Int) - (bsize : Int)) % 65536) * 1024
        let length : Int := if length0 < 0 then avail else length0
        if length > avail then ⟨CmdOutcome.err (CmdError.sizeLimit avail), none, d.Close b o.2⟩
        else finishRead b d writeFile fname (d.FlashRead b (List.replicate length.toNat 0) o.2)

/-- The 17 header bytes of a small device: "BOOT", chip id 0x440, pages of 4 bytes, 9 KiB
of flash, the application at 0x08002000 (8 KiB of boot loader), version 1. -/
def smallHeader : List Byte :=
  [66, 79, 79, 84, 0x40, 0x04, 0, 0, 0x04, 0x00, 9, 0, 0x00, 0x20, 0x00, 0x08, 1]

/-- A model device that shows `smallHeader` in its registers 0 to 16, with pages of 4 bytes
and a flash that holds the low byte of every address. -/
def smallChip : Chip :=
  { regs := fun r => smallHeader.getD r 0, flash := fun a => toByte a, cursor := 0,
    pageSize := 4 }

/-- The run `evs` ends on a poll that timed out: its last transfers are three polls of the
operation register, each one sleep of `gap` and one read that returned a non-zero byte. -/
def TimedOutPoll (addr : Byte) (gap : Nat) (evs : List Event) : Prop :=
  ∃ (l : List Event) (g1 g2 g3 : Byte), g1 ≠ 0 ∧ g2 ≠ 0 ∧ g3 ≠ 0 ∧
    evs = l ++ pollEvents addr gap [(g1, none), (g2, none), (g3, none)]

/-! ## Register transport: lemmas -/

theorem toByte_val (r : Byte) : toByte r.val = r := by
  apply Fin.ext
  simp [toByte, Nat.mod_eq_of_lt r.isLt]

theorem toByte_add_toByte (r n k : Nat) : toByte ((toByte (r + n)).val + k) = toByte (r + (n + k)) := by
  apply Fin.ext
  simp only [toByte]
  omega

theorem numChunks_short (data : List Byte) (h : data.length ≤ 32) : numChunks data = 1 := by
  unfold numChunks
  omega

theorem numChunks_long (data : List Byte) (h : ¬ data.length ≤ 32) :
    numChunks data = numChunks (data.drop 32) + 1 := by
  unfold numChunks
  rw [List.length_drop]
  omega

theorem chunk_zero_short (data : List Byte) (h : data.length ≤ 32) : chunk data 0 = data := by
  simp [chunk, List.take_of_length_le h]

theorem chunk_succ (data : List Byte) (k : Nat) : chunk data (k + 1) = chunk (data.drop 32) k := by
  simp only [chunk, List.drop_drop]
  congr 2
  omega

/-- A failure in a list of transfers of which all but the last succeeded is the last one. -/
theorem failure_is_last {α : Type} (res : α → Option Error) (evs : List α)
    (h : ∀ ev ∈ evs.dropLast, res ev = none) (k : Nat) (ev : α) (e : Error)
    (hk : evs[k]? = some ev) (hf : res ev = some e) :
    evs.length = k + 1 ∧ evs.getLast? = some ev := by
  have hlt : k < evs.length := by
    rcases Nat.lt_or_ge k evs.length with h1 | h1
    · exact h1
    · rw [List.getElem?_eq_none h1] at hk
      cases hk
  have hlast : evs.length = k + 1 := by
    rcases Nat.lt_or_ge (k + 1) evs.length with h1 | h1
    · have hmem : ev ∈ evs.dropLast := by
        rw [List.mem_iff_getElem?]
        refine ⟨k, ?_⟩
        rw [List.getElem?_dropLast, if_pos (by omega)]
        exact hk
      rw [h ev hmem] at hf
      cases hf
    · omega
  refine ⟨hlast, ?_⟩
  rw [List.getLast?_eq_getElem?, hlast]
  simpa using hk

/-- The transfers issued by the loop of `Device.WriteBytes`: the `k`-th carries the `k`-th
32-byte slice to register `reg + 32 k` (8 bits), all but the last succeeded, and the loop
returns what the last returned. -/
theorem WriteBytesLoop_events {σ : Type} (b : Bus σ) (dev : Device) :
    ∀ (fuel : Nat) (reg : Byte) (data : List Byte) (w : World σ),
      data.length ≤ 32 * fuel → 0 < fuel →
      ∃ evs : List Event,
        (WriteBytesLoop b dev fuel reg data w).2.trace = w.trace ++ evs ∧
        evs ≠ [] ∧
        (∀ k ev, evs[k]? = some ev →
          k < numChunks data ∧
          ev = Event.writeBytes dev.Address (toByte (reg.val + 32 * k)) (chunk data k) ev.result) ∧
        (∀ ev ∈ evs.dropLast, ev.result = none) ∧
        (∀ ev, evs.getLast? = some ev →
          (WriteBytesLoop b dev fuel reg data w).1 = Outcome.ofError ev.result) ∧
        ((WriteBytesLoop b dev fuel reg data w).1 = Outcome.ok → evs.length = numChunks data) ∧
        (∀ ev ∈ evs, ∃ s r d, ev.result = (b.WriteBytes s dev.Address r d).1) := by
  intro fuel
  induction fuel with
  | zero => intro reg data w _ h0; omega
  | succ fuel ih =>
    intro reg data w hlen _
    by_cases hshort : data.length ≤ 32
    · refine ⟨[Event.writeBytes dev.Address reg data (b.WriteBytes w.bus dev.Address reg data).1],
        ?_, by simp, ?_, by simp, ?_, ?_, ?_⟩
      rotate_right
      · intro ev hev
        simp only [List.mem_singleton] at hev
        subst hev
        exact ⟨w.bus, reg, data, rfl⟩
      · simp [WriteBytesLoop, hshort, busWriteBytes]
      · intro k ev hk
        cases k with
        | zero =>
          simp only [List.getElem?_cons_zero, Option.some.injEq] at hk
          subst hk
          simp [numChunks_short data hshort, chunk_zero_short data hshort, toByte_val, Event.result]
        | succ k => simp at hk
      · intro ev hev
        simp only [List.getLast?_singleton, Option.some.injEq] at hev
        subst hev
        simp [WriteBytesLoop, hshort, busWriteBytes, Event.result]
      · intro _
        simp [numChunks_short data hshort]
    · cases hr : (b.WriteBytes w.bus dev.Address reg (data.take 32)).1 with
      | some e =>
        refine ⟨[Event.writeBytes dev.Address reg (data.take 32) (some e)],
          ?_, by simp, ?_, by simp, ?_, ?_, ?_⟩
        rotate_right
        · intro ev hev
          simp only [List.mem_singleton] at hev
          subst hev
          exact ⟨w.bus, reg, data.take 32, by simp [Event.result, hr]⟩
        · simp [WriteBytesLoop, hshort, busWriteBytes, hr]
        · intro k ev hk
          cases k with
          | zero =>
            simp only [List.getElem?_cons_zero, Option.some.injEq] at hk
            subst hk
            refine ⟨by unfold numChunks; omega, ?_⟩
            simp [chunk, toByte_val, Event.result]
          | succ k => simp at hk
        · intro ev hev
          simp only [List.getLast?_singleton, Option.some.injEq] at hev
          subst hev
          simp [WriteBytesLoop, hshort, busWriteBytes, hr, Event.result, Outcome.ofError]
        · intro hok
          simp [WriteBytesLoop, hshort, busWriteBytes, hr] at hok
      | none =>
        have hfuel : 0 < fuel := by omega
        have hlen2 : (data.drop 32).length ≤ 32 * fuel := by
          rw [List.length_drop]; omega
        obtain ⟨evs, htr, hne, hidx, hpre, hlast, hcount, hbus⟩ :=
          ih (toByte (reg.val + 32)) (data.drop 32)
            (busWriteBytes b dev.Address reg (data.take 32) w).2 hlen2 hfuel
        have hstep : WriteBytesLoop b dev (fuel + 1) reg data w =
            WriteBytesLoop b dev fuel (toByte (reg.val + 32)) (data.drop 32)
              (busWriteBytes b dev.Address reg (data.take 32) w).2 := by
          simp [WriteBytesLoop, hshort, busWriteBytes, hr]
        rw [hstep]
        refine ⟨Event.writeBytes dev.Address reg (data.take 32) none :: evs,
          ?_, by simp, ?_, ?_, ?_, ?_, ?_⟩
        rotate_right
        · intro ev hev
          rcases List.mem_cons.1 hev with h1 | h1
          · subst h1
            exact ⟨w.bus, reg, data.take 32, by simp [Event.result, hr]⟩
          · exact hbus ev h1
        · rw [htr]
          simp [busWriteBytes, hr]
        · intro k ev hk
          cases k with
          | zero =>
            simp only [List.getElem?_cons_zero, Option.some.injEq] at hk
            subst hk
            refine ⟨by unfold numChunks; omega, ?_⟩
            simp [chunk, toByte_val, Event.result]
          | succ k =>
            simp only [List.getElem?_cons_succ] at hk
            obtain ⟨h1, h2⟩ := hidx k ev hk
            refine ⟨by rw [numChunks_long data hshort]; omega, ?_⟩
            rw [chunk_succ, h2]
            simp only [Event.result]
            rw [toByte_add_toByte]
            congr 2
            omega
        · intro ev hev
          rw [List.dropLast_cons_of_ne_nil hne] at hev
          rcases List.mem_cons.1 hev with h1 | h1
          · subst h1; rfl
          · exact hpre ev h1
        · intro ev hev
          apply hlast
          cases evs with
          | nil => exact absurd rfl hne
          | cons a t => simpa using hev
        · intro hok
          rw [numChunks_long data hshort, List.length_cons, hcount hok]

/-- The consecutive 32-byte slices of `data`, put together again, are `data`. -/
theorem flatten_chunks : ∀ (n : Nat) (data : List Byte), data.length ≤ 32 * n → 0 < n →
    ((List.range (numChunks data)).map (chunk data)).flatten = data := by
  intro n
  induction n with
  | zero => intro data _ h0; omega
  | succ n ih =>
    intro data hlen _
    by_cases hshort : data.length ≤ 32
    · rw [numChunks_short data hshort]
      show ([chunk data 0]).flatten = data
      simp [chunk_zero_short data hshort]
    · have hlen2 : (data.drop 32).length ≤ 32 * n := by rw [List.length_drop]; omega
      have hn : 0 < n := by omega
      rw [numChunks_long data hshort, List.range_succ_eq_map, List.map_cons, List.map_map,
        List.flatten_cons]
      have hfun : (chunk data ∘ Nat.succ) = chunk (data.drop 32) := by
        funext k
        exact chunk_succ data k
      rw [hfun, ih (data.drop 32) hlen2 hn]
      simp [chunk]

theorem fill_of_length_eq (old new : List Byte) (h : new.length = old.length) :
    fill old new = new := by
  unfold fill
  rw [List.take_append_of_le_length (by omega), ← h, List.take_length]

theorem length_fill (old new : List Byte) : (fill old new).length = old.length := by
  unfold fill
  rw [List.length_take, List.length_append, List.length_drop]
  omega

/-- The transfers issued by the loop of `Device.ReadBytes`: all but the last succeeded, the
loop returns what the last returned, and the slice keeps its length. -/
theorem ReadBytesLoop_events {σ : Type} (b : Bus σ) (dev : Device) :
    ∀ (fuel : Nat) (reg : Byte) (data : List Byte) (w : World σ),
      data.length ≤ 32 * fuel → 0 < fuel →
      ∃ evs : List Event,
        (ReadBytesLoop b dev fuel reg data w).2.trace = w.trace ++ evs ∧
        evs ≠ [] ∧
        (∀ ev ∈ evs, ∃ r n g, ev = Event.readBytes dev.Address r n g ev.result) ∧
        (∀ ev ∈ evs.dropLast, ev.result = none) ∧
        (∀ ev, evs.getLast? = some ev →
          (ReadBytesLoop b dev fuel reg data w).1.2 = Outcome.ofError ev.result) ∧
        (ReadBytesLoop b dev fuel reg data w).1.1.length = data.length := by
  intro fuel
  induction fuel with
  | zero => intro reg data w _ h0; omega
  | succ fuel ih =>
    intro reg data w hlen _
    by_cases hshort : data.length ≤ 32
    · refine ⟨[Event.readBytes dev.Address reg data.length
          (fill data (b.ReadBytes w.bus dev.Address reg data).1.1)
          (b.ReadBytes w.bus dev.Address reg data).1.2], ?_, by simp, ?_, by simp, ?_, ?_⟩
      · simp [ReadBytesLoop, hshort, busReadBytes]
      · intro ev hev
        simp only [List.mem_singleton] at hev
        subst hev
        exact ⟨_, _, _, rfl⟩
      · intro ev hev
        simp only [List.getLast?_singleton, Option.some.injEq] at hev
        subst hev
        simp [ReadBytesLoop, hshort, busReadBytes, Event.result]
      · simp [ReadBytesLoop, hshort, busReadBytes, length_fill]
    · have htake : (data.take 32).length = 32 := by rw [List.length_take]; omega
      cases hr : (b.ReadBytes w.bus dev.Address reg (data.take 32)).1.2 with
      | some e =>
        refine ⟨[Event.readBytes dev.Address reg 32
            (fill (data.take 32) (b.ReadBytes w.bus dev.Address reg (data.take 32)).1.1)
            (some e)], ?_, by simp, ?_, by simp, ?_, ?_⟩
        · simp [ReadBytesLoop, hshort, busReadBytes, hr]
          omega
        · intro ev hev
          simp only [List.mem_singleton] at hev
          subst hev
          exact ⟨_, _, _, rfl⟩
        · intro ev hev
          simp only [List.getLast?_singleton, Option.some.injEq] at hev
          subst hev
          simp [ReadBytesLoop, hshort, busReadBytes, hr, Event.result, Outcome.ofError]
        · simp [ReadBytesLoop, hshort, busReadBytes, hr, length_fill]
          omega
      | none =>
        have hfuel : 0 < fuel := by omega
        have hlen2 : (data.drop 32).length ≤ 32 * fuel := by
          rw [List.length_drop]; omega
        obtain ⟨evs, htr, hne, hkind, hpre, hlast, hlength⟩ :=
          ih (toByte (reg.val + 32)) (data.drop 32)
            (busReadBytes b dev.Address reg (data.take 32) w).2 hlen2 hfuel
        have hstep : ReadBytesLoop b dev (fuel + 1) reg data w =
            (((busReadBytes b dev.Address reg (data.take 32) w).1.1 ++
                (ReadBytesLoop b dev fuel (toByte (reg.val + 32)) (data.drop 32)
                  (busReadBytes b dev.Address reg (data.take 32) w).2).1.1,
              (ReadBytesLoop b dev fuel (toByte (reg.val + 32)) (data.drop 32)
                  (busReadBytes b dev.Address reg (data.take 32) w).2).1.2),
             (ReadBytesLoop b dev fuel (toByte (reg.val + 32)) (data.drop 32)
                  (busReadBytes b dev.Address reg (data.take 32) w).2).2) := by
          simp [ReadBytesLoop, hshort, busReadBytes, hr]
        rw [hstep]
        refine ⟨Event.readBytes dev.Address reg 32
            (fill (data.take 32) (b.ReadBytes w.bus dev.Address reg (data.take 32)).1.1)
            none :: evs, ?_, by simp, ?_, ?_, ?_, ?_⟩
        · simp only [htr]
          simp [busReadBytes, hr]
          omega
        · intro ev hev
          rcases List.mem_cons.1 hev with h1 | h1
          · subst h1
            exact ⟨_, _, _, rfl⟩
          · exact hkind ev h1
        · intro ev hev
          rw [List.dropLast_cons_of_ne_nil hne] at hev
          rcases List.mem_cons.1 hev with h1 | h1
          · subst h1; rfl
          · exact hpre ev h1
        · intro ev hev
          apply hlast
          cases evs with
          | nil => exact absurd rfl hne
          | cons a t => simpa using hev
        · simp only [List.length_append, hlength]
          simp [busReadBytes, length_fill]
          omega

theorem regSlice_length (R : Nat → Byte) (r n : Nat) : (regSlice R r n).length = n := by
  simp [regSlice]

theorem regSlice_append (R : Nat → Byte) (r m n : Nat) :
    regSlice R r (m + n) = regSlice R r m ++ regSlice R (r + m) n := by
  simp only [regSlice, List.range_add, List.map_append, List.map_map]
  congr 1
  apply List.map_congr_left
  intro i _
  simp [Nat.add_assoc]

/-- Over a transport whose reads return the registers `view s` and change nothing, the
loop of `Device.ReadBytes` returns the registers from `reg` on, as long as the register
offset of the last chunk does not pass 255. -/
theorem ReadBytesLoop_view {σ : Type} (b : Bus σ) (view : σ → Nat → Byte)
    (hread : ∀ s a r d, b.ReadBytes s a r d = ((regSlice (view s) r.val d.length, none), s))
    (dev : Device) :
    ∀ (fuel : Nat) (reg : Byte) (data : List Byte) (w : World σ),
      data.length ≤ 32 * fuel → 0 < fuel → reg.val + 32 * ((data.length - 1) / 32) ≤ 255 →
      (ReadBytesLoop b dev fuel reg data w).1 =
          (regSlice (view w.bus) reg.val data.length, Outcome.ok) ∧
      (ReadBytesLoop b dev fuel reg data w).2.bus = w.bus ∧
      (ReadBytesLoop b dev fuel reg data w).2.out = w.out := by
  intro fuel
  induction fuel with
  | zero => intro reg data w _ h0; omega
  | succ fuel ih =>
    intro reg data w hlen _ hfit
    by_cases hshort : data.length ≤ 32
    · simp [ReadBytesLoop, hshort, busReadBytes, hread, Outcome.ofError,
        fill_of_length_eq _ _ (regSlice_length _ _ _)]
    · have htake : (data.take 32).length = 32 := by rw [List.length_take]; omega
      have hfuel : 0 < fuel := by omega
      have hdrop : (data.drop 32).length = data.length - 32 := List.length_drop 32 data
      have hlen2 : (data.drop 32).length ≤ 32 * fuel := by omega
      have hval : (toByte (reg.val + 32)).val = reg.val + 32 := by
        simp only [toByte]
        omega
      have hfit2 : (toByte (reg.val + 32)).val + 32 * (((data.drop 32).length - 1) / 32) ≤ 255 := by
        omega
      obtain ⟨h1, h2, h3⟩ := ih (toByte (reg.val + 32)) (data.drop 32)
        (busReadBytes b dev.Address reg (data.take 32) w).2 hlen2 hfuel hfit2
      have hbus : (busReadBytes b dev.Address reg (data.take 32) w).2.bus = w.bus := by
        simp [busReadBytes, hread]
      have hsplit : data.length = 32 + (data.length - 32) := by omega
      refine ⟨?_, ?_, ?_⟩
      · simp only [ReadBytesLoop, hshort, if_false]
        have hr : (busReadBytes b dev.Address reg (data.take 32) w).1 =
            (regSlice (view w.bus) reg.val 32, none) := by
          simp [busReadBytes, hread, htake, fill_of_length_eq _ _
            (show (regSlice (view w.bus) reg.val 32).length = (data.take 32).length by
              rw [regSlice_length, htake])]
        simp only [hr, h1, hbus, hval, hdrop]
        rw [hsplit, regSlice_append]
        simp
      · simp only [ReadBytesLoop, hshort, if_false]
        have hr : (busReadBytes b dev.Address reg (data.take 32) w).1.2 = none := by
          simp [busReadBytes, hread]
        simp only [hr, h2, hbus]
      · simp only [ReadBytesLoop, hshort, if_false]
        have hr : (busReadBytes b dev.Address reg (data.take 32) w).1.2 = none := by
          simp [busReadBytes, hread]
        simp only [hr, h3]
        simp [busReadBytes]

/-! ## Claims -/

/-- C2 (amended): when every primitive write succeeds, `Device.WriteBytes(offset, data)`
returns nil after issuing exactly the primitive writes of the consecutive 32-byte slices of
`data`: the `k`-th write carries the `k`-th slice and is addressed to register
`(offset + 32 k) mod 256`; the slices put together are `data`, each has at most 32 bytes,
each but the last has exactly 32, and an empty `data` gives one empty write. -/
theorem WriteBytes_chunked {σ : Type} (b : Bus σ) (dev : Device) (reg : Byte) (data : List Byte)
    (w : World σ) (hok : ∀ s a r d, (b.WriteBytes s a r d).1 = none) :
    (dev.WriteBytes b reg data w).1 = Outcome.ok ∧
    (dev.WriteBytes b reg data w).2.trace = w.trace ++ (List.range (numChunks data)).map
      (fun k => Event.writeBytes dev.Address (toByte (reg.val + 32 * k)) (chunk data k) none) ∧
    (∀ k, (toByte (reg.val + 32 * k)).val = (reg.val + 32 * k) % 256) ∧
    ((List.range (numChunks data)).map (chunk data)).flatten = data ∧
    (∀ k, (chunk data k).length ≤ 32) ∧
    (∀ k, k + 1 < numChunks data → (chunk data k).length = 32) ∧
    (data = [] → numChunks data = 1 ∧ chunk data 0 = []) := by
  obtain ⟨evs, htr, hne, hidx, _, hlast, hcount, hbus⟩ :=
    WriteBytesLoop_events b dev (data.length + 1) reg data w (by omega) (by omega)
  have hnone : ∀ ev ∈ evs, ev.result = none := by
    intro ev hev
    obtain ⟨s, r, d, h⟩ := hbus ev hev
    rw [h, hok]
  have hres : (dev.WriteBytes b reg data w).1 = Outcome.ok := by
    obtain ⟨l, a, rfl⟩ : ∃ l a, evs = l ++ [a] := by
      refine ⟨evs.dropLast, evs.getLast hne, ?_⟩
      exact (List.dropLast_concat_getLast hne).symm
    have h := hlast a (List.getLast?_concat l)
    rw [hnone a (by simp)] at h
    exact h
  refine ⟨hres, ?_, ?_, ?_, ?_, ?_, ?_⟩
  · show (WriteBytesLoop b dev (data.length + 1) reg data w).2.trace = _
    rw [htr]
    congr 1
    apply List.ext_getElem?
    intro k
    have hlength := hcount hres
    by_cases hk : k < numChunks data
    · have hk2 : k < evs.length := by omega
      rw [List.getElem?_eq_getElem hk2, List.getElem?_map, List.getElem?_range hk]
      obtain ⟨_, h2⟩ := hidx k evs[k] (List.getElem?_eq_getElem hk2)
      rw [hnone evs[k] (List.getElem_mem hk2)] at h2
      simp [h2]
    · rw [List.getElem?_eq_none (by omega), List.getElem?_eq_none (by simp; omega)]
  · intro k
    simp [toByte]
  · exact flatten_chunks (data.length + 1) data (by omega) (by omega)
  · intro k
    simp only [chunk, List.length_take]
    omega
  · intro k hk
    unfold numChunks at hk
    simp only [chunk, List.length_take, List.length_drop]
    omega
  · intro h
    subst h
    exact ⟨rfl, rfl⟩

/-- C2, witness: 70 bytes written at register 24 over a transport that never fails. -/
theorem WriteBytes_chunked_witness :
    ((sessionOf 128 0).WriteBytes nullBus 24 (List.replicate 70 7) (World.start ())).2.trace =
      [Event.writeBytes 0x6C 24 (List.replicate 32 7) none,
       Event.writeBytes 0x6C 56 (List.replicate 32 7) none,
       Event.writeBytes 0x6C 88 (List.replicate 6 7) none] := by
  have h := (WriteBytes_chunked nullBus (sessionOf 128 0) 24 (List.replicate 70 7)
    (World.start ()) (fun _ _ _ _ => rfl)).2.1
  rw [h]
  decide

/-- C2, as stated, fails: 33 bytes written at register 250 over a transport that never
fails put their second chunk at register 26, not at register 250 + 32 = 282. -/
theorem WriteBytes_register_wraps :
    ((sessionOf 128 0).WriteBytes nullBus 250 (List.replicate 33 7) (World.start ())).2.trace =
      [Event.writeBytes 0x6C 250 (List.replicate 32 7) none,
       Event.writeBytes 0x6C 26 [7] none] ∧
    ((26 : Byte).val ≠ 250 + 32 * 1) := by
  decide

/-- C3: over a contiguous register space `R` (a read of `n` bytes at register `r` returns
`R[r .. r+n)`), for every offset and buffer with `offset + len(buffer) <= 256`,
`Device.ReadBytes(offset, buffer)` returns nil and leaves the buffer equal to
`R[offset .. offset+n)`, which is what one unchunked transfer of the whole buffer gives;
the register space is left as it was. -/
theorem ReadBytes_chunked_eq_unchunked (dev : Device) (reg : Byte) (buffer : List Byte)
    (w : World (Nat → Byte)) (hfit : reg.val + buffer.length ≤ 256) :
    (dev.ReadBytes regSpaceBus reg buffer w).1 =
      (regSlice w.bus reg.val buffer.length, Outcome.ok) ∧
    (dev.ReadBytes regSpaceBus reg buffer w).1.1 =
      (busReadBytes regSpaceBus dev.Address reg buffer w).1.1 ∧
    (dev.ReadBytes regSpaceBus reg buffer w).2.bus = w.bus := by
  obtain ⟨h1, h2, _⟩ := ReadBytesLoop_view regSpaceBus (fun s => s) (fun _ _ _ _ => rfl) dev
    (buffer.length + 1) reg buffer w (by omega) (by omega) (by have := reg.isLt; omega)
  refine ⟨h1, ?_, h2⟩
  show (ReadBytesLoop regSpaceBus dev (buffer.length + 1) reg buffer w).1.1 = _
  rw [h1]
  simp [busReadBytes, regSpaceBus, fill_of_length_eq _ _ (regSlice_length _ _ _)]

/-- C3, witness: 70 bytes read at register 186, the last of them register 255, from the
register space that holds `r` at register `r`. -/
theorem ReadBytes_chunked_eq_unchunked_witness :
    (186 : Byte).val + (List.replicate 70 (0 : Byte)).length ≤ 256 ∧
    ((sessionOf 128 0).ReadBytes regSpaceBus 186 (List.replicate 70 0)
        (World.start (fun r => toByte r))).1 =
      ((List.range 70).map (fun i => toByte (186 + i)), Outcome.ok) :=
  ⟨by decide,
   (ReadBytes_chunked_eq_unchunked (sessionOf 128 0) 186 (List.replicate 70 0)
      (World.start (fun r => toByte r)) (by decide)).1.trans rfl⟩

/-- C4: in a run of `Device.WriteBytes`, and in a run of `Device.ReadBytes`, a primitive
transfer that fails with error `e`, the `k`-th of the run counted from 0, ends the run:
the operation returns exactly `e`, the run issued `k + 1` transfers in all (the `k` before
it, which all succeeded, and none after it), and each of them is a primitive transfer of
that kind to the device. -/
theorem chunk_failure_aborts {σ : Type} (b : Bus σ) (dev : Device) (reg : Byte)
    (data : List Byte) (w : World σ) (k : Nat) (ev : Event) (e : Error) :
    (((dev.WriteBytes b reg data w).2.trace)[w.trace.length + k]? = some ev →
      ev.result = some e →
      (dev.WriteBytes b reg data w).1 = Outcome.err e ∧
      (dev.WriteBytes b reg data w).2.trace.length = w.trace.length + (k + 1) ∧
      (dev.WriteBytes b reg data w).2.trace.take w.trace.length = w.trace ∧
      (∀ j x, ((dev.WriteBytes b reg data w).2.trace)[w.trace.length + j]? = some x →
        (∃ r d, x = Event.writeBytes dev.Address r d x.result) ∧ (j < k → x.result = none))) ∧
    (((dev.ReadBytes b reg data w).2.trace)[w.trace.length + k]? = some ev →
      ev.result = some e →
      (dev.ReadBytes b reg data w).1.2 = Outcome.err e ∧
      (dev.ReadBytes b reg data w).2.trace.length = w.trace.length + (k + 1) ∧
      (dev.ReadBytes b reg data w).2.trace.take w.trace.length = w.trace ∧
      (∀ j x, ((dev.ReadBytes b reg data w).2.trace)[w.trace.length + j]? = some x →
        (∃ r n g, x = Event.readBytes dev.Address r n g x.result) ∧
        (j < k → x.result = none))) := by
  constructor
  · obtain ⟨evs, htr, _, hidx, hpre, hlast, _, _⟩ :=
      WriteBytesLoop_events b dev (data.length + 1) reg data w (by omega) (by omega)
    have htr2 : (dev.WriteBytes b reg data w).2.trace = w.trace ++ evs := htr
    intro hk hf
    rw [htr2, List.getElem?_append_right (by omega), Nat.add_sub_cancel_left] at hk
    obtain ⟨hlen, hl⟩ := failure_is_last Event.result evs hpre k ev e hk hf
    refine ⟨?_, ?_, ?_, ?_⟩
    · have h := hlast ev hl
      rw [hf] at h
      exact h
    · rw [htr2, List.length_append, hlen]
    · rw [htr2, List.take_left]
    · intro j x hx
      rw [htr2, List.getElem?_append_right (by omega), Nat.add_sub_cancel_left] at hx
      refine ⟨⟨_, _, (hidx j x hx).2⟩, ?_⟩
      intro hj
      apply hpre
      rw [List.mem_iff_getElem?]
      refine ⟨j, ?_⟩
      rw [List.getElem?_dropLast, if_pos (by omega)]
      exact hx
  · obtain ⟨evs, htr, _, hkind, hpre, hlast, _⟩ :=
      ReadBytesLoop_events b dev (data.length + 1) reg data w (by omega) (by omega)
    have htr2 : (dev.ReadBytes b reg data w).2.trace = w.trace ++ evs := htr
    intro hk hf
    rw [htr2, List.getElem?_append_right (by omega), Nat.add_sub_cancel_left] at hk
    obtain ⟨hlen, hl⟩ := failure_is_last Event.result evs hpre k ev e hk hf
    refine ⟨?_, ?_, ?_, ?_⟩
    · have h := hlast ev hl
      rw [hf] at h
      exact h
    · rw [htr2, List.length_append, hlen]
    · rw [htr2, List.take_left]
    · intro j x hx
      rw [htr2, List.getElem?_append_right (by omega), Nat.add_sub_cancel_left] at hx
      have hmem : x ∈ evs := by
        rw [List.mem_iff_getElem?]
        exact ⟨j, hx⟩
      refine ⟨hkind x hmem, ?_⟩
      intro hj
      apply hpre
      rw [List.mem_iff_getElem?]
      refine ⟨j, ?_⟩
      rw [List.getElem?_dropLast, if_pos (by omega)]
      exact hx

/-- C4, witness: 70 bytes at register 24 over a transport whose second transfer fails: the
write and the read both return the transport's error after two transfers. -/
theorem chunk_failure_aborts_witness :
    ((sessionOf 128 0).WriteBytes flakyBus 24 (List.replicate 70 7) (World.start 1)).1 =
      Outcome.err (Error.transport 5) ∧
    ((sessionOf 128 0).WriteBytes flakyBus 24 (List.replicate 70 7) (World.start 1)).2.trace.length
      = 2 ∧
    ((sessionOf 128 0).ReadBytes flakyBus 24 (List.replicate 70 7) (World.start 1)).1.2 =
      Outcome.err (Error.transport 5) ∧
    ((sessionOf 128 0).ReadBytes flakyBus 24 (List.replicate 70 7) (World.start 1)).2.trace.length
      = 2 :=
  have hw := (chunk_failure_aborts flakyBus (sessionOf 128 0) 24 (List.replicate 70 7)
    (World.start 1) 1
    (Event.writeBytes 0x6C 56 (List.replicate 32 7) (some (Error.transport 5)))
    (Error.transport 5)).1 (by decide) (by decide)
  have hr := (chunk_failure_aborts flakyBus (sessionOf 128 0) 24 (List.replicate 70 7)
    (World.start 1) 1
    (Event.readBytes 0x6C 56 32 (List.replicate 32 7) (some (Error.transport 5)))
    (Error.transport 5)).2 (by decide) (by decide)
  ⟨hw.1, hw.2.1, hr.1, hr.2.1⟩

theorem list_length_four {α : Type} (l : List α) (h : l.length = 4) :
    ∃ a b c d, l = [a, b, c, d] := by
  match l, h with
  | [a, b, c, d], _ => exact ⟨a, b, c, d, rfl⟩

/-- C5: when the bus opens and the 4-byte read at register 0 succeeds with bytes other than
'B','O','O','T' (66, 79, 79, 84), `Open` returns the signature error carrying the bytes
read, and no session; its whole bus activity is the opening, that one 4-byte read and one
closing of the handle: the 17-byte read is not issued. -/
theorem Open_rejects_signature {σ : Type} (b : Bus σ) (i2c_bus : Int) (i2c_addr : Byte)
    (w : World σ)
    (hopen : ¬ (b.OpenBus w.bus i2c_bus).1 < 0)
    (hread : (b.ReadBytes (b.OpenBus w.bus i2c_bus).2 i2c_addr ADDR_MARKER
      (List.replicate 4 0)).1.2 = none)
    (hsig : fill (List.replicate 4 0) (b.ReadBytes (b.OpenBus w.bus i2c_bus).2 i2c_addr
      ADDR_MARKER (List.replicate 4 0)).1.1 ≠ [66, 79, 79, 84]) :
    (Open b i2c_bus i2c_addr w).1 = Except.error (Error.signature
      (fill (List.replicate 4 0) (b.ReadBytes (b.OpenBus w.bus i2c_bus).2 i2c_addr
        ADDR_MARKER (List.replicate 4 0)).1.1)) ∧
    (Open b i2c_bus i2c_addr w).2.trace = w.trace ++
      [Event.openBus i2c_bus (b.OpenBus w.bus i2c_bus).1,
       Event.readBytes i2c_addr ADDR_MARKER 4
         (fill (List.replicate 4 0) (b.ReadBytes (b.OpenBus w.bus i2c_bus).2 i2c_addr
           ADDR_MARKER (List.replicate 4 0)).1.1) none,
       Event.closeBus] := by
  obtain ⟨x0, x1, x2, x3, hx⟩ := list_length_four _ (length_fill (List.replicate 4 0)
    (b.ReadBytes (b.OpenBus w.bus i2c_bus).2 i2c_addr ADDR_MARKER (List.replicate 4 0)).1.1)
  rw [hx] at hsig ⊢
  have hcond : x0 ≠ 66 ∨ x1 ≠ 79 ∨ x2 ≠ 79 ∨ x3 ≠ 84 := by
    by_contra hcon
    simp only [not_or, not_not] at hcon
    obtain ⟨h0, h1, h2, h3⟩ := hcon
    exact hsig (by rw [h0, h1, h2, h3])
  have htake : List.take 4 (List.replicate 17 (0 : Byte)) = List.replicate 4 0 := rfl
  unfold Open
  simp only [busOpen, busReadBytes, busClose, htake, hopen, hread, hx, if_false]
  simp [hcond]

/-- C5, witness: a register space of zeros answers the signature read with four zero
bytes. -/
theorem Open_rejects_signature_witness :
    (Open regSpaceBus 1 0x6C (World.start (fun _ => 0))).1 =
      Except.error (Error.signature [0, 0, 0, 0]) ∧
    (Open regSpaceBus 1 0x6C (World.start (fun _ => 0))).2.trace =
      [Event.openBus 1 3, Event.readBytes 0x6C 0 4 [0, 0, 0, 0] none, Event.closeBus] :=
  Open_rejects_signature regSpaceBus 1 0x6C (World.start (fun _ => 0)) (by decide) rfl
    (by decide)

theorem lor_shiftLeft (x c i : Nat) (h : x < 2 ^ i) : x ||| (c <<< i) = x + 2 ^ i * c := by
  rw [Nat.lor_comm, Nat.shiftLeft_eq, Nat.mul_comm c, ← Nat.mul_add_lt_is_or h c, Nat.add_comm]

theorem lor_bytes2 (a b : Byte) : a.val ||| (b.val <<< 8) = a.val + 2 ^ 8 * b.val :=
  lor_shiftLeft a.val b.val 8 a.isLt

theorem lor_bytes4 (a b c d : Byte) :
    a.val ||| (b.val <<< 8) ||| (c.val <<< 16) ||| (d.val <<< 24) =
      a.val + 2 ^ 8 * b.val + 2 ^ 16 * c.val + 2 ^ 24 * d.val := by
  have ha := a.isLt
  have hb := b.isLt
  have hc := c.isLt
  rw [lor_bytes2, lor_shiftLeft _ c.val 16 (by omega), lor_shiftLeft _ d.val 24 (by omega)]

/-- C6: when the bus opens, the 4-byte read at register 0 returns 'B','O','O','T' and the
second read, of 17 bytes at register 0, returns the header `h`, `Open` returns the session
with `mcuId = h[4] + 2^8 h[5] + 2^16 h[6] + 2^24 h[7]`, `pageSize = h[8] + 2^8 h[9]`,
`flashSize = h[10] + 2^8 h[11]`, `progStart = h[12] + 2^8 h[13] + 2^16 h[14] + 2^24 h[15]`,
`version = h[16]`, the address argument as its address and the opened handle as its bus;
and `h` has 17 bytes. -/
theorem Open_decodes_header {σ : Type} (b : Bus σ) (i2c_bus : Int) (i2c_addr : Byte)
    (w : World σ) (h : List Byte)
    (hopen : ¬ (busOpen b i2c_bus w).1 < 0)
    (hread1 : (busReadBytes b i2c_addr ADDR_MARKER (List.replicate 4 0)
      (busOpen b i2c_bus w).2).1 = ([66, 79, 79, 84], none))
    (hread2 : (busReadBytes b i2c_addr ADDR_MARKER ([66, 79, 79, 84] ++ List.replicate 13 0)
      (busReadBytes b i2c_addr ADDR_MARKER (List.replicate 4 0) (busOpen b i2c_bus w).2).2).1
      = (h, none)) :
    (Open b i2c_bus i2c_addr w).1 = Except.ok
      { Address := i2c_addr,
        I2cBus := (busOpen b i2c_bus w).1,
        McuId := (h.getD 4 0).val + 2 ^ 8 * (h.getD 5 0).val + 2 ^ 16 * (h.getD 6 0).val
          + 2 ^ 24 * (h.getD 7 0).val,
        PageSize := (h.getD 8 0).val + 2 ^ 8 * (h.getD 9 0).val,
        FlashSize := (h.getD 10 0).val + 2 ^ 8 * (h.getD 11 0).val,
        ProgStart := (h.getD 12 0).val + 2 ^ 8 * (h.getD 13 0).val
          + 2 ^ 16 * (h.getD 14 0).val + 2 ^ 24 * (h.getD 15 0).val,
        Version := h.getD 16 0 } ∧
    h.length = 17 := by
  have htake : List.take 4 (List.replicate 17 (0 : Byte)) = List.replicate 4 0 := rfl
  have hdrop : List.drop 4 (List.replicate 17 (0 : Byte)) = List.replicate 13 0 := rfl
  have hlen : h.length = 17 := by
    have h1 := congrArg Prod.fst hread2
    simp only [busReadBytes] at h1
    rw [← h1, length_fill]
    rfl
  refine ⟨?_, hlen⟩
  unfold Open
  simp only [htake, hdrop, hopen, hread1, hread2, if_false]
  rw [if_neg (by decide), lor_bytes4, lor_bytes4, lor_bytes2, lor_bytes2]

/-- C6, witness: the register space that holds `sampleHeader` from register 0 on. -/
theorem Open_decodes_header_witness :
    (Open regSpaceBus 1 0x6C (World.start (fun r => sampleHeader.getD r 0))).1 = Except.ok
      { Address := 0x6C, I2cBus := 3, McuId := 0x440, PageSize := 1024, FlashSize := 64,
        ProgStart := 0x08002000, Version := 1 } :=
  (Open_decodes_header regSpaceBus 1 0x6C (World.start (fun r => sampleHeader.getD r 0))
    sampleHeader (by decide) (by decide) (by decide)).1

theorem mem_dropLast_cons {α : Type} (x p : α) (l : List α) (h : p ∈ (x :: l).dropLast) :
    p = x ∨ p ∈ l.dropLast := by
  cases l with
  | nil => simp at h
  | cons y t =>
    rw [List.dropLast_cons_of_ne_nil (by simp)] at h
    exact List.mem_cons.1 h

theorem pollEvents_cons (addr : Byte) (gap : Nat) (p : Byte × Option Error)
    (rs : List (Byte × Option Error)) :
    pollEvents addr gap (p :: rs) =
      Event.sleep gap :: Event.readByte addr ADDR_PROG p.1 p.2 :: pollEvents addr gap rs := by
  simp [pollEvents, List.flatMap]

/-- The polls of the loop of `Device.waitProg`: at most `n`, each a sleep and a read of
register 19; all but the last read a non-zero byte without error, and the loop ends on a
read of 0 (nil), on a failed read (its error) or, after `n` non-zero reads, on the timeout
error. -/
theorem waitProgLoop_trace {σ : Type} (b : Bus σ) (dev : Device) (prog : Byte) (gap : Nat) :
    ∀ (n : Nat) (w : World σ), ∃ rs : List (Byte × Option Error),
      rs.length ≤ n ∧
      (waitProgLoop b dev prog gap n w).2.trace = w.trace ++ pollEvents dev.Address gap rs ∧
      (waitProgLoop b dev prog gap n w).2.out = w.out ∧
      (∀ p ∈ rs, ∃ s, p = (b.ReadByte s dev.Address ADDR_PROG).1) ∧
      (∀ p ∈ rs.dropLast, p.2 = none ∧ p.1 ≠ 0) ∧
      ((rs.getLast? = some (0, none) ∧ (waitProgLoop b dev prog gap n w).1 = Outcome.ok) ∨
       (∃ r e, rs.getLast? = some (r, some e) ∧
          (waitProgLoop b dev prog gap n w).1 = Outcome.err e) ∨
       (rs.length = n ∧ (∀ p ∈ rs, p.2 = none ∧ p.1 ≠ 0) ∧
          (waitProgLoop b dev prog gap n w).1 = Outcome.err (Error.timedOut prog))) := by
  intro n
  induction n with
  | zero =>
    intro w
    exact ⟨[], by simp, by simp [waitProgLoop, pollEvents], rfl, by simp, by simp,
      Or.inr (Or.inr ⟨rfl, by simp, rfl⟩)⟩
  | succ n ih =>
    intro w
    have hrd : (Device.ReadByte b dev ADDR_PROG (sleep gap w)) =
        ((b.ReadByte w.bus dev.Address ADDR_PROG).1,
         { bus := (b.ReadByte w.bus dev.Address ADDR_PROG).2,
           trace := w.trace ++ [Event.sleep gap] ++
             [Event.readByte dev.Address ADDR_PROG (b.ReadByte w.bus dev.Address ADDR_PROG).1.1
               (b.ReadByte w.bus dev.Address ADDR_PROG).1.2],
           out := w.out }) := rfl
    cases herr : (b.ReadByte w.bus dev.Address ADDR_PROG).1.2 with
    | some e =>
      refine ⟨[((b.ReadByte w.bus dev.Address ADDR_PROG).1.1, some e)], by simp, ?_, ?_,
        ?_, by simp, Or.inr (Or.inl ⟨_, e, rfl, ?_⟩)⟩
      · simp [waitProgLoop, hrd, herr, pollEvents]
      · simp [waitProgLoop, hrd, herr]
      · intro p hp
        simp only [List.mem_singleton] at hp
        exact ⟨w.bus, by rw [hp, ← herr]⟩
      · simp [waitProgLoop, hrd, herr]
    | none =>
      by_cases hzero : (b.ReadByte w.bus dev.Address ADDR_PROG).1.1 = 0
      · refine ⟨[(0, none)], by simp, ?_, ?_, ?_, by simp, Or.inl ⟨rfl, ?_⟩⟩
        · simp [waitProgLoop, hrd, herr, hzero, pollEvents]
        · simp [waitProgLoop, hrd, herr, hzero]
        · intro p hp
          simp only [List.mem_singleton] at hp
          exact ⟨w.bus, by rw [hp, ← herr, ← hzero]⟩
        · simp [waitProgLoop, hrd, herr, hzero]
      · obtain ⟨rs, hlen, htr, hout, hsrc, hpre, hend⟩ :=
          ih (Device.ReadByte b dev ADDR_PROG (sleep gap w)).2
        have hstep : waitProgLoop b dev prog gap (n + 1) w =
            waitProgLoop b dev prog gap n (Device.ReadByte b dev ADDR_PROG (sleep gap w)).2 := by
          simp [waitProgLoop, herr, hzero, hrd]
        rw [hstep]
        have hp0 : ∀ p, p = ((b.ReadByte w.bus dev.Address ADDR_PROG).1.1, (none : Option Error)) →
            p.2 = none ∧ p.1 ≠ 0 := by
          intro p hp
          rw [hp]
          exact ⟨rfl, hzero⟩
        refine ⟨((b.ReadByte w.bus dev.Address ADDR_PROG).1.1, none) :: rs, by simp; omega,
          ?_, ?_, ?_, ?_, ?_⟩
        · rw [htr, hrd, pollEvents_cons]
          simp [herr]
        · rw [hout, hrd]
        · intro p hp
          rcases List.mem_cons.1 hp with h1 | h1
          · exact ⟨w.bus, by rw [h1, ← herr]⟩
          · exact hsrc p h1
        · intro p hp
          rcases mem_dropLast_cons _ _ _ hp with h1 | h1
          · exact hp0 p h1
          · exact hpre p h1
        · rcases hend with ⟨h1, h2⟩ | ⟨r, e, h1, h2⟩ | ⟨h1, h2, h3⟩
          · exact Or.inl ⟨by rw [List.getLast?_cons, h1]; rfl, h2⟩
          · exact Or.inr (Or.inl ⟨r, e, by rw [List.getLast?_cons, h1]; rfl, h2⟩)
          · refine Or.inr (Or.inr ⟨by simp [h1], ?_, h3⟩)
            intro p hp
            rcases List.mem_cons.1 hp with h4 | h4
            · exact hp0 p h4
            · exact h2 p h4

theorem map_fst_none (rs : List (Byte × Option Error)) (h : ∀ p ∈ rs, p.2 = none) :
    (rs.map Prod.fst).map (fun r => (r, (none : Option Error))) = rs := by
  induction rs with
  | nil => rfl
  | cons p t ih =>
    have hp := h p (by simp)
    have ht := ih (fun q hq => h q (by simp [hq]))
    simp only [List.map_cons, ht]
    congr 1
    exact Prod.ext rfl hp.symm

/-- C7: over a transport that never fails, `Device.waitProg(prog, gap)` writes `prog` once
to register 19 and then polls it `j` times, `1 <= j <= 3`, every poll being one sleep of
`gap` followed by one read of register 19; the reads before the last are non-zero; either
the last read is 0 and the result is nil, or there were 3 polls, all non-zero, and the
result is the timeout error naming `prog`.  When register 19 never reads 0 the result is
the timeout after exactly 3 polls. -/
theorem waitProg_poll_bound {σ : Type} (b : Bus σ) (dev : Device) (prog : Byte) (gap : Nat)
    (w : World σ)
    (hW : ∀ s a r x, (b.WriteByte s a r x).1 = none)
    (hR : ∀ s a r, (b.ReadByte s a r).1.2 = none) :
    ∃ rs : List Byte,
      1 ≤ rs.length ∧ rs.length ≤ 3 ∧
      (dev.waitProg b prog gap w).2.trace =
        w.trace ++ Event.writeByte dev.Address ADDR_PROG prog none ::
          pollEvents dev.Address gap (rs.map (fun r => (r, none))) ∧
      (∀ r ∈ rs.dropLast, r ≠ 0) ∧
      ((rs.getLast? = some 0 ∧ (dev.waitProg b prog gap w).1 = Outcome.ok) ∨
       (rs.length = 3 ∧ (∀ r ∈ rs, r ≠ 0) ∧
          (dev.waitProg b prog gap w).1 = Outcome.err (Error.timedOut prog))) ∧
      ((∀ s a, (b.ReadByte s a ADDR_PROG).1.1 ≠ 0) →
        rs.length = 3 ∧ (dev.waitProg b prog gap w).1 = Outcome.err (Error.timedOut prog)) := by
  have hstep : dev.waitProg b prog gap w =
      waitProgLoop b dev prog gap 3 (dev.WriteByte b ADDR_PROG prog w).2 := by
    simp [Device.waitProg, Device.WriteByte, busWriteByte, hW]
  obtain ⟨rs, hlen, htr, _, hsrc, hpre, hend⟩ :=
    waitProgLoop_trace b dev prog gap 3 (dev.WriteByte b ADDR_PROG prog w).2
  rw [hstep]
  have hnone : ∀ p ∈ rs, p.2 = none := by
    intro p hp
    obtain ⟨s, hs⟩ := hsrc p hp
    rw [hs, hR]
  have hend2 : (rs.getLast? = some (0, none) ∧
        (waitProgLoop b dev prog gap 3 (dev.WriteByte b ADDR_PROG prog w).2).1 = Outcome.ok) ∨
      (rs.length = 3 ∧ (∀ p ∈ rs, p.2 = none ∧ p.1 ≠ 0) ∧
        (waitProgLoop b dev prog gap 3 (dev.WriteByte b ADDR_PROG prog w).2).1 =
          Outcome.err (Error.timedOut prog)) := by
    rcases hend with h1 | ⟨r, e, h1, _⟩ | h1
    · exact Or.inl h1
    · have hmem : (r, some e) ∈ rs := List.mem_of_getLast?_eq_some h1
      have := hnone _ hmem
      cases this
    · exact Or.inr h1
  refine ⟨rs.map Prod.fst, ?_, by simpa using hlen, ?_, ?_, ?_, ?_⟩
  · rcases hend2 with ⟨h1, _⟩ | ⟨h1, _⟩
    · cases rs with
      | nil => simp at h1
      | cons a t => simp
    · simp [h1]
  · rw [htr, map_fst_none rs hnone]
    simp [Device.WriteByte, busWriteByte, hW]
  · intro r hr
    rw [← List.map_dropLast] at hr
    obtain ⟨p, hp, rfl⟩ := List.mem_map.1 hr
    exact (hpre p hp).2
  · rcases hend2 with ⟨h1, h2⟩ | ⟨h1, h2, h3⟩
    · refine Or.inl ⟨?_, h2⟩
      rw [List.getLast?_map, h1]
      rfl
    · refine Or.inr ⟨by simpa using h1, ?_, h3⟩
      intro r hr
      obtain ⟨p, hp, rfl⟩ := List.mem_map.1 hr
      exact (h2 p hp).2
  · intro hstuck
    rcases hend2 with ⟨h1, _⟩ | ⟨h1, _, h3⟩
    · have hmem : ((0 : Byte), (none : Option Error)) ∈ rs := List.mem_of_getLast?_eq_some h1
      obtain ⟨s, hs⟩ := hsrc _ hmem
      have := hstuck s dev.Address
      rw [← hs] at this
      exact absurd rfl this
    · exact ⟨by simpa using h1, h3⟩

/-- C7, witness: on a register space the operation register keeps the code written to it,
so the erase code is never seen to return to 0. -/
theorem waitProg_poll_bound_witness :
    ∃ rs : List Byte,
      1 ≤ rs.length ∧ rs.length ≤ 3 ∧
      ((sessionOf 128 0).waitProg regSpaceBus PROG_ERASE_PAGE (50 * Millisecond)
          (World.start zeroRegs)).2.trace =
        (World.start zeroRegs).trace ++
          Event.writeByte (sessionOf 128 0).Address ADDR_PROG PROG_ERASE_PAGE none ::
          pollEvents (sessionOf 128 0).Address (50 * Millisecond) (rs.map (fun r => (r, none))) ∧
      (∀ r ∈ rs.dropLast, r ≠ 0) ∧
      ((rs.getLast? = some 0 ∧
          ((sessionOf 128 0).waitProg regSpaceBus PROG_ERASE_PAGE (50 * Millisecond)
            (World.start zeroRegs)).1 = Outcome.ok) ∨
       (rs.length = 3 ∧ (∀ r ∈ rs, r ≠ 0) ∧
          ((sessionOf 128 0).waitProg regSpaceBus PROG_ERASE_PAGE (50 * Millisecond)
            (World.start zeroRegs)).1 = Outcome.err (Error.timedOut PROG_ERASE_PAGE))) ∧
      ((∀ s a, (regSpaceBus.ReadByte s a ADDR_PROG).1.1 ≠ 0) →
        rs.length = 3 ∧
          ((sessionOf 128 0).waitProg regSpaceBus PROG_ERASE_PAGE (50 * Millisecond)
            (World.start zeroRegs)).1 = Outcome.err (Error.timedOut PROG_ERASE_PAGE)) :=
  waitProg_poll_bound regSpaceBus (sessionOf 128 0) PROG_ERASE_PAGE (50 * Millisecond)
    (World.start zeroRegs) (fun _ _ _ _ => rfl) (fun _ _ _ => rfl)

/-- A transfer of at most 32 bytes is one primitive write. -/
theorem WriteBytes_short {σ : Type} (b : Bus σ) (dev : Device) (reg : Byte) (data : List Byte)
    (w : World σ) (h : data.length ≤ 32) :
    dev.WriteBytes b reg data w =
      (Outcome.ofError (busWriteBytes b dev.Address reg data w).1,
       (busWriteBytes b dev.Address reg data w).2) := by
  simp [Device.WriteBytes, WriteBytesLoop, h]

theorem ofError_eq_ok (r : Option Error) : Outcome.ofError r = Outcome.ok ↔ r = none := by
  cases r <;> simp [Outcome.ofError]

/-- What `Device.FlashSetAddress` does when it returns nil. -/
theorem FlashSetAddress_ok {σ : Type} (b : Bus σ) (dev : Device) (addr : Nat) (w : World σ)
    (hok : (dev.FlashSetAddress b addr w).1 = Outcome.ok) :
    (dev.FlashSetAddress b addr w).2.trace =
      w.trace ++ [Event.writeBytes dev.Address ADDR_ADDR (addrBytes addr) none] ∧
    (dev.FlashSetAddress b addr w).2.out = w.out ∧
    (dev.FlashSetAddress b addr w).2.bus =
      (b.WriteBytes w.bus dev.Address ADDR_ADDR (addrBytes addr)).2 := by
  have hshort : (addrBytes addr).length ≤ 32 := by simp [addrBytes]
  unfold Device.FlashSetAddress at hok ⊢
  rw [WriteBytes_short b dev _ _ w hshort] at hok ⊢
  rw [ofError_eq_ok] at hok
  simp only [busWriteBytes] at hok ⊢
  simp [hok]

/-- What `Device.waitProg` does when it returns nil: the write of the code, and 1 to 3
polls of which the last, and only the last, read 0. -/
theorem waitProg_ok {σ : Type} (b : Bus σ) (dev : Device) (prog : Byte) (gap : Nat)
    (w : World σ) (hok : (dev.waitProg b prog gap w).1 = Outcome.ok) :
    ∃ rs : List Byte,
      1 ≤ rs.length ∧ rs.length ≤ 3 ∧ rs.getLast? = some 0 ∧ (∀ r ∈ rs.dropLast, r ≠ 0) ∧
      (dev.waitProg b prog gap w).2.trace =
        w.trace ++ Event.writeByte dev.Address ADDR_PROG prog none ::
          pollEvents dev.Address gap (rs.map (fun r => (r, none))) ∧
      (dev.waitProg b prog gap w).2.out = w.out := by
  cases hwr : (b.WriteByte w.bus dev.Address ADDR_PROG prog).1 with
  | some e =>
    simp [Device.waitProg, Device.WriteByte, busWriteByte, hwr] at hok
  | none =>
    have hstep : dev.waitProg b prog gap w =
        waitProgLoop b dev prog gap 3 (dev.WriteByte b ADDR_PROG prog w).2 := by
      simp [Device.waitProg, Device.WriteByte, busWriteByte, hwr]
    rw [hstep] at hok ⊢
    obtain ⟨rs, hlen, htr, hout, _, hpre, hend⟩ :=
      waitProgLoop_trace b dev prog gap 3 (dev.WriteByte b ADDR_PROG prog w).2
    have hlast : rs.getLast? = some (0, none) := by
      rcases hend with ⟨h1, _⟩ | ⟨r, e, _, h2⟩ | ⟨_, _, h3⟩
      · exact h1
      · rw [hok] at h2; cases h2
      · rw [hok] at h3; cases h3
    obtain ⟨ys, hys⟩ := List.getLast?_eq_some_iff.1 hlast
    have hnone : ∀ p ∈ rs, p.2 = none := by
      intro p hp
      rw [hys] at hp hpre
      rw [List.dropLast_concat] at hpre
      rcases List.mem_append.1 hp with h1 | h1
      · exact (hpre p h1).1
      · simp only [List.mem_singleton] at h1
        rw [h1]
    refine ⟨rs.map Prod.fst, ?_, by simpa using hlen, ?_, ?_, ?_, ?_⟩
    · rw [hys]; simp
    · rw [List.getLast?_map, hlast]; rfl
    · intro r hr
      rw [← List.map_dropLast] at hr
      obtain ⟨p, hp, rfl⟩ := List.mem_map.1 hr
      exact (hpre p hp).2
    · rw [htr, map_fst_none rs hnone]
      simp [Device.WriteByte, busWriteByte, hwr]
    · rw [hout]
      rfl

/-- What `Device.ErrorStatusByte` does when it returns 0. -/
theorem ErrorStatusByte_zero {σ : Type} (b : Bus σ) (dev : Device) (w : World σ)
    (h0 : (dev.ErrorStatusByte b w).1 = 0) :
    (dev.ErrorStatusByte b w).2.trace =
      w.trace ++ [Event.readByte dev.Address ADDR_ERR 0 none] ∧
    (dev.ErrorStatusByte b w).2.out = w.out := by
  cases herr : (b.ReadByte w.bus dev.Address ADDR_ERR).1.2 with
  | some e =>
    simp [Device.ErrorStatusByte, Device.ReadByte, busReadByte, herr] at h0
  | none =>
    simp only [Device.ErrorStatusByte, Device.ReadByte, busReadByte, herr] at h0 ⊢
    simp [h0]

theorem u32_of_lt (x : Nat) (h : x < 2 ^ 32) : u32 x = x := Nat.mod_eq_of_lt h

/-- One iteration of the loop of `Device.flashErase` that is followed by a nil result. -/
theorem flashEraseLoop_step {σ : Type} (b : Bus σ) (dev : Device) (block_count : Int)
    (fuel pos : Nat) (w : World σ) (hpos : (pos : Int) < block_count)
    (hok : (flashEraseLoop b dev block_count (fuel + 1) pos w).1 = Outcome.ok) :
    (dev.FlashSetAddress b (u32 (dev.ProgStart + u32 (u32 pos * dev.PageSize)))
      (emit Out.hash w)).1 = Outcome.ok ∧
    (dev.waitProg b PROG_ERASE_PAGE (50 * Millisecond)
      (dev.FlashSetAddress b (u32 (dev.ProgStart + u32 (u32 pos * dev.PageSize)))
        (emit Out.hash w)).2).1 = Outcome.ok ∧
    (dev.ErrorStatusByte b (dev.waitProg b PROG_ERASE_PAGE (50 * Millisecond)
      (dev.FlashSetAddress b (u32 (dev.ProgStart + u32 (u32 pos * dev.PageSize)))
        (emit Out.hash w)).2).2).1 = 0 ∧
    flashEraseLoop b dev block_count (fuel + 1) pos w =
      flashEraseLoop b dev block_count fuel (pos + 1)
        (dev.ErrorStatusByte b (dev.waitProg b PROG_ERASE_PAGE (50 * Millisecond)
          (dev.FlashSetAddress b (u32 (dev.ProgStart + u32 (u32 pos * dev.PageSize)))
            (emit Out.hash w)).2).2).2 := by
  simp only [flashEraseLoop, hpos, if_true] at hok ⊢
  cases hr : (dev.FlashSetAddress b (u32 (dev.ProgStart + u32 (u32 pos * dev.PageSize)))
      (emit Out.hash w)).1 <;> simp only [hr] at hok ⊢ <;> try (cases hok)
  cases hp : (dev.waitProg b PROG_ERASE_PAGE (50 * Millisecond)
      (dev.FlashSetAddress b (u32 (dev.ProgStart + u32 (u32 pos * dev.PageSize)))
        (emit Out.hash w)).2).1 <;> simp only [hp] at hok ⊢ <;> try (cases hok)
  by_cases he : (dev.ErrorStatusByte b (dev.waitProg b PROG_ERASE_PAGE (50 * Millisecond)
      (dev.FlashSetAddress b (u32 (dev.ProgStart + u32 (u32 pos * dev.PageSize)))
        (emit Out.hash w)).2).2).1 = 0
  · simp [he]
  · simp [he] at hok

/-- The erase addresses do not wrap when the last of them fits 32 bits. -/
theorem erase_addr_eq (dev : Device) (n pos : Nat) (hps : 1 ≤ dev.PageSize)
    (hfit : dev.ProgStart + n * dev.PageSize < 2 ^ 32) (hpos : pos < n) :
    u32 (dev.ProgStart + u32 (u32 pos * dev.PageSize)) = dev.ProgStart + pos * dev.PageSize := by
  have h1 : pos * dev.PageSize ≤ n * dev.PageSize := Nat.mul_le_mul_right _ (Nat.le_of_lt hpos)
  have h2 : pos ≤ pos * dev.PageSize := Nat.le_mul_of_pos_right pos hps
  rw [u32_of_lt pos (by omega), u32_of_lt (pos * dev.PageSize) (by omega),
    u32_of_lt _ (by omega)]

/-- The trace of the loop of `Device.flashErase` when it returns nil, from page `pos` on. -/
theorem flashEraseLoop_trace {σ : Type} (b : Bus σ) (dev : Device) (n : Nat)
    (hps : 1 ≤ dev.PageSize) (hfit : dev.ProgStart + n * dev.PageSize < 2 ^ 32) :
    ∀ (m pos : Nat) (w : World σ), pos + m = n →
      (flashEraseLoop b dev (n : Int) (m + 1) pos w).1 = Outcome.ok →
      ∃ pl : List (List Byte), pl.length = m ∧
        (∀ rs ∈ pl, 1 ≤ rs.length ∧ rs.length ≤ 3 ∧ rs.getLast? = some 0 ∧
          ∀ r ∈ rs.dropLast, r ≠ 0) ∧
        (flashEraseLoop b dev (n : Int) (m + 1) pos w).2.trace =
          w.trace ++ ((List.range' pos m).zip pl).flatMap (eraseCycle dev) := by
  intro m
  induction m with
  | zero =>
    intro pos w hpos _
    refine ⟨[], rfl, by simp, ?_⟩
    have hcond : ¬ ((pos : Int) < (n : Int)) := by omega
    simp [flashEraseLoop, hcond, emit]
  | succ m ih =>
    intro pos w hpos hok
    have hcond : (pos : Int) < (n : Int) := by omega
    obtain ⟨h1, h2, h3, hstep⟩ := flashEraseLoop_step b dev (n : Int) (m + 1) pos w hcond hok
    rw [hstep] at hok ⊢
    rw [erase_addr_eq dev n pos hps hfit (by omega)] at h1 h2 h3 hok ⊢
    obtain ⟨pl, hlen, hpl, htr⟩ := ih (pos + 1) _ (by omega) hok
    obtain ⟨ha, _, _⟩ := FlashSetAddress_ok b dev _ _ h1
    obtain ⟨rs, hr1, hr2, hr3, hr4, hp, _⟩ := waitProg_ok b dev _ _ _ h2
    obtain ⟨he, _⟩ := ErrorStatusByte_zero b dev _ h3
    refine ⟨rs :: pl, by simp [hlen], ?_, ?_⟩
    · intro x hx
      rcases List.mem_cons.1 hx with h | h
      · rw [h]
        exact ⟨hr1, hr2, hr3, hr4⟩
      · exact hpl x h
    · rw [htr, he, hp, ha, List.range'_succ, List.zip_cons_cons, List.flatMap_cons]
      simp [eraseCycle, emit]

theorem leValue_addrBytes (a : Nat) (h : a < 2 ^ 32) : leValue (addrBytes a) = a := by
  simp only [leValue, addrBytes, toByte, Nat.shiftRight_eq_div_pow]
  omega

/-- C8: when `flashErase(n)` returns nil (every erase completed with error status 0), with
`pageSize >= 1` and `progStart + n * pageSize < 2^32`, its bus activity is, for
`k = 0, 1, ..., n - 1` in this order, the write of the four little-endian bytes of
`progStart + k * pageSize` to the target-address register, one ErasePage operation (the
code written to register 19, then 1 to 3 polls ending on a read of 0) and one read of the
error status; the addresses are strictly ascending. -/
theorem flashErase_ascending {σ : Type} (b : Bus σ) (dev : Device) (n : Nat) (w : World σ)
    (hps : 1 ≤ dev.PageSize) (hfit : dev.ProgStart + n * dev.PageSize < 2 ^ 32)
    (hok : (dev.flashErase b (n : Int) w).1 = Outcome.ok) :
    ∃ pl : List (List Byte), pl.length = n ∧
      (∀ rs ∈ pl, 1 ≤ rs.length ∧ rs.length ≤ 3 ∧ rs.getLast? = some 0 ∧
        ∀ r ∈ rs.dropLast, r ≠ 0) ∧
      (dev.flashErase b (n : Int) w).2.trace =
        w.trace ++ ((List.range n).zip pl).flatMap (eraseCycle dev) ∧
      (∀ k, k < n → leValue (addrBytes (dev.ProgStart + k * dev.PageSize)) =
        dev.ProgStart + k * dev.PageSize) ∧
      List.Pairwise (fun x y => x < y)
        ((List.range n).map (fun k => dev.ProgStart + k * dev.PageSize)) := by
  have hfuel : (n : Int).toNat + 1 = n + 1 := by simp
  have hok2 : (flashEraseLoop b dev (n : Int) (n + 1) 0 (emit Out.erasingOpen w)).1 =
      Outcome.ok := by
    simpa [Device.flashErase] using hok
  obtain ⟨pl, hlen, hpl, htr⟩ :=
    flashEraseLoop_trace b dev n hps hfit n 0 (emit Out.erasingOpen w) (by omega) hok2
  refine ⟨pl, hlen, hpl, ?_, ?_, ?_⟩
  · simp only [Device.flashErase, hfuel, emit] at htr ⊢
    rw [htr, List.range_eq_range']
  · intro k hk
    have h1 : k * dev.PageSize ≤ n * dev.PageSize := Nat.mul_le_mul_right _ (Nat.le_of_lt hk)
    exact leValue_addrBytes _ (by omega)
  · rw [List.pairwise_map]
    refine (List.pairwise_lt_range n).imp ?_
    intro x y hxy
    have h1 : x * dev.PageSize < y * dev.PageSize := Nat.mul_lt_mul_of_pos_right hxy hps
    omega

/-- C8, witness: three pages of 128 bytes erased from 0x08002000 over the transport that
reads 0 everywhere, so that every erase completes at its first poll with status 0. -/
theorem flashErase_ascending_witness :
    ((sessionOf 128 0x08002000).flashErase nullBus 3 (World.start ())).2.trace =
      ((List.range 3).zip [[0], [0], [(0 : Byte)]]).flatMap
        (eraseCycle (sessionOf 128 0x08002000)) ∧
    ∃ pl : List (List Byte), pl.length = 3 ∧
      (∀ rs ∈ pl, 1 ≤ rs.length ∧ rs.length ≤ 3 ∧ rs.getLast? = some 0 ∧
        ∀ r ∈ rs.dropLast, r ≠ 0) ∧
      ((sessionOf 128 0x08002000).flashErase nullBus ((3 : Nat) : Int) (World.start ())).2.trace =
        (World.start ()).trace ++
          ((List.range 3).zip pl).flatMap (eraseCycle (sessionOf 128 0x08002000)) ∧
      (∀ k, k < 3 → leValue (addrBytes ((sessionOf 128 0x08002000).ProgStart
          + k * (sessionOf 128 0x08002000).PageSize)) =
        (sessionOf 128 0x08002000).ProgStart + k * (sessionOf 128 0x08002000).PageSize) ∧
      List.Pairwise (fun x y => x < y)
        ((List.range 3).map (fun k => (sessionOf 128 0x08002000).ProgStart
          + k * (sessionOf 128 0x08002000).PageSize)) :=
  ⟨by decide,
   flashErase_ascending nullBus (sessionOf 128 0x08002000) 3 (World.start ()) (by decide)
     (by decide) (by decide)⟩

set_option maxRecDepth 1000000 in
/-- C9, the code at the failing input: pages of 2 bytes and the image 1, 2, 3.  The second
page written to the data window is 3, 2: its tail is the second byte of the first page,
not 0. -/
theorem flashWrite_stale_padding :
    ((sessionOf 2 0).flashWrite nullBus [1, 2, 3] (World.start ())).2.trace.filter
        (fun ev => match ev with
          | Event.writeBytes _ _ _ _ => true
          | _ => false) =
      [Event.writeBytes 0x6C ADDR_DATA [1, 2] none, Event.writeBytes 0x6C ADDR_DATA [3, 2] none] ∧
    ((sessionOf 2 0).flashWrite nullBus [1, 2, 3] (World.start ())).1 = Outcome.ok := by
  decide

theorem length_copy (dst src : List Byte) : (copy dst src).length = dst.length := by
  simp only [copy, List.length_append, List.length_take, List.length_drop]
  omega

/-- The loop of `Device.FlashRead` keeps the length of the destination. -/
theorem FlashReadLoop_length {σ : Type} (b : Bus σ) (dev : Device) (psize : Nat) :
    ∀ (fuel pos : Nat) (buf data : List Byte) (w : World σ),
      (FlashReadLoop b dev psize fuel pos buf data w).1.1.length = data.length := by
  intro fuel
  induction fuel with
  | zero => intro pos buf data w; rfl
  | succ fuel ih =>
    intro pos buf data w
    simp only [FlashReadLoop]
    split
    · rename_i hpos
      split
      · split
        · split
          · rw [ih]
            simp only [List.length_append, List.length_take, length_copy, List.length_drop]
            omega
          · rfl
        · rfl
      · rfl
    · rfl

/-- The method `Device.FlashRead` keeps the length of the destination. -/
theorem FlashRead_length {σ : Type} (b : Bus σ) (dev : Device) (data : List Byte)
    (w : World σ) : (dev.FlashRead b data w).1.1.length = data.length := by
  simp only [Device.FlashRead]
  split
  · exact FlashReadLoop_length b dev _ _ _ _ _ _
  · rfl

/-- A dump loop prints the byte `item j` for every `j` from its start up to the end of its
window or of the data, and does nothing else. -/
theorem hexDumpLoop_eq {σ : Type} (len : Nat) (item : Nat → Byte) :
    ∀ (n j : Nat) (w : World σ),
      hexDumpLoop len item n j w =
        { bus := w.bus, trace := w.trace,
          out := w.out ++ (List.range' j (min n (len - j))).map (fun x => Out.hexByte (item x)) } := by
  intro n
  induction n with
  | zero => intro j w; simp [hexDumpLoop]
  | succ n ih =>
    intro j w
    by_cases hj : j < len
    · have hmin : min (n + 1) (len - j) = min n (len - (j + 1)) + 1 := by omega
      simp only [hexDumpLoop, hj, if_true, ih, hmin, List.range'_succ, emit]
      simp
    · have hmin : min (n + 1) (len - j) = 0 := by omega
      simp [hexDumpLoop, hj, hmin]

theorem ErrorStatusByte_out {σ : Type} (b : Bus σ) (dev : Device) (w : World σ) :
    (dev.ErrorStatusByte b w).2.out = w.out := by
  simp only [Device.ErrorStatusByte]
  split <;> rfl

/-- What the report of a mismatch at index `i` returns and prints. -/
theorem reportMismatch_spec {σ : Type} (b : Bus σ) (dev : Device) (data data_copy : List Byte)
    (i : Nat) (w : World σ) :
    (reportMismatch b dev data data_copy i w).1 =
      Outcome.err (Error.inconsistent (u32 (dev.ProgStart + i)) i (data.getD i 0)
        (data_copy.getD i 0)) ∧
    ∃ status : Byte,
      (reportMismatch b dev data data_copy i w).2.out =
        w.out ++ [Out.fileLabel (u32 (dev.ProgStart + (i - i % 16)))]
          ++ (dumpIndices data.length (i - i % 16)).map (fun j => Out.hexByte (data.getD j 0))
          ++ [Out.newline, Out.readLabel (u32 (dev.ProgStart + (i - i % 16)))]
          ++ (dumpIndices data.length (i - i % 16)).map (fun _ => Out.hexByte (data_copy.getD i 0))
          ++ [Out.newline, Out.errorStatus status] := by
  have h1 : u32 (dev.ProgStart + u32 i) = u32 (dev.ProgStart + i) := by
    simp only [u32, Nat.add_mod_mod]
  have h2 : u32 (u32 (i - i % 16) + dev.ProgStart) = u32 (dev.ProgStart + (i - i % 16)) := by
    unfold u32
    rw [Nat.mod_add_mod, Nat.add_comm]
  refine ⟨by simp only [reportMismatch, h1], ?_⟩
  refine ⟨(dev.ErrorStatusByte b (emit Out.newline
    (hexDumpLoop data.length (fun _ => data_copy.getD i 0) 16 (i - i % 16)
      (emit (Out.readLabel (u32 (u32 (i - i % 16) + dev.ProgStart)))
        (emit Out.newline (hexDumpLoop data.length (fun j => data.getD j 0) 16 (i - i % 16)
          (emit (Out.fileLabel (u32 (u32 (i - i % 16) + dev.ProgStart))) w))))))).1, ?_⟩
  simp only [reportMismatch]
  rw [emit, ErrorStatusByte_out]
  simp only [hexDumpLoop_eq, emit, h2, dumpIndices]
  simp

/-- The comparison loop, started at or before the first differing index `i`, reports the
mismatch at `i`. -/
theorem verifyLoop_first_mismatch {σ : Type} (b : Bus σ) (dev : Device)
    (data data_copy : List Byte) (i : Nat) (hi : i < data.length) (hi2 : i < data_copy.length)
    (hne : data.getD i 0 ≠ data_copy.getD i 0) :
    ∀ (fuel i0 : Nat) (w : World σ), i0 ≤ i → i < i0 + fuel →
      (∀ j, i0 ≤ j → j < i → data.getD j 0 = data_copy.getD j 0) →
      verifyLoop b dev data data_copy fuel i0 w = reportMismatch b dev data data_copy i w := by
  intro fuel
  induction fuel with
  | zero => intro i0 w h1 h2 _; omega
  | succ fuel ih =>
    intro i0 w h1 h2 heq
    rcases Nat.eq_or_lt_of_le h1 with h | h
    · subst h
      simp only [verifyLoop, hi, hi2, if_true]
      rw [if_pos hne]
    · have h3 : i0 < data.length := by omega
      have h4 : i0 < data_copy.length := by omega
      have h5 := heq i0 (Nat.le_refl _) h
      simp only [verifyLoop, h3, h4, h5, if_true, ne_eq, not_true_eq_false, if_false]
      exact ih (i0 + 1) w (by omega) (by omega) (fun j hj1 hj2 => heq j (by omega) hj2)

theorem getD_of_take_eq (l1 l2 : List Byte) (n j : Nat) (h : l1.take n = l2.take n)
    (hj : j < n) : l1.getD j 0 = l2.getD j 0 := by
  have h1 : (l1.take n)[j]? = (l2.take n)[j]? := by rw [h]
  rw [List.getElem?_take_of_lt hj, List.getElem?_take_of_lt hj] at h1
  simp only [List.getD_eq_getElem?_getD, h1]

/-- C10 (amended): in a run of `FlashWrite` whose erase, write and read-back phases succeed,
with `readback` the buffer read back and `i` the least index at which it differs from the
image, `FlashWrite` fails with the mismatch error carrying the address
`(progStart + i) mod 2^32`, the offset `i`, the expected byte `image[i]` and the observed
byte `readback[i]`; it prints two dump lines, both labelled with
`(progStart + (i - i mod 16)) mod 2^32`, and the error-status line; and the error does not
depend on the bytes after index `i`: the comparison of any image and read-back buffer that
agree with these up to index `i` returns the same error. -/
theorem FlashWrite_mismatch_report {σ : Type} (b : Bus σ) (dev : Device)
    (image readback : List Byte) (w we ws ww wr : World σ) (i : Nat)
    (hps : dev.PageSize ≠ 0)
    (herase : dev.flashErase b
      (((image.length : Int) + ((dev.PageSize : Int) - 1)) / (dev.PageSize : Int)) w
        = (Outcome.ok, we))
    (haddr : dev.FlashSetAddress b dev.ProgStart we = (Outcome.ok, ws))
    (hwrite : dev.flashWrite b image ws = (Outcome.ok, ww))
    (hread : dev.FlashRead b (List.replicate image.length 0) ww = ((readback, Outcome.ok), wr))
    (hi : i < image.length)
    (hne : image.getD i 0 ≠ readback.getD i 0)
    (hmin : ∀ j, j < i → image.getD j 0 = readback.getD j 0) :
    (dev.FlashWrite b image w).1 =
      Outcome.err (Error.inconsistent (u32 (dev.ProgStart + i)) i (image.getD i 0)
        (readback.getD i 0)) ∧
    u32 (dev.ProgStart + i) = (dev.ProgStart + i) % 2 ^ 32 ∧
    (∃ status : Byte,
      (dev.FlashWrite b image w).2.out =
        wr.out ++ [Out.fileLabel ((dev.ProgStart + (i - i % 16)) % 2 ^ 32)]
          ++ (dumpIndices image.length (i - i % 16)).map (fun j => Out.hexByte (image.getD j 0))
          ++ [Out.newline, Out.readLabel ((dev.ProgStart + (i - i % 16)) % 2 ^ 32)]
          ++ (dumpIndices image.length (i - i % 16)).map (fun _ => Out.hexByte (readback.getD i 0))
          ++ [Out.newline, Out.errorStatus status]) ∧
    (∀ (image2 readback2 : List Byte) (w2 : World σ),
      image2.take (i + 1) = image.take (i + 1) →
      readback2.take (i + 1) = readback.take (i + 1) →
      (verifyLoop b dev image2 readback2 (image2.length + 1) 0 w2).1 =
        (dev.FlashWrite b image w).1) := by
  have hlen : readback.length = image.length := by
    have h := FlashRead_length b dev (List.replicate image.length 0) ww
    rw [hread] at h
    simpa using h
  have hrun : dev.FlashWrite b image w = reportMismatch b dev image readback i wr := by
    simp only [Device.FlashWrite, hps, if_false, herase, haddr, hwrite, hread]
    exact verifyLoop_first_mismatch b dev image readback i hi (by omega) hne
      (image.length + 1) 0 wr (by omega) (by omega) (fun j _ hj => hmin j hj)
  obtain ⟨h1, status, h2⟩ := reportMismatch_spec b dev image readback i wr
  rw [hrun]
  refine ⟨h1, rfl, ⟨status, h2⟩, ?_⟩
  intro image2 readback2 w2 him hrb
  have hi2 : i < image2.length := by
    have h := congrArg List.length him
    simp only [List.length_take] at h
    omega
  have hi3 : i < readback2.length := by
    have h := congrArg List.length hrb
    simp only [List.length_take] at h
    omega
  have hg1 : ∀ j, j < i + 1 → image2.getD j 0 = image.getD j 0 :=
    fun j hj => getD_of_take_eq image2 image (i + 1) j him hj
  have hg2 : ∀ j, j < i + 1 → readback2.getD j 0 = readback.getD j 0 :=
    fun j hj => getD_of_take_eq readback2 readback (i + 1) j hrb hj
  rw [verifyLoop_first_mismatch b dev image2 readback2 i hi2 hi3
    (by rw [hg1 i (by omega), hg2 i (by omega)]; exact hne)
    (image2.length + 1) 0 w2 (by omega) (by omega)
    (fun j _ hj => by rw [hg1 j (by omega), hg2 j (by omega)]; exact hmin j hj)]
  rw [(reportMismatch_spec b dev image2 readback2 i w2).1, h1, hg1 i (by omega),
    hg2 i (by omega)]

set_option maxRecDepth 1000000 in
/-- C10, witness: the image 0, 0, 5 written in pages of 4 bytes over the transport whose
reads leave the buffer as it is, so that the read-back is 0, 0, 0. -/
theorem FlashWrite_mismatch_report_witness :
    ((sessionOf 4 0x08002000).FlashWrite nullBus [0, 0, 5] (World.start ())).1 =
      Outcome.err (Error.inconsistent 0x08002002 2 5 0) :=
  (FlashWrite_mismatch_report nullBus (sessionOf 4 0x08002000) [0, 0, 5] [0, 0, 0]
    (World.start ())
    ((sessionOf 4 0x08002000).flashErase nullBus 1 (World.start ())).2
    ((sessionOf 4 0x08002000).FlashSetAddress nullBus 0x08002000
      ((sessionOf 4 0x08002000).flashErase nullBus 1 (World.start ())).2).2
    ((sessionOf 4 0x08002000).flashWrite nullBus [0, 0, 5]
      ((sessionOf 4 0x08002000).FlashSetAddress nullBus 0x08002000
        ((sessionOf 4 0x08002000).flashErase nullBus 1 (World.start ())).2).2).2
    ((sessionOf 4 0x08002000).FlashRead nullBus [0, 0, 0]
      ((sessionOf 4 0x08002000).flashWrite nullBus [0, 0, 5]
        ((sessionOf 4 0x08002000).FlashSetAddress nullBus 0x08002000
          ((sessionOf 4 0x08002000).flashErase nullBus 1 (World.start ())).2).2).2).2
    2 (by decide) (Prod.ext (by decide) rfl) (Prod.ext (by decide) rfl)
    (Prod.ext (by decide) rfl) (Prod.ext (Prod.ext (by decide) (by decide)) rfl)
    (by decide) (by decide) (by decide)).1

set_option maxRecDepth 1000000 in
/-- C10, as stated, fails: with the application flash at 0xFFFFFFFF and a mismatch at index
1, the address reported is 0, not 0xFFFFFFFF + 1. -/
theorem FlashWrite_mismatch_address_wraps :
    ((sessionOf 4 0xFFFFFFFF).FlashWrite nullBus [0, 5] (World.start ())).1 =
      Outcome.err (Error.inconsistent 0 1 5 0) ∧
    (0 : Nat) ≠ 0xFFFFFFFF + 1 := by
  decide

/-! ## The model device: lemmas -/

theorem regStore_apply_in (R : Nat → Byte) (r : Nat) (d : List Byte) (x : Nat)
    (h1 : r ≤ x) (h2 : x < r + d.length) : regStore R r d x = d.getD (x - r) 0 := by
  simp [regStore, h1, h2]

theorem regStore_apply_out (R : Nat → Byte) (r : Nat) (d : List Byte) (x : Nat)
    (h : x < r ∨ r + d.length ≤ x) : regStore R r d x = R x := by
  have : ¬ (r ≤ x ∧ x < r + d.length) := by omega
  simp [regStore, this]

/-- Storing the first `m` bytes and then the rest behind them stores all the bytes. -/
theorem regStore_take_drop (R : Nat → Byte) (r m : Nat) (d : List Byte) (hm : m ≤ d.length) :
    regStore (regStore R r (d.take m)) (r + m) (d.drop m) = regStore R r d := by
  funext x
  have hlt : (d.take m).length = m := by rw [List.length_take]; omega
  have hld : (d.drop m).length = d.length - m := List.length_drop m d
  by_cases h1 : r + m ≤ x ∧ x < r + d.length
  · rw [regStore_apply_in _ _ _ _ h1.1 (by omega), regStore_apply_in _ _ _ _ (by omega) h1.2]
    simp only [List.getD_eq_getElem?_getD, List.getElem?_drop]
    congr 2
    omega
  · by_cases h2 : r ≤ x ∧ x < r + m
    · rw [regStore_apply_out _ _ _ _ (by omega), regStore_apply_in _ _ _ _ h2.1 (by omega),
        regStore_apply_in _ _ _ _ h2.1 (by omega)]
      simp only [List.getD_eq_getElem?_getD]
      rw [List.getElem?_take_of_lt (by omega)]
    · rw [regStore_apply_out _ _ _ _ (by omega), regStore_apply_out _ _ _ _ (by omega),
        regStore_apply_out _ _ _ _ (by omega)]

/-- Reading back what was just stored. -/
theorem regSlice_regStore (R : Nat → Byte) (r : Nat) (d : List Byte) :
    regSlice (regStore R r d) r d.length = d := by
  apply List.ext_getElem?
  intro k
  by_cases hk : k < d.length
  · simp only [regSlice, List.getElem?_map, List.getElem?_range hk, Option.map_some']
    rw [regStore_apply_in _ _ _ _ (by omega) (by omega), List.getElem?_eq_getElem hk]
    simp [List.getD_eq_getElem?_getD, List.getElem?_eq_getElem hk]
  · rw [List.getElem?_eq_none (by simp [regSlice]; omega), List.getElem?_eq_none (by omega)]

theorem regSlice_congr (R1 R2 : Nat → Byte) (r n : Nat)
    (h : ∀ x, r ≤ x → x < r + n → R1 x = R2 x) : regSlice R1 r n = regSlice R2 r n := by
  simp only [regSlice]
  apply List.map_congr_left
  intro i hi
  have := List.mem_range.1 hi
  exact h (r + i) (by omega) (by omega)

theorem Chip.write_data (c : Chip) (r : Nat) (d : List Byte) (h : 24 ≤ r) :
    c.write r d = { c with regs := regStore c.regs r d } := by
  have h1 : ¬ (r < 24 ∧ 20 < r + d.length) := by omega
  have h2 : ¬ (r ≤ 19 ∧ 19 < r + d.length) := by omega
  simp [Chip.write, h1, h2]

/-- A chunked write into the data window of the model device stores the bytes from its
register on, as long as the register offset of the last chunk does not pass 255. -/
theorem chip_WriteBytesLoop (dev : Device) :
    ∀ (fuel : Nat) (reg : Byte) (data : List Byte) (w : World Chip),
      data.length ≤ 32 * fuel → 0 < fuel → 24 ≤ reg.val →
      reg.val + 32 * ((data.length - 1) / 32) ≤ 255 →
      (WriteBytesLoop chipBus dev fuel reg data w).1 = Outcome.ok ∧
      (WriteBytesLoop chipBus dev fuel reg data w).2.bus =
        { w.bus with regs := regStore w.bus.regs reg.val data } := by
  intro fuel
  induction fuel with
  | zero => intro reg data w _ h0; omega
  | succ fuel ih =>
    intro reg data w hlen _ hreg hfit
    by_cases hshort : data.length ≤ 32
    · simp [WriteBytesLoop, hshort, busWriteBytes, chipBus, Outcome.ofError,
        Chip.write_data _ _ _ hreg]
    · have hval : (toByte (reg.val + 32)).val = reg.val + 32 := by
        simp only [toByte]
        omega
      have hdrop : (data.drop 32).length = data.length - 32 := List.length_drop 32 data
      obtain ⟨h1, h2⟩ := ih (toByte (reg.val + 32)) (data.drop 32)
        (busWriteBytes chipBus dev.Address reg (data.take 32) w).2 (by omega) (by omega)
        (by omega) (by omega)
      have hstep : WriteBytesLoop chipBus dev (fuel + 1) reg data w =
          WriteBytesLoop chipBus dev fuel (toByte (reg.val + 32)) (data.drop 32)
            (busWriteBytes chipBus dev.Address reg (data.take 32) w).2 := by
        simp [WriteBytesLoop, hshort, busWriteBytes, chipBus]
      rw [hstep]
      refine ⟨h1, ?_⟩
      rw [h2, hval]
      simp only [busWriteBytes, chipBus, Chip.write_data _ _ _ hreg]
      rw [regStore_take_drop _ _ _ _ (by omega)]

theorem Chip.exec_pageSize (c : Chip) : c.exec.pageSize = c.pageSize := by
  unfold Chip.exec
  split_ifs <;> rfl

theorem Chip.exec_regs_op (c : Chip) : c.exec.regs 19 = 0 := by
  unfold Chip.exec
  split_ifs <;> simp [regStore]

theorem Chip.exec_regs_status (c : Chip) : c.exec.regs 18 = c.regs 18 := by
  unfold Chip.exec
  split_ifs <;> simp [regStore]

theorem Chip.write_pageSize (c : Chip) (r : Nat) (d : List Byte) :
    (c.write r d).pageSize = c.pageSize := by
  unfold Chip.write
  simp only
  split_ifs <;> simp [Chip.exec_pageSize]

/-- The operation code `p` written to register 19 of the model device: the operation is
run on the device as it is, with `p` in register 19. -/
theorem Chip.write_op (c : Chip) (p : Byte) :
    c.write 19 [p] = Chip.exec { c with regs := regStore c.regs 19 [p] } := by
  simp [Chip.write]

theorem Chip.write_op_regs_op (c : Chip) (p : Byte) : (c.write 19 [p]).regs 19 = 0 := by
  rw [Chip.write_op, Chip.exec_regs_op]

theorem Chip.write_op_regs_status (c : Chip) (p : Byte) :
    (c.write 19 [p]).regs 18 = c.regs 18 := by
  rw [Chip.write_op, Chip.exec_regs_status]
  simp [regStore]

/-- The address `a` written to registers 20 to 23 of the model device. -/
theorem Chip.write_addr (c : Chip) (a : Nat) :
    c.write 20 (addrBytes a) =
      { c with regs := regStore c.regs 20 (addrBytes a), cursor := leValue (addrBytes a) } := by
  have h : regSlice (regStore c.regs 20 (addrBytes a)) 20 4 = addrBytes a :=
    regSlice_regStore c.regs 20 (addrBytes a)
  simp [Chip.write, addrBytes] at h ⊢
  simp [h]

theorem chip_waitProg (dev : Device) (prog : Byte) (gap : Nat) (w : World Chip) :
    (dev.waitProg chipBus prog gap w).1 = Outcome.ok ∧
    (dev.waitProg chipBus prog gap w).2.bus = w.bus.write 19 [prog] := by
  have h0 := Chip.write_op_regs_op w.bus prog
  have v19 : ((19 : Byte) : Nat) = 19 := rfl
  simp [Device.waitProg, Device.WriteByte, busWriteByte, chipBus, waitProgLoop, Device.ReadByte,
    busReadByte, sleep, ADDR_PROG, v19, h0]

theorem chip_ErrorStatusByte (dev : Device) (w : World Chip) :
    (dev.ErrorStatusByte chipBus w).1 = w.bus.regs 18 ∧
    (dev.ErrorStatusByte chipBus w).2.bus = w.bus := by
  have v18 : ((18 : Byte) : Nat) = 18 := rfl
  simp [Device.ErrorStatusByte, Device.ReadByte, busReadByte, chipBus, ADDR_ERR, v18]

theorem chip_FlashSetAddress (dev : Device) (a : Nat) (w : World Chip) :
    (dev.FlashSetAddress chipBus a w).1 = Outcome.ok ∧
    (dev.FlashSetAddress chipBus a w).2.bus = w.bus.write 20 (addrBytes a) := by
  have hshort : (addrBytes a).length ≤ 32 := by simp [addrBytes]
  unfold Device.FlashSetAddress
  rw [WriteBytes_short chipBus dev _ _ w hshort]
  have v20 : ((20 : Byte) : Nat) = 20 := rfl
  simp [busWriteBytes, chipBus, Outcome.ofError, ADDR_ADDR, v20]

theorem chip_WriteBytes_data (dev : Device) (data : List Byte) (w : World Chip)
    (h : data.length ≤ 256) :
    (dev.WriteBytes chipBus ADDR_DATA data w).1 = Outcome.ok ∧
    (dev.WriteBytes chipBus ADDR_DATA data w).2.bus =
      { w.bus with regs := regStore w.bus.regs 24 data } :=
  chip_WriteBytesLoop dev (data.length + 1) ADDR_DATA data w (by omega) (by omega)
    (by decide) (by simp only [ADDR_DATA]; have : (24 : Byte).val = 24 := rfl; omega)

theorem chip_ReadBytes_data (dev : Device) (buf : List Byte) (w : World Chip)
    (h : buf.length ≤ 256) :
    (dev.ReadBytes chipBus ADDR_DATA buf w).1 =
      (regSlice w.bus.regs 24 buf.length, Outcome.ok) ∧
    (dev.ReadBytes chipBus ADDR_DATA buf w).2.bus = w.bus := by
  obtain ⟨h1, h2, _⟩ := ReadBytesLoop_view chipBus Chip.regs (fun _ _ _ _ => rfl) dev
    (buf.length + 1) ADDR_DATA buf w (by omega) (by omega)
    (by simp only [ADDR_DATA]; have : (24 : Byte).val = 24 := rfl; omega)
  exact ⟨h1, h2⟩

/-- On the model device whose error status is 0 the loop of `Device.flashErase` returns
nil, and leaves the error status and the page size as they were. -/
theorem chip_flashEraseLoop (dev : Device) (block_count : Int) :
    ∀ (fuel pos : Nat) (w : World Chip), w.bus.regs 18 = 0 →
      (block_count - pos).toNat < fuel →
      (flashEraseLoop chipBus dev block_count fuel pos w).1 = Outcome.ok ∧
      (flashEraseLoop chipBus dev block_count fuel pos w).2.bus.regs 18 = 0 ∧
      (flashEraseLoop chipBus dev block_count fuel pos w).2.bus.pageSize = w.bus.pageSize := by
  intro fuel
  induction fuel with
  | zero => intro pos w _ h; omega
  | succ fuel ih =>
    intro pos w h18 hfuel
    by_cases hpos : (pos : Int) < block_count
    · have hs := chip_FlashSetAddress dev (u32 (dev.ProgStart + u32 (u32 pos * dev.PageSize)))
        (emit Out.hash w)
      have hp := chip_waitProg dev PROG_ERASE_PAGE (50 * Millisecond)
        (dev.FlashSetAddress chipBus (u32 (dev.ProgStart + u32 (u32 pos * dev.PageSize)))
          (emit Out.hash w)).2
      have he := chip_ErrorStatusByte dev
        (dev.waitProg chipBus PROG_ERASE_PAGE (50 * Millisecond)
          (dev.FlashSetAddress chipBus (u32 (dev.ProgStart + u32 (u32 pos * dev.PageSize)))
            (emit Out.hash w)).2).2
      have hst : (dev.ErrorStatusByte chipBus
        (dev.waitProg chipBus PROG_ERASE_PAGE (50 * Millisecond)
          (dev.FlashSetAddress chipBus (u32 (dev.ProgStart + u32 (u32 pos * dev.PageSize)))
            (emit Out.hash w)).2).2).1 = 0 := by
        rw [he.1, hp.2, Chip.write_op_regs_status, hs.2, Chip.write_addr]
        simpa [regStore, emit] using h18
      have hstep : flashEraseLoop chipBus dev block_count (fuel + 1) pos w =
          flashEraseLoop chipBus dev block_count fuel (pos + 1)
            (dev.ErrorStatusByte chipBus
              (dev.waitProg chipBus PROG_ERASE_PAGE (50 * Millisecond)
                (dev.FlashSetAddress chipBus
                  (u32 (dev.ProgStart + u32 (u32 pos * dev.PageSize))) (emit Out.hash w)).2).2).2 := by
        simp only [flashEraseLoop, hpos, if_true, hs.1, hp.1, hst]
        simp
      rw [hstep]
      obtain ⟨h1, h2, h3⟩ := ih (pos + 1) _ (by rw [he.2, ← hst, he.1]) (by push_cast; omega)
      refine ⟨h1, h2, ?_⟩
      rw [h3, he.2, hp.2, Chip.write_pageSize, hs.2, Chip.write_pageSize]
      rfl
    · simp [flashEraseLoop, hpos, emit, h18]

/-- The page of `psize` bytes of `image` that starts at `pos`. -/
theorem page_length (image : List Byte) (pos psize : Nat) (h : pos + psize ≤ image.length) :
    ((image.drop pos).take psize).length = psize := by
  rw [List.length_take, List.length_drop]
  omega

theorem page_getD (image : List Byte) (pos psize k : Nat) (hk : k < psize) :
    ((image.drop pos).take psize).getD k 0 = image.getD (pos + k) 0 := by
  simp only [List.getD_eq_getElem?_getD]
  rw [List.getElem?_take_of_lt hk, List.getElem?_drop]

/-- A full page copied into the staging buffer replaces its first `psize` bytes. -/
theorem copy_full (dst src : List Byte) (h : dst.length ≤ src.length) :
    copy dst src = src.take dst.length := by
  simp [copy, List.drop_eq_nil_of_le h]

/-- A page copied into a destination that has room for it. -/
theorem copy_room (dst src : List Byte) (h : src.length ≤ dst.length) :
    copy dst src = src ++ dst.drop src.length := by
  simp [copy, List.take_of_length_le h]

theorem dvd_step (psize pos len : Nat) (h1 : psize ∣ pos) (h2 : psize ∣ len) (h3 : pos < len) :
    pos + psize ≤ len ∧ psize ∣ pos + psize := by
  obtain ⟨a, ha⟩ := h1
  obtain ⟨c, hc⟩ := h2
  subst ha hc
  have hac : a < c := Nat.lt_of_mul_lt_mul_left h3
  refine ⟨?_, ⟨a + 1, by rw [Nat.mul_add, Nat.mul_one]⟩⟩
  calc psize * a + psize = psize * (a + 1) := by rw [Nat.mul_add, Nat.mul_one]
    _ ≤ psize * c := Nat.mul_le_mul_left _ hac

/-- The Write operation of the model device: the page in the data window is programmed at
the cursor, and the cursor advances by one page. -/
theorem Chip.program_page (c : Chip) (page : List Byte) (hlen : page.length = c.pageSize) :
    (Chip.write { c with regs := regStore c.regs 24 page } 19 [PROG_WRITE]).cursor
      = c.cursor + c.pageSize ∧
    (Chip.write { c with regs := regStore c.regs 24 page } 19 [PROG_WRITE]).pageSize
      = c.pageSize ∧
    (Chip.write { c with regs := regStore c.regs 24 page } 19 [PROG_WRITE]).regs 18
      = c.regs 18 ∧
    ∀ a, (Chip.write { c with regs := regStore c.regs 24 page } 19 [PROG_WRITE]).flash a =
      if c.cursor ≤ a ∧ a < c.cursor + c.pageSize then page.getD (a - c.cursor) 0
      else c.flash a := by
  have hop : regStore (regStore c.regs 24 page) 19 [PROG_WRITE] 19 = PROG_WRITE := by
    simp [regStore]
  refine ⟨?_, ?_, ?_, ?_⟩
  · simp [Chip.write_op, Chip.exec, hop]
  · simp [Chip.write_op, Chip.exec, hop]
  · rw [Chip.write_op_regs_status]
    simp [regStore]
  · intro a
    simp only [Chip.write_op, Chip.exec, hop, if_true]
    by_cases ha : c.cursor ≤ a ∧ a < c.cursor + c.pageSize
    · rw [if_pos ha, if_pos ha,
        regStore_apply_out _ _ _ _ (Or.inr (by simp only [List.length_singleton]; omega)),
        regStore_apply_in _ _ _ _ (by omega) (by omega)]
      congr 1
      omega
    · rw [if_neg ha, if_neg ha]

/-- The Read operation of the model device: the page at the cursor is loaded into the data
window, and the cursor advances by one page. -/
theorem Chip.load_page (c : Chip) :
    (c.write 19 [PROG_READ]).cursor = c.cursor + c.pageSize ∧
    (c.write 19 [PROG_READ]).pageSize = c.pageSize ∧
    (c.write 19 [PROG_READ]).flash = c.flash ∧
    regSlice (c.write 19 [PROG_READ]).regs 24 c.pageSize =
      regSlice c.flash c.cursor c.pageSize := by
  have hop : regStore c.regs 19 [PROG_READ] 19 = PROG_READ := by
    simp [regStore]
  have hne : ¬ (PROG_READ = PROG_WRITE) := by decide
  refine ⟨?_, ?_, ?_, ?_⟩
  · simp [Chip.write_op, Chip.exec, hop, hne]
  · simp [Chip.write_op, Chip.exec, hop, hne]
  · simp [Chip.write_op, Chip.exec, hop, hne]
  · simp only [Chip.write_op, Chip.exec, hop, hne, if_false, if_true]
    have h := regSlice_regStore (regStore c.regs 19 [PROG_READ]) 24
      (regSlice c.flash c.cursor c.pageSize)
    rw [regSlice_length] at h
    refine Eq.trans ?_ h
    apply regSlice_congr
    intro x hx1 hx2
    rw [regStore_apply_out _ 19 _ _ (Or.inr (by simp only [List.length_singleton]; omega))]

/-- The flash of the model device holds the image from address `A` on. -/
theorem regSlice_flash_page (flash : Nat → Byte) (image : List Byte) (A pos psize : Nat)
    (hflash : ∀ j, j < image.length → flash (A + j) = image.getD j 0)
    (hfit : pos + psize ≤ image.length) :
    regSlice flash (A + pos) psize = (image.drop pos).take psize := by
  apply List.ext_getElem?
  intro k
  by_cases hk : k < psize
  · simp only [regSlice, List.getElem?_map, List.getElem?_range hk, Option.map_some']
    rw [List.getElem?_take_of_lt hk, List.getElem?_drop, Nat.add_assoc,
      hflash (pos + k) (by omega), List.getD_eq_getElem?_getD,
      List.getElem?_eq_getElem (show pos + k < image.length by omega)]
    rfl
  · rw [List.getElem?_eq_none (by simp [regSlice]; omega),
      List.getElem?_eq_none (by rw [page_length image pos psize hfit]; omega)]

/-- The write phase on the model device: from a page boundary `pos` on, with the cursor at
`A + pos` and the image already in flash below `pos`, the loop of `Device.flashWrite`
returns nil and leaves the whole image in flash from address `A` on. -/
theorem chip_flashWriteLoop (dev : Device) (image : List Byte) (A : Nat)
    (hps1 : 1 ≤ dev.PageSize) (hps2 : dev.PageSize ≤ 256)
    (hdvd : dev.PageSize ∣ image.length) :
    ∀ (fuel pos : Nat) (buf : List Byte) (w : World Chip),
      buf.length = 4096 → dev.PageSize ∣ pos → pos ≤ image.length →
      image.length - pos < fuel →
      w.bus.regs 18 = 0 → w.bus.pageSize = dev.PageSize → w.bus.cursor = A + pos →
      (∀ j, j < pos → w.bus.flash (A + j) = image.getD j 0) →
      (flashWriteLoop chipBus dev dev.PageSize image fuel pos buf w).1 = Outcome.ok ∧
      (flashWriteLoop chipBus dev dev.PageSize image fuel pos buf w).2.bus.regs 18 = 0 ∧
      (flashWriteLoop chipBus dev dev.PageSize image fuel pos buf w).2.bus.pageSize
        = dev.PageSize ∧
      ∀ j, j < image.length →
        (flashWriteLoop chipBus dev dev.PageSize image fuel pos buf w).2.bus.flash (A + j)
          = image.getD j 0 := by
  intro fuel
  induction fuel with
  | zero => intro pos buf w _ _ _ h; omega
  | succ fuel ih =>
    intro pos buf w hbuf hdp hle hfuel h18 hpsz hcur hflash
    by_cases hpos : pos < image.length
    · obtain ⟨hfit, hdp2⟩ := dvd_step dev.PageSize pos image.length hdp hdvd hpos
      have hcap : dev.PageSize ≤ 4096 := by omega
      have htake : (buf.take dev.PageSize).length = dev.PageSize := by
        rw [List.length_take]; omega
      have hplen := page_length image pos dev.PageSize hfit
      have hcopy : copy (buf.take dev.PageSize) (image.drop pos) =
          (image.drop pos).take dev.PageSize := by
        rw [copy_full _ _ (by rw [htake, List.length_drop]; omega), htake]
      have hpay : (((image.drop pos).take dev.PageSize) ++ buf.drop dev.PageSize).take
          dev.PageSize = (image.drop pos).take dev.PageSize := List.take_left' hplen
      have hw := chip_WriteBytes_data dev ((image.drop pos).take dev.PageSize) w (by omega)
      have hp := chip_waitProg dev PROG_WRITE (3 * Millisecond)
        (dev.WriteBytes chipBus ADDR_DATA ((image.drop pos).take dev.PageSize) w).2
      have he := chip_ErrorStatusByte dev
        (dev.waitProg chipBus PROG_WRITE (3 * Millisecond)
          (dev.WriteBytes chipBus ADDR_DATA ((image.drop pos).take dev.PageSize) w).2).2
      obtain ⟨hc1, hc2, hc3, hc4⟩ := Chip.program_page w.bus
        ((image.drop pos).take dev.PageSize) (by rw [hplen, hpsz])
      have hbus : (dev.ErrorStatusByte chipBus
          (dev.waitProg chipBus PROG_WRITE (3 * Millisecond)
            (dev.WriteBytes chipBus ADDR_DATA ((image.drop pos).take dev.PageSize) w).2).2).2.bus
          = Chip.write { w.bus with
              regs := (regStore w.bus.regs 24 ((image.drop pos).take dev.PageSize)) }
              19 [PROG_WRITE] := by
        rw [he.2, hp.2, hw.2]
      have hst : (dev.ErrorStatusByte chipBus
          (dev.waitProg chipBus PROG_WRITE (3 * Millisecond)
            (dev.WriteBytes chipBus ADDR_DATA ((image.drop pos).take dev.PageSize) w).2).2).1
          = 0 := by
        rw [he.1, hp.2, hw.2, hc3, h18]
      have hstep : flashWriteLoop chipBus dev dev.PageSize image (fuel + 1) pos buf w =
          flashWriteLoop chipBus dev dev.PageSize image fuel (pos + dev.PageSize)
            (((image.drop pos).take dev.PageSize) ++ buf.drop dev.PageSize)
            (emit Out.hash (dev.ErrorStatusByte chipBus
              (dev.waitProg chipBus PROG_WRITE (3 * Millisecond)
                (dev.WriteBytes chipBus ADDR_DATA
                  ((image.drop pos).take dev.PageSize) w).2).2).2) := by
        simp only [flashWriteLoop, hpos, if_true, hcap, hcopy, hpay, hw.1, hp.1, hst]
        simp
      rw [hstep]
      apply ih
      · rw [List.length_append, hplen, List.length_drop]; omega
      · exact hdp2
      · exact hfit
      · omega
      · show (dev.ErrorStatusByte chipBus _).2.bus.regs 18 = 0
        rw [hbus, hc3, h18]
      · show (dev.ErrorStatusByte chipBus _).2.bus.pageSize = dev.PageSize
        rw [hbus, hc2, hpsz]
      · show (dev.ErrorStatusByte chipBus _).2.bus.cursor = A + (pos + dev.PageSize)
        rw [hbus, hc1, hcur, hpsz]; omega
      · intro j hj
        show (dev.ErrorStatusByte chipBus _).2.bus.flash (A + j) = image.getD j 0
        rw [hbus, hc4, hcur, hpsz]
        by_cases hjp : j < pos
        · rw [if_neg (by omega)]
          exact hflash j hjp
        · rw [if_pos (by omega), page_getD image pos dev.PageSize _ (by omega)]
          congr 1
          omega
    · have heq : pos = image.length := by omega
      subst heq
      have hstep : flashWriteLoop chipBus dev dev.PageSize image (fuel + 1) image.length buf w =
          (Outcome.ok, emit Out.closeBracket w) := by
        simp only [flashWriteLoop, hpos, if_false]
      rw [hstep]
      exact ⟨rfl, h18, hpsz, hflash⟩

/-- The read phase on the model device: with the image in flash from address `A` on, the
cursor at `A + pos` and the destination already equal to the image below the page boundary
`pos`, the loop of `Device.FlashRead` returns nil and fills the destination with the image;
the flash is left as it was. -/
theorem chip_FlashReadLoop (dev : Device) (image : List Byte) (A : Nat)
    (hps1 : 1 ≤ dev.PageSize) (hps2 : dev.PageSize ≤ 256)
    (hdvd : dev.PageSize ∣ image.length) :
    ∀ (fuel pos : Nat) (buf data : List Byte) (w : World Chip),
      buf.length = 4096 → dev.PageSize ∣ pos → pos ≤ image.length →
      image.length - pos < fuel →
      data.length = image.length → data.take pos = image.take pos →
      w.bus.pageSize = dev.PageSize → w.bus.cursor = A + pos →
      (∀ j, j < image.length → w.bus.flash (A + j) = image.getD j 0) →
      (FlashReadLoop chipBus dev dev.PageSize fuel pos buf data w).1 = (image, Outcome.ok) ∧
      (FlashReadLoop chipBus dev dev.PageSize fuel pos buf data w).2.bus.pageSize
        = dev.PageSize ∧
      ∀ j, j < image.length →
        (FlashReadLoop chipBus dev dev.PageSize fuel pos buf data w).2.bus.flash (A + j)
          = image.getD j 0 := by
  intro fuel
  induction fuel with
  | zero => intro pos buf data w _ _ _ h; omega
  | succ fuel ih =>
    intro pos buf data w hbuf hdp hle hfuel hdlen hdata hpsz hcur hflash
    by_cases hpos : pos < image.length
    · obtain ⟨hfit, hdp2⟩ := dvd_step dev.PageSize pos image.length hdp hdvd hpos
      have hcap : dev.PageSize ≤ 4096 := by omega
      have htake : (buf.take dev.PageSize).length = dev.PageSize := by
        rw [List.length_take]; omega
      have hplen := page_length image pos dev.PageSize hfit
      have hp := chip_waitProg dev PROG_READ (1 * Millisecond) w
      obtain ⟨hc1, hc2, hc3, hc4⟩ := Chip.load_page w.bus
      have hr := chip_ReadBytes_data dev (buf.take dev.PageSize)
        (dev.waitProg chipBus PROG_READ (1 * Millisecond) w).2 (by omega)
      have hgot : (dev.ReadBytes chipBus ADDR_DATA (buf.take dev.PageSize)
          (dev.waitProg chipBus PROG_READ (1 * Millisecond) w).2).1 =
          ((image.drop pos).take dev.PageSize, Outcome.ok) := by
        rw [hr.1, htake, hp.2, ← hpsz, hc4, hcur, hpsz,
          regSlice_flash_page w.bus.flash image A pos dev.PageSize hflash hfit]
      have hbus : (dev.ReadBytes chipBus ADDR_DATA (buf.take dev.PageSize)
          (dev.waitProg chipBus PROG_READ (1 * Millisecond) w).2).2.bus =
          w.bus.write 19 [PROG_READ] := by
        rw [hr.2, hp.2]
      have hpay : (((image.drop pos).take dev.PageSize) ++ buf.drop dev.PageSize).take
          dev.PageSize = (image.drop pos).take dev.PageSize := List.take_left' hplen
      have hcopy : copy (data.drop pos) ((image.drop pos).take dev.PageSize) =
          (image.drop pos).take dev.PageSize ++ (data.drop pos).drop dev.PageSize := by
        rw [copy_room _ _ (by rw [hplen, List.length_drop]; omega), hplen]
      have hstep : FlashReadLoop chipBus dev dev.PageSize (fuel + 1) pos buf data w =
          FlashReadLoop chipBus dev dev.PageSize fuel (pos + dev.PageSize)
            (((image.drop pos).take dev.PageSize) ++ buf.drop dev.PageSize)
            (data.take pos ++ ((image.drop pos).take dev.PageSize
              ++ (data.drop pos).drop dev.PageSize))
            (emit Out.hash (dev.ReadBytes chipBus ADDR_DATA (buf.take dev.PageSize)
              (dev.waitProg chipBus PROG_READ (1 * Millisecond) w).2).2) := by
        have hposd : pos < data.length := by omega
        simp only [FlashReadLoop, hposd, if_true, hp.1, hcap, hgot, hpay, hcopy]
      rw [hstep]
      apply ih
      · rw [List.length_append, hplen, List.length_drop]; omega
      · exact hdp2
      · exact hfit
      · omega
      · simp only [List.length_append, List.length_take, List.length_drop, hplen]
        omega
      · have hl : (image.take pos).length = pos := by rw [List.length_take]; omega
        rw [hdata, List.take_add image pos dev.PageSize, List.take_append_eq_append_take, hl,
          List.take_of_length_le (by rw [hl]; omega), Nat.add_sub_cancel_left,
          List.take_left' hplen]
      · show (dev.ReadBytes chipBus _ _ _).2.bus.pageSize = dev.PageSize
        rw [hbus, hc2, hpsz]
      · show (dev.ReadBytes chipBus _ _ _).2.bus.cursor = A + (pos + dev.PageSize)
        rw [hbus, hc1, hcur, hpsz]; omega
      · intro j hj
        show (dev.ReadBytes chipBus _ _ _).2.bus.flash (A + j) = image.getD j 0
        rw [hbus, hc3]
        exact hflash j hj
    · have heq : pos = image.length := by omega
      subst heq
      have hd : data = image := by
        rw [← hdlen, List.take_length, hdlen, List.take_length] at hdata
        exact hdata
      have hstep : FlashReadLoop chipBus dev dev.PageSize (fuel + 1) image.length buf data w =
          ((data, Outcome.ok), emit Out.closeBracket w) := by
        simp only [FlashReadLoop, hdlen, hpos, if_false]
      rw [hstep, hd]
      exact ⟨rfl, hpsz, hflash⟩

/-- A buffer compared with itself: the comparison loop returns nil. -/
theorem verifyLoop_equal {σ : Type} (b : Bus σ) (dev : Device) (data : List Byte) :
    ∀ (fuel i : Nat) (w : World σ), data.length - i < fuel →
      verifyLoop b dev data data fuel i w = (Outcome.ok, emit Out.verified w) := by
  intro fuel
  induction fuel with
  | zero => intro i w h; omega
  | succ fuel ih =>
    intro i w h
    by_cases hi : i < data.length
    · simp only [verifyLoop, hi, if_true, ne_eq, not_true_eq_false, if_false]
      exact ih (i + 1) w (by omega)
    · simp only [verifyLoop, hi, if_false]

/-- On the model device whose error status is 0, `Device.flashErase` returns nil, and
leaves the error status and the page size as they were. -/
theorem chip_flashErase (dev : Device) (block_count : Int) (w : World Chip)
    (h18 : w.bus.regs 18 = 0) :
    (dev.flashErase chipBus block_count w).1 = Outcome.ok ∧
    (dev.flashErase chipBus block_count w).2.bus.regs 18 = 0 ∧
    (dev.flashErase chipBus block_count w).2.bus.pageSize = w.bus.pageSize := by
  obtain ⟨h1, h2, h3⟩ := chip_flashEraseLoop dev block_count (block_count.toNat + 1) 0
    (emit Out.erasingOpen w) h18 (by simp)
  exact ⟨h1, h2, h3⟩

/-- On the model device, with the cursor at `A`, `Device.flashWrite(image)` returns nil and
leaves the image in flash from address `A` on. -/
theorem chip_flashWrite (dev : Device) (image : List Byte) (A : Nat)
    (hps1 : 1 ≤ dev.PageSize) (hps2 : dev.PageSize ≤ 256)
    (hdvd : dev.PageSize ∣ image.length) (w : World Chip)
    (h18 : w.bus.regs 18 = 0) (hpsz : w.bus.pageSize = dev.PageSize) (hcur : w.bus.cursor = A) :
    (dev.flashWrite chipBus image w).1 = Outcome.ok ∧
    (dev.flashWrite chipBus image w).2.bus.regs 18 = 0 ∧
    (dev.flashWrite chipBus image w).2.bus.pageSize = dev.PageSize ∧
    ∀ j, j < image.length →
      (dev.flashWrite chipBus image w).2.bus.flash (A + j) = image.getD j 0 := by
  obtain ⟨h1, h2, h3, h4⟩ := chip_flashWriteLoop dev image A hps1 hps2 hdvd
    (image.length + 1) 0 (List.replicate 4096 0) (emit Out.writingOpen w)
    (List.length_replicate _ _) (Nat.dvd_zero _) (Nat.zero_le _) (by omega) h18 hpsz
    (by rw [Nat.add_zero]; exact hcur) (fun j hj => absurd hj (Nat.not_lt_zero j))
  exact ⟨h1, h2, h3, h4⟩

/-- On the model device that holds the image in flash from the address the session starts
at, `Device.FlashRead` returns nil and fills a destination of the length of the image with
the image; the flash is left as it was. -/
theorem chip_FlashRead (dev : Device) (image : List Byte)
    (hps1 : 1 ≤ dev.PageSize) (hps2 : dev.PageSize ≤ 256)
    (hdvd : dev.PageSize ∣ image.length) (data : List Byte) (w : World Chip)
    (hdlen : data.length = image.length) (hpsz : w.bus.pageSize = dev.PageSize)
    (hflash : ∀ j, j < image.length →
      w.bus.flash (leValue (addrBytes dev.ProgStart) + j) = image.getD j 0) :
    (dev.FlashRead chipBus data w).1 = (image, Outcome.ok) ∧
    (dev.FlashRead chipBus data w).2.bus.pageSize = dev.PageSize ∧
    ∀ j, j < image.length →
      (dev.FlashRead chipBus data w).2.bus.flash (leValue (addrBytes dev.ProgStart) + j)
        = image.getD j 0 := by
  have hs := chip_FlashSetAddress dev dev.ProgStart
    (emit (Out.readingHeader data.length dev.ProgStart dev.PageSize) w)
  have hbus : (dev.FlashSetAddress chipBus dev.ProgStart
      (emit (Out.readingHeader data.length dev.ProgStart dev.PageSize) w)).2.bus =
      { w.bus with regs := regStore w.bus.regs 20 (addrBytes dev.ProgStart),
                   cursor := leValue (addrBytes dev.ProgStart) } := by
    rw [hs.2]
    exact Chip.write_addr w.bus dev.ProgStart
  obtain ⟨h1, h2, h3⟩ := chip_FlashReadLoop dev image (leValue (addrBytes dev.ProgStart))
    hps1 hps2 hdvd (data.length + 1) 0 (List.replicate 4096 0) data
    (emit Out.readingOpen (dev.FlashSetAddress chipBus dev.ProgStart
      (emit (Out.readingHeader data.length dev.ProgStart dev.PageSize) w)).2)
    (List.length_replicate _ _) (Nat.dvd_zero _) (Nat.zero_le _) (by omega) hdlen rfl
    (by show (dev.FlashSetAddress chipBus _ _).2.bus.pageSize = _
        rw [hbus]; exact hpsz)
    (by show (dev.FlashSetAddress chipBus _ _).2.bus.cursor = _
        rw [hbus]
        rfl)
    (by intro j hj
        show (dev.FlashSetAddress chipBus _ _).2.bus.flash _ = _
        rw [hbus]
        exact hflash j hj)
  simp only [Device.FlashRead, hs.1]
  exact ⟨h1, h2, h3⟩

/-- C1 (amended): against the model device (`chipBus`: it stores the data window from
register 24 on; a Write operation programs one page at its address cursor and advances the
cursor by the page size; a Read operation loads the page at the cursor into the data
window and advances; the operation register is cleared and the error status stays 0), for
every session with `1 <= pageSize <= 256` and every image whose length is a multiple of
`pageSize`, `FlashWrite(image)` returns nil, and a following `FlashRead` into any buffer of
`len(image)` bytes returns nil and fills the buffer with exactly the image. -/
theorem FlashWrite_FlashRead_roundtrip (dev : Device) (image : List Byte) (w : World Chip)
    (hps1 : 1 ≤ dev.PageSize) (hps2 : dev.PageSize ≤ 256)
    (hdvd : dev.PageSize ∣ image.length)
    (hchip : w.bus.pageSize = dev.PageSize) (h18 : w.bus.regs 18 = 0) :
    (dev.FlashWrite chipBus image w).1 = Outcome.ok ∧
    ∀ buf : List Byte, buf.length = image.length →
      (dev.FlashRead chipBus buf (dev.FlashWrite chipBus image w).2).1 =
        (image, Outcome.ok) := by
  have hne : dev.PageSize ≠ 0 := by omega
  obtain ⟨he1, he2, he3⟩ := chip_flashErase dev
    (((image.length : Int) + ((dev.PageSize : Int) - 1)) / (dev.PageSize : Int)) w h18
  have hs := chip_FlashSetAddress dev dev.ProgStart
    (dev.flashErase chipBus
      (((image.length : Int) + ((dev.PageSize : Int) - 1)) / (dev.PageSize : Int)) w).2
  have hsbus := hs.2
  rw [Chip.write_addr] at hsbus
  obtain ⟨hw1, hw2, hw3, hw4⟩ := chip_flashWrite dev image (leValue (addrBytes dev.ProgStart))
    hps1 hps2 hdvd
    (dev.FlashSetAddress chipBus dev.ProgStart
      (dev.flashErase chipBus
        (((image.length : Int) + ((dev.PageSize : Int) - 1)) / (dev.PageSize : Int)) w).2).2
    (by rw [hsbus]; simpa [regStore] using he2)
    (by rw [hsbus]; exact he3.trans hchip)
    (by rw [hsbus])
  obtain ⟨hr1, hr2, hr3⟩ := chip_FlashRead dev image hps1 hps2 hdvd
    (List.replicate image.length 0)
    (dev.flashWrite chipBus image
      (dev.FlashSetAddress chipBus dev.ProgStart
        (dev.flashErase chipBus
          (((image.length : Int) + ((dev.PageSize : Int) - 1)) / (dev.PageSize : Int)) w).2).2).2
    (List.length_replicate _ _) hw3 hw4
  have hrun : dev.FlashWrite chipBus image w =
      (Outcome.ok, emit Out.verified
        (dev.FlashRead chipBus (List.replicate image.length 0)
          (dev.flashWrite chipBus image
            (dev.FlashSetAddress chipBus dev.ProgStart
              (dev.flashErase chipBus
                (((image.length : Int) + ((dev.PageSize : Int) - 1)) / (dev.PageSize : Int))
                w).2).2).2).2) := by
    simp only [Device.FlashWrite, hne, if_false, he1, hs.1, hw1, hr1]
    exact verifyLoop_equal chipBus dev image (image.length + 1) 0 _ (by omega)
  rw [hrun]
  refine ⟨rfl, ?_⟩
  intro buf hbuf
  exact (chip_FlashRead dev image hps1 hps2 hdvd buf
    (emit Out.verified
      (dev.FlashRead chipBus (List.replicate image.length 0)
        (dev.flashWrite chipBus image
          (dev.FlashSetAddress chipBus dev.ProgStart
            (dev.flashErase chipBus
              (((image.length : Int) + ((dev.PageSize : Int) - 1)) / (dev.PageSize : Int))
              w).2).2).2).2) hbuf hr2 hr3).1

/-- C1, witness: two pages of 4 bytes written to a model device whose flash holds 0xFF, and
read back. -/
theorem FlashWrite_FlashRead_roundtrip_witness :
    ((sessionOf 4 0x08002000).FlashWrite chipBus sampleImage
        (World.start (Chip.fresh 4 (fun _ => 0xFF)))).1 = Outcome.ok ∧
    ((sessionOf 4 0x08002000).FlashRead chipBus (List.replicate 8 0)
        ((sessionOf 4 0x08002000).FlashWrite chipBus sampleImage
          (World.start (Chip.fresh 4 (fun _ => 0xFF)))).2).1 = (sampleImage, Outcome.ok) :=
  have h := FlashWrite_FlashRead_roundtrip (sessionOf 4 0x08002000) sampleImage
    (World.start (Chip.fresh 4 (fun _ => 0xFF))) (by decide) (by decide) (by decide) rfl rfl
  ⟨h.1, h.2 (List.replicate 8 0) rfl⟩

set_option maxRecDepth 1000000 in
/-- C1, as stated, fails for a page size above 256: with pages of 257 bytes the last byte
of a page is sent to register 24, the register of its first byte, so the image 1, 0, ...,
0, 2 cannot be read back and `FlashWrite` itself fails on its verification. -/
theorem FlashWrite_roundtrip_fails_257 :
    (1 : Nat) ≤ (sessionOf 257 0x08002000).PageSize ∧
    (sessionOf 257 0x08002000).PageSize ≤ 4096 ∧
    (sessionOf 257 0x08002000).PageSize ∣ (1 :: (List.replicate 255 (0 : Byte) ++ [2])).length ∧
    ((sessionOf 257 0x08002000).FlashWrite chipBus (1 :: (List.replicate 255 0 ++ [2]))
      (World.start (Chip.fresh 257 (fun _ => 0xFF)))).1 =
      Outcome.err (Error.inconsistent 0x08002000 0 1 2) := by
  decide

/-! ## Claims on the verification and the self-test -/

set_option maxRecDepth 1000000 in
/-- C11, the code at the failing input: the image 1, ..., 8 written in pages of 4 bytes to a
device that returns the third byte of every page incremented on read-back.  The buffer read
back is 1, 2, 4, 4, 5, 6, 8, 8 and the first mismatch is at index 2; the File line lists the
image bytes 1, ..., 8 of the window, but the Read line lists the byte 4 (the read-back byte
at the mismatch) eight times, not the read-back bytes of the window. -/
theorem FlashWrite_read_line_repeats :
    ((sessionOf 4 0x08002000).FlashRead (corruptReads chipBus 26) (List.replicate 8 0)
      ((sessionOf 4 0x08002000).flashWrite (corruptReads chipBus 26) sampleImage
        ((sessionOf 4 0x08002000).FlashSetAddress (corruptReads chipBus 26) 0x08002000
          ((sessionOf 4 0x08002000).flashErase (corruptReads chipBus 26) 2
            (World.start (Chip.fresh 4 (fun _ => 0xFF)))).2).2).2).1 =
      ([1, 2, 4, 4, 5, 6, 8, 8], Outcome.ok) ∧
    ((sessionOf 4 0x08002000).FlashWrite (corruptReads chipBus 26) sampleImage
      (World.start (Chip.fresh 4 (fun _ => 0xFF)))).1 =
      Outcome.err (Error.inconsistent 0x08002002 2 3 4) ∧
    (((sessionOf 4 0x08002000).FlashWrite (corruptReads chipBus 26) sampleImage
      (World.start (Chip.fresh 4 (fun _ => 0xFF)))).2.out.filter
        (fun o => match o with
          | Out.hexByte _ => true
          | Out.fileLabel _ => true
          | Out.readLabel _ => true
          | _ => false)) =
      [Out.fileLabel 0x08002000, Out.hexByte 1, Out.hexByte 2, Out.hexByte 3, Out.hexByte 4,
       Out.hexByte 5, Out.hexByte 6, Out.hexByte 7, Out.hexByte 8,
       Out.readLabel 0x08002000, Out.hexByte 4, Out.hexByte 4, Out.hexByte 4, Out.hexByte 4,
       Out.hexByte 4, Out.hexByte 4, Out.hexByte 4, Out.hexByte 4] := by
  decide

theorem reportMismatch_ne_ok {σ : Type} (b : Bus σ) (dev : Device) (data data_copy : List Byte)
    (i : Nat) (w : World σ) : (reportMismatch b dev data data_copy i w).1 ≠ Outcome.ok := by
  rw [(reportMismatch_spec b dev data data_copy i w).1]
  intro h
  cases h

/-- The comparison loop returns nil exactly when the two buffers agree from `i` on. -/
theorem verifyLoop_ok_iff {σ : Type} (b : Bus σ) (dev : Device) (data data_copy : List Byte)
    (hlen : data_copy.length = data.length) :
    ∀ (fuel i : Nat) (w : World σ), data.length - i < fuel →
      ((verifyLoop b dev data data_copy fuel i w).1 = Outcome.ok ↔
        ∀ j, i ≤ j → j < data.length → data.getD j 0 = data_copy.getD j 0) := by
  intro fuel
  induction fuel with
  | zero => intro i w h; omega
  | succ fuel ih =>
    intro i w h
    by_cases hi : i < data.length
    · have hi2 : i < data_copy.length := by omega
      by_cases hne : data.getD i 0 ≠ data_copy.getD i 0
      · simp only [verifyLoop, hi, hi2, if_true]
        rw [if_pos hne]
        constructor
        · intro h1
          exact absurd h1 (reportMismatch_ne_ok b dev data data_copy i w)
        · intro h1
          exact absurd (h1 i (Nat.le_refl _) hi) hne
      · have heq : data.getD i 0 = data_copy.getD i 0 := not_not.1 hne
        simp only [verifyLoop, hi, hi2, if_true]
        rw [if_neg hne, ih (i + 1) w (by omega)]
        constructor
        · intro h1 j hj1 hj2
          rcases Nat.eq_or_lt_of_le hj1 with h2 | h2
          · rw [← h2]; exact heq
          · exact h1 j h2 hj2
        · intro h1 j hj1 hj2
          exact h1 j (by omega) hj2
    · simp only [verifyLoop, hi, if_false, true_iff]
      intro j hj1 hj2
      omega

/-- C12: in a run of `FlashWrite` whose erase, write and read-back phases return nil, with
`readback` the buffer read back, `FlashWrite` returns nil if and only if `readback` equals
the image at every index below `len(image)`; which is to say, if and only if the two buffers
are equal. -/
theorem FlashWrite_ok_iff_equal {σ : Type} (b : Bus σ) (dev : Device)
    (image readback : List Byte) (w we ws ww wr : World σ)
    (hps : dev.PageSize ≠ 0)
    (herase : dev.flashErase b
      (((image.length : Int) + ((dev.PageSize : Int) - 1)) / (dev.PageSize : Int)) w
        = (Outcome.ok, we))
    (haddr : dev.FlashSetAddress b dev.ProgStart we = (Outcome.ok, ws))
    (hwrite : dev.flashWrite b image ws = (Outcome.ok, ww))
    (hread : dev.FlashRead b (List.replicate image.length 0) ww = ((readback, Outcome.ok), wr)) :
    ((dev.FlashWrite b image w).1 = Outcome.ok ↔
      ∀ i, i < image.length → image.getD i 0 = readback.getD i 0) ∧
    ((dev.FlashWrite b image w).1 = Outcome.ok ↔ readback = image) := by
  have hlen : readback.length = image.length := by
    have h := FlashRead_length b dev (List.replicate image.length 0) ww
    rw [hread] at h
    simpa using h
  have hrun : dev.FlashWrite b image w =
      verifyLoop b dev image readback (image.length + 1) 0 wr := by
    simp only [Device.FlashWrite, hps, if_false, herase, haddr, hwrite, hread]
  have h1 : (dev.FlashWrite b image w).1 = Outcome.ok ↔
      ∀ i, i < image.length → image.getD i 0 = readback.getD i 0 := by
    rw [hrun, verifyLoop_ok_iff b dev image readback hlen (image.length + 1) 0 wr (by omega)]
    constructor
    · intro h i hi
      exact h i (Nat.zero_le _) hi
    · intro h i _ hi
      exact h i hi
  refine ⟨h1, ?_⟩
  rw [h1]
  constructor
  · intro h
    apply List.ext_getElem?
    intro k
    by_cases hk : k < image.length
    · have := h k hk
      simp only [List.getD_eq_getElem?_getD] at this
      rw [List.getElem?_eq_getElem hk, List.getElem?_eq_getElem (by omega : k < readback.length)]
        at this ⊢
      simpa using this.symm
    · rw [List.getElem?_eq_none (by omega), List.getElem?_eq_none (by omega)]
  · intro h i _
    rw [h]

set_option maxRecDepth 1000000 in
/-- C12, witness: the image 0, 0, 5 written in pages of 4 bytes over the transport whose
reads leave the buffer as it is: the read-back 0, 0, 0 differs from the image and
`FlashWrite` does not return nil. -/
theorem FlashWrite_ok_iff_equal_witness :
    ¬ (((sessionOf 4 0x08002000).FlashWrite nullBus [0, 0, 5] (World.start ())).1 = Outcome.ok) ∧
    (([0, 0, 0] : List Byte) ≠ [0, 0, 5]) :=
  have h := (FlashWrite_ok_iff_equal nullBus (sessionOf 4 0x08002000) [0, 0, 5] [0, 0, 0]
    (World.start ())
    ((sessionOf 4 0x08002000).flashErase nullBus 1 (World.start ())).2
    ((sessionOf 4 0x08002000).FlashSetAddress nullBus 0x08002000
      ((sessionOf 4 0x08002000).flashErase nullBus 1 (World.start ())).2).2
    ((sessionOf 4 0x08002000).flashWrite nullBus [0, 0, 5]
      ((sessionOf 4 0x08002000).FlashSetAddress nullBus 0x08002000
        ((sessionOf 4 0x08002000).flashErase nullBus 1 (World.start ())).2).2).2
    ((sessionOf 4 0x08002000).FlashRead nullBus [0, 0, 0]
      ((sessionOf 4 0x08002000).flashWrite nullBus [0, 0, 5]
        ((sessionOf 4 0x08002000).FlashSetAddress nullBus 0x08002000
          ((sessionOf 4 0x08002000).flashErase nullBus 1 (World.start ())).2).2).2).2
    (by decide) (Prod.ext (by decide) rfl) (Prod.ext (by decide) rfl)
    (Prod.ext (by decide) rfl) (Prod.ext (Prod.ext (by decide) (by decide)) rfl)).2
  ⟨fun hok => absurd (h.1 hok) (by decide), by decide⟩

/-! ## Register transport: the registers addressed -/

/-- The transfers issued by the loop of `Device.ReadBytes`: the `k`-th reads as many bytes as
the `k`-th 32-byte slice of the buffer has, at register `reg + 32 k` (8 bits). -/
theorem ReadBytesLoop_index {σ : Type} (b : Bus σ) (dev : Device) :
    ∀ (fuel : Nat) (reg : Byte) (data : List Byte) (w : World σ),
      data.length ≤ 32 * fuel → 0 < fuel →
      ∃ evs : List Event,
        (ReadBytesLoop b dev fuel reg data w).2.trace = w.trace ++ evs ∧
        ∀ k ev, evs[k]? = some ev →
          k < numChunks data ∧
          ∃ g, ev = Event.readBytes dev.Address (toByte (reg.val + 32 * k))
            (chunk data k).length g ev.result := by
  intro fuel
  induction fuel with
  | zero => intro reg data w _ h0; omega
  | succ fuel ih =>
    intro reg data w hlen _
    by_cases hshort : data.length ≤ 32
    · refine ⟨[Event.readBytes dev.Address reg data.length
          (fill data (b.ReadBytes w.bus dev.Address reg data).1.1)
          (b.ReadBytes w.bus dev.Address reg data).1.2], ?_, ?_⟩
      · simp [ReadBytesLoop, hshort, busReadBytes]
      · intro k ev hk
        cases k with
        | zero =>
          simp only [List.getElem?_cons_zero, Option.some.injEq] at hk
          subst hk
          refine ⟨by rw [numChunks_short data hshort]; omega,
            fill data (b.ReadBytes w.bus dev.Address reg data).1.1, ?_⟩
          simp only [chunk_zero_short data hshort, Nat.mul_zero, Nat.add_zero, toByte_val,
            Event.result]
        | succ k => simp at hk
    · have htake : (data.take 32).length = 32 := by rw [List.length_take]; omega
      have hchunk0 : (chunk data 0).length = 32 := by simp [chunk]; omega
      cases hr : (b.ReadBytes w.bus dev.Address reg (data.take 32)).1.2 with
      | some e =>
        refine ⟨[Event.readBytes dev.Address reg 32
            (fill (data.take 32) (b.ReadBytes w.bus dev.Address reg (data.take 32)).1.1)
            (some e)], ?_, ?_⟩
        · simp [ReadBytesLoop, hshort, busReadBytes, hr]
          omega
        · intro k ev hk
          cases k with
          | zero =>
            simp only [List.getElem?_cons_zero, Option.some.injEq] at hk
            subst hk
            refine ⟨by unfold numChunks; omega,
              fill (data.take 32) (b.ReadBytes w.bus dev.Address reg (data.take 32)).1.1, ?_⟩
            simp only [hchunk0, Nat.mul_zero, Nat.add_zero, toByte_val, Event.result]
          | succ k => simp at hk
      | none =>
        have hfuel : 0 < fuel := by omega
        have hlen2 : (data.drop 32).length ≤ 32 * fuel := by
          rw [List.length_drop]; omega
        obtain ⟨evs, htr, hidx⟩ :=
          ih (toByte (reg.val + 32)) (data.drop 32)
            (busReadBytes b dev.Address reg (data.take 32) w).2 hlen2 hfuel
        refine ⟨Event.readBytes dev.Address reg 32
            (fill (data.take 32) (b.ReadBytes w.bus dev.Address reg (data.take 32)).1.1)
            none :: evs, ?_, ?_⟩
        · simp only [ReadBytesLoop, hshort, if_false]
          have hr2 : (busReadBytes b dev.Address reg (data.take 32) w).1.2 = none := by
            simp [busReadBytes, hr]
          simp only [hr2, htr]
          simp [busReadBytes, hr]
          omega
        · intro k ev hk
          cases k with
          | zero =>
            simp only [List.getElem?_cons_zero, Option.some.injEq] at hk
            subst hk
            refine ⟨by unfold numChunks; omega,
              fill (data.take 32) (b.ReadBytes w.bus dev.Address reg (data.take 32)).1.1, ?_⟩
            simp only [hchunk0, Nat.mul_zero, Nat.add_zero, toByte_val, Event.result]
          | succ k =>
            simp only [List.getElem?_cons_succ] at hk
            obtain ⟨h1, g, h2⟩ := hidx k ev hk
            refine ⟨by rw [numChunks_long data hshort]; omega, g, ?_⟩
            rw [chunk_succ, h2]
            simp only [Event.result]
            rw [toByte_add_toByte]
            congr 2
            omega

/-- The transfers issued by the loop of `Device.ReadBytes` when it returns nil: one for
every 32-byte slice of the buffer, each filling its slice, none failing; `gots` are the
slices as filled, and the buffer afterwards is their concatenation. -/
theorem ReadBytesLoop_ok {σ : Type} (b : Bus σ) (dev : Device) :
    ∀ (fuel : Nat) (reg : Byte) (data : List Byte) (w : World σ),
      data.length ≤ 32 * fuel → 0 < fuel →
      (ReadBytesLoop b dev fuel reg data w).1.2 = Outcome.ok →
      ∃ gots : List (List Byte),
        gots.length = numChunks data ∧
        (∀ k g, gots[k]? = some g → g.length = (chunk data k).length) ∧
        (ReadBytesLoop b dev fuel reg data w).1.1 = gots.flatten ∧
        (ReadBytesLoop b dev fuel reg data w).2.trace = w.trace ++ gots.mapIdx
          (fun k g => Event.readBytes dev.Address (toByte (reg.val + 32 * k)) g.length g none) := by
  intro fuel
  induction fuel with
  | zero => intro reg data w _ h0; omega
  | succ fuel ih =>
    intro reg data w hlen _ hok
    by_cases hshort : data.length ≤ 32
    · have hres : (b.ReadBytes w.bus dev.Address reg data).1.2 = none := by
        simp only [ReadBytesLoop, hshort, if_true, busReadBytes] at hok
        exact (ofError_eq_ok _).1 hok
      refine ⟨[fill data (b.ReadBytes w.bus dev.Address reg data).1.1], ?_, ?_, ?_, ?_⟩
      · rw [numChunks_short data hshort]; rfl
      · intro k g hk
        cases k with
        | zero =>
          simp only [List.getElem?_cons_zero, Option.some.injEq] at hk
          subst hk
          rw [length_fill, chunk_zero_short data hshort]
        | succ k => simp at hk
      · simp [ReadBytesLoop, hshort, busReadBytes]
      · simp [ReadBytesLoop, hshort, busReadBytes, List.mapIdx_cons, hres, length_fill,
          toByte_val]
    · have htake : (data.take 32).length = 32 := by rw [List.length_take]; omega
      have hchunk0 : (chunk data 0).length = 32 := by simp [chunk]; omega
      cases hr : (b.ReadBytes w.bus dev.Address reg (data.take 32)).1.2 with
      | some e =>
        simp [ReadBytesLoop, hshort, busReadBytes, hr] at hok
      | none =>
        have hfuel : 0 < fuel := by omega
        have hlen2 : (data.drop 32).length ≤ 32 * fuel := by
          rw [List.length_drop]; omega
        have hr2 : (busReadBytes b dev.Address reg (data.take 32) w).1.2 = none := by
          simp [busReadBytes, hr]
        have hstep : ReadBytesLoop b dev (fuel + 1) reg data w =
            (((busReadBytes b dev.Address reg (data.take 32) w).1.1 ++
                (ReadBytesLoop b dev fuel (toByte (reg.val + 32)) (data.drop 32)
                  (busReadBytes b dev.Address reg (data.take 32) w).2).1.1,
              (ReadBytesLoop b dev fuel (toByte (reg.val + 32)) (data.drop 32)
                  (busReadBytes b dev.Address reg (data.take 32) w).2).1.2),
             (ReadBytesLoop b dev fuel (toByte (reg.val + 32)) (data.drop 32)
                  (busReadBytes b dev.Address reg (data.take 32) w).2).2) := by
          simp only [ReadBytesLoop, hshort, if_false, hr2]
        rw [hstep] at hok ⊢
        obtain ⟨gots, hlenG, hG, hdata, htr⟩ :=
          ih (toByte (reg.val + 32)) (data.drop 32)
            (busReadBytes b dev.Address reg (data.take 32) w).2 hlen2 hfuel hok
        refine ⟨(busReadBytes b dev.Address reg (data.take 32) w).1.1 :: gots, ?_, ?_, ?_, ?_⟩
        · rw [List.length_cons, hlenG, numChunks_long data hshort]
        · intro k g hk
          cases k with
          | zero =>
            simp only [List.getElem?_cons_zero, Option.some.injEq] at hk
            subst hk
            simp only [busReadBytes, length_fill, htake, hchunk0]
          | succ k =>
            simp only [List.getElem?_cons_succ] at hk
            rw [chunk_succ]
            exact hG k g hk
        · simp only [hdata, List.flatten_cons]
        · simp only [htr, List.mapIdx_cons]
          have hfun : (fun i (g : List Byte) => Event.readBytes dev.Address
                (toByte (reg.val + 32 * (i + 1))) g.length g none) =
              (fun k (g : List Byte) => Event.readBytes dev.Address
                (toByte ((toByte (reg.val + 32)).val + 32 * k)) g.length g none) := by
            funext i g
            rw [toByte_add_toByte]
            congr 2
            omega
          rw [hfun]
          simp [busReadBytes, hr, length_fill, toByte_val]

/-- The transfers issued by `Device.WriteBytes` when it returns nil: the consecutive 32-byte
slices of the data, none failing. -/
theorem WriteBytes_ok_trace {σ : Type} (b : Bus σ) (dev : Device) (reg : Byte)
    (data : List Byte) (w : World σ) (hok : (dev.WriteBytes b reg data w).1 = Outcome.ok) :
    (dev.WriteBytes b reg data w).2.trace = w.trace ++ (List.range (numChunks data)).map
      (fun k => Event.writeBytes dev.Address (toByte (reg.val + 32 * k)) (chunk data k) none) := by
  obtain ⟨evs, htr, hne, hidx, hpre, hlast, hcount, _⟩ :=
    WriteBytesLoop_events b dev (data.length + 1) reg data w (by omega) (by omega)
  have hok2 : (WriteBytesLoop b dev (data.length + 1) reg data w).1 = Outcome.ok := hok
  have hnone : ∀ ev ∈ evs, ev.result = none := by
    obtain ⟨l, a, rfl⟩ : ∃ l a, evs = l ++ [a] :=
      ⟨evs.dropLast, evs.getLast hne, (List.dropLast_concat_getLast hne).symm⟩
    have h := hlast a (List.getLast?_concat l)
    rw [hok2] at h
    have ha : a.result = none := ((ofError_eq_ok _).1 h.symm)
    intro ev hev
    rw [List.dropLast_concat] at hpre
    rcases List.mem_append.1 hev with h1 | h1
    · exact hpre ev h1
    · simp only [List.mem_singleton] at h1
      rw [h1]; exact ha
  show (WriteBytesLoop b dev (data.length + 1) reg data w).2.trace = _
  rw [htr]
  congr 1
  apply List.ext_getElem?
  intro k
  have hlength := hcount hok2
  by_cases hk : k < numChunks data
  · have hk2 : k < evs.length := by omega
    rw [List.getElem?_eq_getElem hk2, List.getElem?_map, List.getElem?_range hk]
    obtain ⟨_, h2⟩ := hidx k evs[k] (List.getElem?_eq_getElem hk2)
    rw [hnone evs[k] (List.getElem_mem hk2)] at h2
    simp [h2]
  · rw [List.getElem?_eq_none (by omega), List.getElem?_eq_none (by simp; omega)]

theorem lt_numChunks_iff (data : List Byte) (k : Nat) :
    k < numChunks data ↔ (32 * k < data.length ∨ k = 0) := by
  unfold numChunks
  omega

/-! ## Transports that never fail -/

/-- On a transport whose block reads never fail, the loop of `Device.ReadBytes` returns
nil. -/
theorem ReadBytesLoop_ok_of_bus {σ : Type} (b : Bus σ) (dev : Device)
    (hRs : ∀ s a r d, (b.ReadBytes s a r d).1.2 = none) :
    ∀ (fuel : Nat) (reg : Byte) (data : List Byte) (w : World σ),
      data.length ≤ 32 * fuel → 0 < fuel →
      (ReadBytesLoop b dev fuel reg data w).1.2 = Outcome.ok := by
  intro fuel
  induction fuel with
  | zero => intro reg data w _ h0; omega
  | succ fuel ih =>
    intro reg data w hlen _
    by_cases hshort : data.length ≤ 32
    · simp [ReadBytesLoop, hshort, busReadBytes, hRs, Outcome.ofError]
    · have hr2 : (busReadBytes b dev.Address reg (data.take 32) w).1.2 = none := by
        simp [busReadBytes, hRs]
      simp only [ReadBytesLoop, hshort, if_false, hr2]
      exact ih _ _ _ (by rw [List.length_drop]; omega) (by omega)

/-- On a transport whose block reads never fail, `Device.ReadBytes` returns nil. -/
theorem ReadBytes_ok_of_bus {σ : Type} (b : Bus σ) (dev : Device)
    (hRs : ∀ s a r d, (b.ReadBytes s a r d).1.2 = none) (reg : Byte) (data : List Byte)
    (w : World σ) : (dev.ReadBytes b reg data w).1.2 = Outcome.ok :=
  ReadBytesLoop_ok_of_bus b dev hRs (data.length + 1) reg data w (by omega) (by omega)

/-- On a transport whose block writes never fail, `Device.WriteBytes` returns nil. -/
theorem WriteBytes_ok_of_bus {σ : Type} (b : Bus σ) (dev : Device)
    (hWs : ∀ s a r d, (b.WriteBytes s a r d).1 = none) (reg : Byte) (data : List Byte)
    (w : World σ) : (dev.WriteBytes b reg data w).1 = Outcome.ok := by
  obtain ⟨evs, _, hne, _, _, hlast, _, hbus⟩ :=
    WriteBytesLoop_events b dev (data.length + 1) reg data w (by omega) (by omega)
  obtain ⟨l, a, rfl⟩ : ∃ l a, evs = l ++ [a] :=
    ⟨evs.dropLast, evs.getLast hne, (List.dropLast_concat_getLast hne).symm⟩
  have h := hlast a (List.getLast?_concat l)
  obtain ⟨s, r, d, hres⟩ := hbus a (by simp)
  rw [hres, hWs] at h
  exact h

/-- In a run of at most `n` transfers that has all `n` of them when the last succeeded, the
`k`-th transfer, `k < n`, is there unless an earlier one failed. -/
theorem transfer_or_failed (evs : List Event) (n k : Nat) (hne : evs ≠ []) (hk : k < n)
    (hcount : (∀ ev, evs.getLast? = some ev → ev.result = none) → evs.length = n) :
    k < evs.length ∨ ∃ j ev, j < k ∧ evs[j]? = some ev ∧ ev.result ≠ none := by
  by_cases hlt : k < evs.length
  · exact Or.inl hlt
  · right
    have hpos : 0 < evs.length := List.length_pos.2 hne
    have hj : evs.length - 1 < evs.length := by omega
    refine ⟨evs.length - 1, evs[evs.length - 1], by omega, List.getElem?_eq_getElem hj, ?_⟩
    intro hnone
    have hlen := hcount (fun ev hev => by
      rw [List.getLast?_eq_getElem?, List.getElem?_eq_getElem hj] at hev
      rw [← Option.some.inj hev]
      exact hnone)
    omega

/-- The `k`-th transfer of `Device.WriteBytes`, for `32 k < len(data)` or `k = 0`, is issued
at register `reg + 32 k` (8 bits) unless an earlier transfer failed. -/
theorem WriteBytes_transfer {σ : Type} (b : Bus σ) (dev : Device) (reg : Byte)
    (data : List Byte) (w : World σ) (k : Nat) (hk : 32 * k < data.length ∨ k = 0) :
    (∃ res, ((dev.WriteBytes b reg data w).2.trace)[w.trace.length + k]? =
        some (Event.writeBytes dev.Address (toByte (reg.val + 32 * k)) (chunk data k) res)) ∨
    (∃ j ev, j < k ∧ ((dev.WriteBytes b reg data w).2.trace)[w.trace.length + j]? = some ev ∧
        ev.result ≠ none) := by
  obtain ⟨evs, htr, hne, hidx, _, hlast, hcount, _⟩ :=
    WriteBytesLoop_events b dev (data.length + 1) reg data w (by omega) (by omega)
  have htr2 : (dev.WriteBytes b reg data w).2.trace = w.trace ++ evs := htr
  have hget : ∀ j, ((dev.WriteBytes b reg data w).2.trace)[w.trace.length + j]? = evs[j]? := by
    intro j
    rw [htr2, List.getElem?_append_right (by omega), Nat.add_sub_cancel_left]
  rcases transfer_or_failed evs (numChunks data) k hne ((lt_numChunks_iff data k).2 hk)
      (fun h => hcount (by
        obtain ⟨l, a, rfl⟩ : ∃ l a, evs = l ++ [a] :=
          ⟨evs.dropLast, evs.getLast hne, (List.dropLast_concat_getLast hne).symm⟩
        have h1 := hlast a (List.getLast?_concat l)
        rw [h a (List.getLast?_concat l)] at h1
        exact h1)) with hlt | ⟨j, ev, hj, hev, hres⟩
  · left
    obtain ⟨_, h2⟩ := hidx k evs[k] (List.getElem?_eq_getElem hlt)
    exact ⟨evs[k].result, by rw [hget, List.getElem?_eq_getElem hlt, ← h2]⟩
  · right
    exact ⟨j, ev, hj, by rw [hget, hev], hres⟩

/-- The `k`-th transfer of `Device.ReadBytes`, for `32 k < len(data)` or `k = 0`, is issued
at register `reg + 32 k` (8 bits) unless an earlier transfer failed. -/
theorem ReadBytes_transfer {σ : Type} (b : Bus σ) (dev : Device) (reg : Byte)
    (data : List Byte) (w : World σ) (k : Nat) (hk : 32 * k < data.length ∨ k = 0) :
    (∃ g res, ((dev.ReadBytes b reg data w).2.trace)[w.trace.length + k]? =
        some (Event.readBytes dev.Address (toByte (reg.val + 32 * k)) (chunk data k).length g
          res)) ∨
    (∃ j ev, j < k ∧ ((dev.ReadBytes b reg data w).2.trace)[w.trace.length + j]? = some ev ∧
        ev.result ≠ none) := by
  obtain ⟨evs, htr, hne, _, _, hlast, _⟩ :=
    ReadBytesLoop_events b dev (data.length + 1) reg data w (by omega) (by omega)
  obtain ⟨evs2, htr2, hidx⟩ :=
    ReadBytesLoop_index b dev (data.length + 1) reg data w (by omega) (by omega)
  have hsame : evs2 = evs := List.append_cancel_left (htr2.symm.trans htr)
  subst hsame
  have htr3 : (dev.ReadBytes b reg data w).2.trace = w.trace ++ evs2 := htr
  have hget : ∀ j, ((dev.ReadBytes b reg data w).2.trace)[w.trace.length + j]? = evs2[j]? := by
    intro j
    rw [htr3, List.getElem?_append_right (by omega), Nat.add_sub_cancel_left]
  have hcount : (∀ ev, evs2.getLast? = some ev → ev.result = none) →
      evs2.length = numChunks data := by
    intro h
    obtain ⟨l, a, hla⟩ : ∃ l a, evs2 = l ++ [a] :=
      ⟨evs2.dropLast, evs2.getLast hne, (List.dropLast_concat_getLast hne).symm⟩
    have h1 := hlast a (by rw [hla]; exact List.getLast?_concat l)
    rw [h a (by rw [hla]; exact List.getLast?_concat l)] at h1
    obtain ⟨gots, hlenG, _, _, htrG⟩ :=
      ReadBytesLoop_ok b dev (data.length + 1) reg data w (by omega) (by omega) h1
    have h2 : evs2 = gots.mapIdx (fun k g =>
        Event.readBytes dev.Address (toByte (reg.val + 32 * k)) g.length g none) :=
      List.append_cancel_left (htr.symm.trans htrG)
    rw [h2, List.length_mapIdx, hlenG]
  rcases transfer_or_failed evs2 (numChunks data) k hne ((lt_numChunks_iff data k).2 hk)
      hcount with hlt | ⟨j, ev, hj, hev, hres⟩
  · left
    obtain ⟨_, g, h2⟩ := hidx k evs2[k] (List.getElem?_eq_getElem hlt)
    exact ⟨g, evs2[k].result, by rw [hget, List.getElem?_eq_getElem hlt, ← h2]⟩
  · right
    exact ⟨j, ev, hj, by rw [hget, hev], hres⟩

/-- Over a transport whose block writes never fail, `Device.WriteBytes` issues its `k`-th
transfer, for `32 k < len(data)` or `k = 0`, at register `reg + 32 k` (8 bits). -/
theorem WriteBytes_transfer_of_bus {σ : Type} (b : Bus σ) (dev : Device) (reg : Byte)
    (data : List Byte) (w : World σ) (hWs : ∀ s a r d, (b.WriteBytes s a r d).1 = none)
    (k : Nat) (hk : 32 * k < data.length ∨ k = 0) :
    ((dev.WriteBytes b reg data w).2.trace)[w.trace.length + k]? =
      some (Event.writeBytes dev.Address (toByte (reg.val + 32 * k)) (chunk data k) none) := by
  rw [WriteBytes_ok_trace b dev reg data w (WriteBytes_ok_of_bus b dev hWs reg data w),
    List.getElem?_append_right (by omega), Nat.add_sub_cancel_left, List.getElem?_map,
    List.getElem?_range ((lt_numChunks_iff data k).2 hk)]
  rfl

/-- Over a transport whose block reads never fail, `Device.ReadBytes` issues its `k`-th
transfer, for `32 k < len(data)` or `k = 0`, at register `reg + 32 k` (8 bits). -/
theorem ReadBytes_transfer_of_bus {σ : Type} (b : Bus σ) (dev : Device) (reg : Byte)
    (data : List Byte) (w : World σ) (hRs : ∀ s a r d, (b.ReadBytes s a r d).1.2 = none)
    (k : Nat) (hk : 32 * k < data.length ∨ k = 0) :
    ∃ g : List Byte, g.length = (chunk data k).length ∧
      ((dev.ReadBytes b reg data w).2.trace)[w.trace.length + k]? =
        some (Event.readBytes dev.Address (toByte (reg.val + 32 * k)) g.length g none) := by
  obtain ⟨gots, hlenG, hG, _, htr⟩ :=
    ReadBytesLoop_ok b dev (data.length + 1) reg data w (by omega) (by omega)
      (ReadBytes_ok_of_bus b dev hRs reg data w)
  have htr2 : (dev.ReadBytes b reg data w).2.trace = w.trace ++ gots.mapIdx
      (fun k g => Event.readBytes dev.Address (toByte (reg.val + 32 * k)) g.length g none) :=
    htr
  have hlt : k < gots.length := by rw [hlenG]; exact (lt_numChunks_iff data k).2 hk
  refine ⟨gots[k], hG k gots[k] (List.getElem?_eq_getElem hlt), ?_⟩
  rw [htr2, List.getElem?_append_right (by omega), Nat.add_sub_cancel_left,
    List.getElem?_mapIdx, List.getElem?_eq_getElem hlt]
  rfl

/-- C20: the `k`-th primitive transfer issued by `Device.WriteBytes(offset, data)`, and by
`Device.ReadBytes(offset, data)`, is addressed to register `(offset + 32 k) mod 256`, and
there is one only for `32 k < len(data)` or `k = 0`.  Both methods always issue the
transfer 0, at the register `offset`; for every `k` with `32 k < len(data)` or `k = 0` they
issue the `k`-th transfer, at register `(offset + 32 k) mod 256`, unless an earlier transfer
failed, and over a transport whose transfers never fail they issue every one of them.  In
particular chunk 8 of a transfer at the data window (offset 24) is addressed to register
24, the register of chunk 0: in a transfer of more than 256 bytes, by `WriteBytes` or by
`ReadBytes`, over a transport that never fails (or that returns nil), the transfers 0 and 8
are both at register 24. -/
theorem register_offsets_wrap {σ : Type} (b : Bus σ) (dev : Device) (reg : Byte)
    (data : List Byte) (w : World σ) :
    (∀ k ev, ((dev.WriteBytes b reg data w).2.trace)[w.trace.length + k]? = some ev →
      ev.reg = some (toByte (reg.val + 32 * k)) ∧
      (toByte (reg.val + 32 * k)).val = (reg.val + 32 * k) % 256 ∧
      (32 * k < data.length ∨ k = 0)) ∧
    (∀ k ev, ((dev.ReadBytes b reg data w).2.trace)[w.trace.length + k]? = some ev →
      ev.reg = some (toByte (reg.val + 32 * k)) ∧
      (toByte (reg.val + 32 * k)).val = (reg.val + 32 * k) % 256 ∧
      (32 * k < data.length ∨ k = 0)) ∧
    toByte (ADDR_DATA.val + 32 * 8) = ADDR_DATA ∧
    (256 < data.length → (dev.WriteBytes b ADDR_DATA data w).1 = Outcome.ok →
      ((dev.WriteBytes b ADDR_DATA data w).2.trace)[w.trace.length + 0]? =
        some (Event.writeBytes dev.Address ADDR_DATA (chunk data 0) none) ∧
      ((dev.WriteBytes b ADDR_DATA data w).2.trace)[w.trace.length + 8]? =
        some (Event.writeBytes dev.Address ADDR_DATA (chunk data 8) none)) ∧
    (256 < data.length → (dev.ReadBytes b ADDR_DATA data w).1.2 = Outcome.ok →
      ∃ g0 g8 : List Byte,
        ((dev.ReadBytes b ADDR_DATA data w).2.trace)[w.trace.length + 0]? =
          some (Event.readBytes dev.Address ADDR_DATA g0.length g0 none) ∧
        ((dev.ReadBytes b ADDR_DATA data w).2.trace)[w.trace.length + 8]? =
          some (Event.readBytes dev.Address ADDR_DATA g8.length g8 none)) ∧
    (∃ res, ((dev.WriteBytes b reg data w).2.trace)[w.trace.length + 0]? =
      some (Event.writeBytes dev.Address reg (chunk data 0) res)) ∧
    (∃ g res, ((dev.ReadBytes b reg data w).2.trace)[w.trace.length + 0]? =
      some (Event.readBytes dev.Address reg (chunk data 0).length g res)) ∧
    (∀ k, (32 * k < data.length ∨ k = 0) →
      (∃ res, ((dev.WriteBytes b reg data w).2.trace)[w.trace.length + k]? =
        some (Event.writeBytes dev.Address (toByte (reg.val + 32 * k)) (chunk data k) res)) ∨
      (∃ j ev, j < k ∧
        ((dev.WriteBytes b reg data w).2.trace)[w.trace.length + j]? = some ev ∧
        ev.result ≠ none)) ∧
    (∀ k, (32 * k < data.length ∨ k = 0) →
      (∃ g res, ((dev.ReadBytes b reg data w).2.trace)[w.trace.length + k]? =
        some (Event.readBytes dev.Address (toByte (reg.val + 32 * k)) (chunk data k).length g
          res)) ∨
      (∃ j ev, j < k ∧
        ((dev.ReadBytes b reg data w).2.trace)[w.trace.length + j]? = some ev ∧
        ev.result ≠ none)) ∧
    ((∀ s a r d, (b.WriteBytes s a r d).1 = none) →
      ∀ k, (32 * k < data.length ∨ k = 0) →
        ((dev.WriteBytes b reg data w).2.trace)[w.trace.length + k]? =
          some (Event.writeBytes dev.Address (toByte (reg.val + 32 * k)) (chunk data k) none)) ∧
    ((∀ s a r d, (b.ReadBytes s a r d).1.2 = none) →
      ∀ k, (32 * k < data.length ∨ k = 0) →
        ∃ g : List Byte, g.length = (chunk data k).length ∧
          ((dev.ReadBytes b reg data w).2.trace)[w.trace.length + k]? =
            some (Event.readBytes dev.Address (toByte (reg.val + 32 * k)) g.length g none)) ∧
    (256 < data.length → (∀ s a r d, (b.WriteBytes s a r d).1 = none) →
      ((dev.WriteBytes b ADDR_DATA data w).2.trace)[w.trace.length + 0]? =
        some (Event.writeBytes dev.Address ADDR_DATA (chunk data 0) none) ∧
      ((dev.WriteBytes b ADDR_DATA data w).2.trace)[w.trace.length + 8]? =
        some (Event.writeBytes dev.Address ADDR_DATA (chunk data 8) none)) ∧
    (256 < data.length → (∀ s a r d, (b.ReadBytes s a r d).1.2 = none) →
      ∃ g0 g8 : List Byte, g0.length = 32 ∧ g8.length = min 32 (data.length - 256) ∧
        ((dev.ReadBytes b ADDR_DATA data w).2.trace)[w.trace.length + 0]? =
          some (Event.readBytes dev.Address ADDR_DATA g0.length g0 none) ∧
        ((dev.ReadBytes b ADDR_DATA data w).2.trace)[w.trace.length + 8]? =
          some (Event.readBytes dev.Address ADDR_DATA g8.length g8 none)) := by
  refine ⟨?_, ?_, by decide, ?_, ?_, ?_, ?_, ?_, ?_, ?_, ?_, ?_, ?_⟩
  · obtain ⟨evs, htr, _, hidx, _⟩ :=
      WriteBytesLoop_events b dev (data.length + 1) reg data w (by omega) (by omega)
    have htr2 : (dev.WriteBytes b reg data w).2.trace = w.trace ++ evs := htr
    intro k ev hk
    rw [htr2, List.getElem?_append_right (by omega), Nat.add_sub_cancel_left] at hk
    obtain ⟨h1, h2⟩ := hidx k ev hk
    refine ⟨by rw [h2]; rfl, by simp [toByte], (lt_numChunks_iff data k).1 h1⟩
  · obtain ⟨evs, htr, hidx⟩ :=
      ReadBytesLoop_index b dev (data.length + 1) reg data w (by omega) (by omega)
    have htr2 : (dev.ReadBytes b reg data w).2.trace = w.trace ++ evs := htr
    intro k ev hk
    rw [htr2, List.getElem?_append_right (by omega), Nat.add_sub_cancel_left] at hk
    obtain ⟨h1, g, h2⟩ := hidx k ev hk
    refine ⟨by rw [h2]; rfl, by simp [toByte], (lt_numChunks_iff data k).1 h1⟩
  · intro hlen hok
    rw [WriteBytes_ok_trace b dev ADDR_DATA data w hok]
    have h8 : 8 < numChunks data := by unfold numChunks; omega
    have h0 : 0 < numChunks data := by omega
    constructor
    · rw [List.getElem?_append_right (by omega), Nat.add_sub_cancel_left, List.getElem?_map,
        List.getElem?_range h0]
      rfl
    · rw [List.getElem?_append_right (by omega), Nat.add_sub_cancel_left, List.getElem?_map,
        List.getElem?_range h8]
      rfl
  · intro hlen hok
    obtain ⟨gots, hlenG, _, _, htr⟩ :=
      ReadBytesLoop_ok b dev (data.length + 1) ADDR_DATA data w (by omega) (by omega) hok
    have htr2 : (dev.ReadBytes b ADDR_DATA data w).2.trace = w.trace ++ gots.mapIdx
        (fun k g => Event.readBytes dev.Address (toByte (ADDR_DATA.val + 32 * k)) g.length g
          none) := htr
    have h8 : 8 < gots.length := by rw [hlenG]; unfold numChunks; omega
    have h0 : 0 < gots.length := by omega
    refine ⟨gots[0], gots[8], ?_, ?_⟩
    · rw [htr2, List.getElem?_append_right (by omega), Nat.add_sub_cancel_left,
        List.getElem?_mapIdx, List.getElem?_eq_getElem h0]
      rfl
    · rw [htr2, List.getElem?_append_right (by omega), Nat.add_sub_cancel_left,
        List.getElem?_mapIdx, List.getElem?_eq_getElem h8]
      rfl
  · rcases WriteBytes_transfer b dev reg data w 0 (Or.inr rfl) with ⟨res, h⟩ | ⟨j, _, hj, _⟩
    · refine ⟨res, ?_⟩
      rw [h, Nat.mul_zero, Nat.add_zero, toByte_val]
    · omega
  · rcases ReadBytes_transfer b dev reg data w 0 (Or.inr rfl) with ⟨g, res, h⟩ | ⟨j, _, hj, _⟩
    · refine ⟨g, res, ?_⟩
      rw [h, Nat.mul_zero, Nat.add_zero, toByte_val]
    · omega
  · exact fun k hk => WriteBytes_transfer b dev reg data w k hk
  · exact fun k hk => ReadBytes_transfer b dev reg data w k hk
  · exact fun hWs k hk => WriteBytes_transfer_of_bus b dev reg data w hWs k hk
  · exact fun hRs k hk => ReadBytes_transfer_of_bus b dev reg data w hRs k hk
  · intro hlen hWs
    exact ⟨WriteBytes_transfer_of_bus b dev ADDR_DATA data w hWs 0 (Or.inr rfl),
      WriteBytes_transfer_of_bus b dev ADDR_DATA data w hWs 8 (Or.inl (by omega))⟩
  · intro hlen hRs
    obtain ⟨g0, hl0, h0⟩ := ReadBytes_transfer_of_bus b dev ADDR_DATA data w hRs 0 (Or.inr rfl)
    obtain ⟨g8, hl8, h8⟩ :=
      ReadBytes_transfer_of_bus b dev ADDR_DATA data w hRs 8 (Or.inl (by omega))
    refine ⟨g0, g8, ?_, ?_, h0, h8⟩
    · rw [hl0]
      simp only [chunk, List.length_take, List.length_drop]
      omega
    · rw [hl8]
      simp only [chunk, List.length_take, List.length_drop]

set_option maxRecDepth 1000000 in
/-- C20, witness: 257 bytes written to, and 257 bytes read from, the data window over a
transport that never fails: the ninth transfer, of the last byte, is at register 24 like
the first, for `WriteBytes` and for `ReadBytes`. -/
theorem register_offsets_wrap_witness :
    ((((sessionOf 257 0).WriteBytes nullBus ADDR_DATA (List.replicate 257 7)
        (World.start ())).2.trace)[(World.start ()).trace.length + 0]? =
      some (Event.writeBytes 0x6C 24 (List.replicate 32 7) none) ∧
    (((sessionOf 257 0).WriteBytes nullBus ADDR_DATA (List.replicate 257 7)
        (World.start ())).2.trace)[(World.start ()).trace.length + 8]? =
      some (Event.writeBytes 0x6C 24 [7] none)) ∧
    (∃ g0 g8 : List Byte, g0.length = 32 ∧ g8.length = min 32 (257 - 256) ∧
      (((sessionOf 257 0).ReadBytes nullBus ADDR_DATA (List.replicate 257 7)
          (World.start ())).2.trace)[(World.start ()).trace.length + 0]? =
        some (Event.readBytes 0x6C 24 g0.length g0 none) ∧
      (((sessionOf 257 0).ReadBytes nullBus ADDR_DATA (List.replicate 257 7)
          (World.start ())).2.trace)[(World.start ()).trace.length + 8]? =
        some (Event.readBytes 0x6C 24 g8.length g8 none)) ∧
    (((sessionOf 257 0).ReadBytes nullBus ADDR_DATA (List.replicate 257 7)
        (World.start ())).2.trace)[8]? = some (Event.readBytes 0x6C 24 1 [7] none) ∧
    (((sessionOf 257 0).ReadBytes nullBus ADDR_DATA (List.replicate 257 7)
        (World.start ())).2.trace).length = 9 :=
  ⟨(register_offsets_wrap nullBus (sessionOf 257 0) ADDR_DATA (List.replicate 257 7)
      (World.start ())).2.2.2.2.2.2.2.2.2.2.2.1 (by decide) (fun _ _ _ _ => rfl),
   (register_offsets_wrap nullBus (sessionOf 257 0) ADDR_DATA (List.replicate 257 7)
      (World.start ())).2.2.2.2.2.2.2.2.2.2.2.2 (by decide) (fun _ _ _ _ => rfl),
   by decide, by decide⟩

/-! ## Self-test -/

theorem autoTestPattern_length : autoTestPattern.length = 64 := by
  simp [autoTestPattern]

theorem autoTestPattern_getD (j : Nat) (hj : j < 64) :
    autoTestPattern.getD j 0 = toByte (63 - j) := by
  simp [autoTestPattern, List.getD_eq_getElem?_getD, List.getElem?_range hj]

/-- The comparison loop of `Device.AutoTest`, started at or before the first index `i`
at which the buffer differs from the pattern, returns the mismatch error naming `i`. -/
theorem autoTestLoop_first_mismatch (buf : List Byte) (i : Nat)
    (hne : buf.getD i 0 ≠ toByte (63 - i)) :
    ∀ (n i0 : Nat), i0 ≤ i → i < i0 + n →
      (∀ j, i0 ≤ j → j < i → buf.getD j 0 = toByte (63 - j)) →
      autoTestLoop buf n i0 = Outcome.err (Error.autotest i) := by
  intro n
  induction n with
  | zero => intro i0 h1 h2 _; omega
  | succ n ih =>
    intro i0 h1 h2 heq
    rcases Nat.eq_or_lt_of_le h1 with h | h
    · subst h
      simp only [autoTestLoop]
      rw [if_pos hne]
    · have h5 := heq i0 (Nat.le_refl _) h
      simp only [autoTestLoop]
      rw [if_neg (not_not.2 h5)]
      exact ih (i0 + 1) (by omega) (by omega) (fun j hj1 hj2 => heq j (by omega) hj2)

/-- The comparison loop of `Device.AutoTest` returns nil exactly when the buffer agrees with
the pattern on the indices it goes through. -/
theorem autoTestLoop_ok_iff (buf : List Byte) :
    ∀ (n i : Nat),
      (autoTestLoop buf n i = Outcome.ok ↔
        ∀ j, i ≤ j → j < i + n → buf.getD j 0 = toByte (63 - j)) := by
  intro n
  induction n with
  | zero =>
    intro i
    simp only [autoTestLoop, true_iff]
    intro j h1 h2
    omega
  | succ n ih =>
    intro i
    by_cases hne : buf.getD i 0 ≠ toByte (63 - i)
    · simp only [autoTestLoop]
      rw [if_pos hne]
      constructor
      · intro h; cases h
      · intro h
        exact absurd (h i (Nat.le_refl _) (by omega)) hne
    · have heq : buf.getD i 0 = toByte (63 - i) := not_not.1 hne
      simp only [autoTestLoop]
      rw [if_neg hne, ih (i + 1)]
      constructor
      · intro h j hj1 hj2
        rcases Nat.eq_or_lt_of_le hj1 with h2 | h2
        · rw [← h2]; exact heq
        · exact h j h2 (by omega)
      · intro h j hj1 hj2
        exact h j (by omega) (by omega)

/-- C13: `Device.AutoTest` writes the 64 bytes 63, 62, ..., 0 to the data-window register
(two primitive writes of 32 bytes, at registers 24 and 56) and reads 64 bytes back from it
(two primitive reads of 32 bytes, at registers 24 and 56).  When both transfers return nil,
with `got` the bytes read back: it returns nil if and only if `got` equals the pattern; and
when `got` differs from the pattern, with `i` the least index at which `got[i]` differs
from `63 - i`, it fails with the mismatch error naming `i`. -/
theorem AutoTest_loopback {σ : Type} (b : Bus σ) (dev : Device) (w ww wr : World σ)
    (got : List Byte)
    (hwrite : dev.WriteBytes b ADDR_DATA autoTestPattern w = (Outcome.ok, ww))
    (hread : dev.ReadBytes b ADDR_DATA autoTestPattern ww = ((got, Outcome.ok), wr)) :
    (autoTestPattern.length = 64 ∧ ∀ j, j < 64 → (autoTestPattern.getD j 0).val = 63 - j) ∧
    ww.trace = w.trace ++
      [Event.writeBytes dev.Address 24 (autoTestPattern.take 32) none,
       Event.writeBytes dev.Address 56 (autoTestPattern.drop 32) none] ∧
    (∃ g0 g1 : List Byte, g0.length = 32 ∧ g1.length = 32 ∧ got = g0 ++ g1 ∧
      wr.trace = ww.trace ++
        [Event.readBytes dev.Address 24 32 g0 none, Event.readBytes dev.Address 56 32 g1 none]) ∧
    ((dev.AutoTest b w).1 = Outcome.ok ↔ got = autoTestPattern) ∧
    ((dev.AutoTest b w).1 = Outcome.ok ↔ ∀ j, j < 64 → (got.getD j 0).val = 63 - j) ∧
    (∀ i, i < 64 → got.getD i 0 ≠ toByte (63 - i) →
      (∀ j, j < i → got.getD j 0 = toByte (63 - j)) →
      (dev.AutoTest b w).1 = Outcome.err (Error.autotest i)) := by
  have hrun : (dev.AutoTest b w).1 = autoTestLoop got 64 0 := by
    simp only [Device.AutoTest, hwrite, hread]
  have hgl : got.length = 64 := by
    obtain ⟨_, _, _, _, _, _, h⟩ :=
      ReadBytesLoop_events b dev (autoTestPattern.length + 1) ADDR_DATA autoTestPattern ww
        (by omega) (by omega)
    have h2 : (dev.ReadBytes b ADDR_DATA autoTestPattern ww).1.1.length
        = autoTestPattern.length := h
    rw [hread, autoTestPattern_length] at h2
    exact h2
  have hval : ∀ (x : Byte) (j : Nat), j < 64 → (x = toByte (63 - j) ↔ x.val = 63 - j) := by
    intro x j hj
    constructor
    · intro h
      rw [h]
      simp only [toByte]
      omega
    · intro h
      apply Fin.ext
      simp only [toByte]
      omega
  have hiff : (dev.AutoTest b w).1 = Outcome.ok ↔
      ∀ j, j < 64 → got.getD j 0 = toByte (63 - j) := by
    rw [hrun, autoTestLoop_ok_iff got 64 0]
    constructor
    · intro h j hj
      exact h j (Nat.zero_le _) (by omega)
    · intro h j _ hj
      exact h j (by omega)
  refine ⟨⟨autoTestPattern_length, ?_⟩, ?_, ?_, ?_, ?_, ?_⟩
  · intro j hj
    exact (hval _ j hj).1 (autoTestPattern_getD j hj)
  · have h := WriteBytes_ok_trace b dev ADDR_DATA autoTestPattern w (by rw [hwrite])
    rw [hwrite] at h
    rw [h]
    rfl
  · obtain ⟨gots, hlenG, hG, hdata, htr⟩ :=
      ReadBytesLoop_ok b dev (autoTestPattern.length + 1) ADDR_DATA autoTestPattern ww
        (by omega) (by omega) (by
          show (dev.ReadBytes b ADDR_DATA autoTestPattern ww).1.2 = Outcome.ok
          rw [hread])
    have hdata2 : (dev.ReadBytes b ADDR_DATA autoTestPattern ww).1.1 = gots.flatten := hdata
    have htr2 : (dev.ReadBytes b ADDR_DATA autoTestPattern ww).2.trace = ww.trace ++
        gots.mapIdx (fun k g => Event.readBytes dev.Address (toByte (ADDR_DATA.val + 32 * k))
          g.length g none) := htr
    rw [hread] at hdata2 htr2
    have hn : numChunks autoTestPattern = 2 := by
      unfold numChunks
      rw [autoTestPattern_length]
    rw [hn] at hlenG
    match gots, hlenG with
    | [g0, g1], _ =>
      have h0 : g0.length = 32 := by
        rw [hG 0 g0 rfl]
        rfl
      have h1 : g1.length = 32 := by
        rw [hG 1 g1 rfl]
        rfl
      refine ⟨g0, g1, h0, h1, by simpa using hdata2, ?_⟩
      rw [htr2]
      simp only [List.mapIdx_cons, List.mapIdx_nil, h0, h1]
      rfl
  · rw [hiff]
    constructor
    · intro h
      apply List.ext_getElem?
      intro k
      by_cases hk : k < 64
      · have h1 := h k hk
        have h2 := autoTestPattern_getD k hk
        simp only [List.getD_eq_getElem?_getD] at h1 h2
        rw [List.getElem?_eq_getElem (by omega : k < got.length)] at h1 ⊢
        rw [List.getElem?_eq_getElem (by rw [autoTestPattern_length]; exact hk)] at h2 ⊢
        simp only [Option.getD_some] at h1 h2
        rw [h1, h2]
      · rw [List.getElem?_eq_none (by omega),
          List.getElem?_eq_none (by rw [autoTestPattern_length]; omega)]
    · intro h j hj
      rw [h]
      exact autoTestPattern_getD j hj
  · rw [hiff]
    constructor
    · intro h j hj
      exact (hval _ j hj).1 (h j hj)
    · intro h j hj
      exact (hval _ j hj).2 (h j hj)
  · intro i hi hne hmin
    rw [hrun]
    exact autoTestLoop_first_mismatch got i hne 64 0 (Nat.zero_le _) (by omega)
      (fun j _ hj => hmin j hj)

set_option maxRecDepth 1000000 in
/-- C13, witness: a register space echoes what was written to the data window, and the
self-test succeeds; the same register space read through a transport that corrupts the
byte of register 54 (byte 30 of the data window) fails the self-test at byte 30. -/
theorem AutoTest_loopback_witness :
    ((sessionOf 128 0).AutoTest regSpaceBus (World.start zeroRegs)).1 = Outcome.ok ∧
    ((sessionOf 128 0).AutoTest (corruptReads regSpaceBus 54) (World.start zeroRegs)).1 =
      Outcome.err (Error.autotest 30) :=
  ⟨(AutoTest_loopback regSpaceBus (sessionOf 128 0) (World.start zeroRegs)
      ((sessionOf 128 0).WriteBytes regSpaceBus ADDR_DATA autoTestPattern
        (World.start zeroRegs)).2
      ((sessionOf 128 0).ReadBytes regSpaceBus ADDR_DATA autoTestPattern
        ((sessionOf 128 0).WriteBytes regSpaceBus ADDR_DATA autoTestPattern
          (World.start zeroRegs)).2).2
      autoTestPattern
      (Prod.ext (by decide) rfl) (Prod.ext (Prod.ext (by decide) (by decide)) rfl)).2.2.2.1.2 rfl,
   (AutoTest_loopback (corruptReads regSpaceBus 54) (sessionOf 128 0) (World.start zeroRegs)
      ((sessionOf 128 0).WriteBytes (corruptReads regSpaceBus 54) ADDR_DATA autoTestPattern
        (World.start zeroRegs)).2
      ((sessionOf 128 0).ReadBytes (corruptReads regSpaceBus 54) ADDR_DATA autoTestPattern
        ((sessionOf 128 0).WriteBytes (corruptReads regSpaceBus 54) ADDR_DATA autoTestPattern
          (World.start zeroRegs)).2).2
      ((sessionOf 128 0).ReadBytes (corruptReads regSpaceBus 54) ADDR_DATA autoTestPattern
        ((sessionOf 128 0).WriteBytes (corruptReads regSpaceBus 54) ADDR_DATA autoTestPattern
          (World.start zeroRegs)).2).1.1
      (Prod.ext (by decide) rfl) (Prod.ext (Prod.ext rfl (by decide)) rfl)).2.2.2.2.2
      30 (by decide) (by decide) (by decide)⟩

/-! ## How the engines can end -/

theorem ofError_cases (r : Option Error) :
    Outcome.ofError r = Outcome.ok ∨ ∃ e, Outcome.ofError r = Outcome.err e := by
  cases r with
  | none => exact Or.inl rfl
  | some e => exact Or.inr ⟨e, rfl⟩

/-- `Device.FlashSetAddress` returns nil or an error. -/
theorem FlashSetAddress_cases {σ : Type} (b : Bus σ) (dev : Device) (addr : Nat) (w : World σ) :
    (dev.FlashSetAddress b addr w).1 = Outcome.ok ∨
    ∃ e, (dev.FlashSetAddress b addr w).1 = Outcome.err e := by
  have hshort : (addrBytes addr).length ≤ 32 := by simp [addrBytes]
  unfold Device.FlashSetAddress
  rw [WriteBytes_short b dev _ _ w hshort]
  exact ofError_cases _

/-- `Device.waitProg` returns nil or an error. -/
theorem waitProg_cases {σ : Type} (b : Bus σ) (dev : Device) (prog : Byte) (gap : Nat)
    (w : World σ) :
    (dev.waitProg b prog gap w).1 = Outcome.ok ∨
    ∃ e, (dev.waitProg b prog gap w).1 = Outcome.err e := by
  cases hwr : (b.WriteByte w.bus dev.Address ADDR_PROG prog).1 with
  | some e =>
    exact Or.inr ⟨e, by simp [Device.waitProg, Device.WriteByte, busWriteByte, hwr]⟩
  | none =>
    have hstep : dev.waitProg b prog gap w =
        waitProgLoop b dev prog gap 3 (dev.WriteByte b ADDR_PROG prog w).2 := by
      simp [Device.waitProg, Device.WriteByte, busWriteByte, hwr]
    rw [hstep]
    obtain ⟨rs, _, _, _, _, _, hend⟩ :=
      waitProgLoop_trace b dev prog gap 3 (dev.WriteByte b ADDR_PROG prog w).2
    rcases hend with ⟨_, h⟩ | ⟨_, e, _, h⟩ | ⟨_, _, h⟩
    · exact Or.inl h
    · exact Or.inr ⟨e, h⟩
    · exact Or.inr ⟨_, h⟩

/-- The loop of `Device.flashErase` returns nil or an error: it neither panics nor runs
on. -/
theorem flashEraseLoop_cases {σ : Type} (b : Bus σ) (dev : Device) (block_count : Int) :
    ∀ (fuel pos : Nat) (w : World σ), (block_count - pos).toNat < fuel →
      (flashEraseLoop b dev block_count fuel pos w).1 = Outcome.ok ∨
      ∃ e, (flashEraseLoop b dev block_count fuel pos w).1 = Outcome.err e := by
  intro fuel
  induction fuel with
  | zero => intro pos w h; omega
  | succ fuel ih =>
    intro pos w hfuel
    by_cases hpos : (pos : Int) < block_count
    · simp only [flashEraseLoop, hpos, if_true]
      rcases FlashSetAddress_cases b dev (u32 (dev.ProgStart + u32 (u32 pos * dev.PageSize)))
        (emit Out.hash w) with hs | ⟨e, hs⟩
      · simp only [hs]
        rcases waitProg_cases b dev PROG_ERASE_PAGE (50 * Millisecond)
          (dev.FlashSetAddress b (u32 (dev.ProgStart + u32 (u32 pos * dev.PageSize)))
            (emit Out.hash w)).2 with hp | ⟨e, hp⟩
        · simp only [hp]
          split_ifs with hst
          · exact Or.inr ⟨_, rfl⟩
          · exact ih (pos + 1) _ (by push_cast; omega)
        · simp only [hp]
          exact Or.inr ⟨e, rfl⟩
      · simp only [hs]
        exact Or.inr ⟨e, rfl⟩
    · simp only [flashEraseLoop, hpos, if_false]
      exact Or.inl trivial

/-- `Device.flashErase` returns nil or an error. -/
theorem flashErase_cases {σ : Type} (b : Bus σ) (dev : Device) (block_count : Int)
    (w : World σ) :
    (dev.flashErase b block_count w).1 = Outcome.ok ∨
    ∃ e, (dev.flashErase b block_count w).1 = Outcome.err e :=
  flashEraseLoop_cases b dev block_count (block_count.toNat + 1) 0 (emit Out.erasingOpen w)
    (by simp)

/-- C16: for every session with `pageSize > 4096`, `FlashRead` on a non-empty destination
and `FlashWrite` on a non-empty image never return nil: they end in the panic of the slice
expression `buf[:pageSize]` on the 4096-byte staging array as soon as the steps before it
succeed (the address write and the first Read operation for `FlashRead`; the erase phase and
the address write for `FlashWrite`), and otherwise in the error of the step that failed. -/
theorem pageSize_limit {σ : Type} (b : Bus σ) (dev : Device) (data : List Byte) (w : World σ)
    (hps : 4096 < dev.PageSize) (hne : data ≠ []) :
    (dev.FlashRead b data w).1.2 ≠ Outcome.ok ∧
    ((dev.FlashRead b data w).1.2 = Outcome.crash (Crash.sliceBounds dev.PageSize 4096) ∨
      ∃ e, (dev.FlashRead b data w).1.2 = Outcome.err e) ∧
    ((dev.FlashSetAddress b dev.ProgStart
        (emit (Out.readingHeader data.length dev.ProgStart dev.PageSize) w)).1 = Outcome.ok →
      (dev.waitProg b PROG_READ (1 * Millisecond)
        (emit Out.readingOpen (dev.FlashSetAddress b dev.ProgStart
          (emit (Out.readingHeader data.length dev.ProgStart dev.PageSize) w)).2)).1
          = Outcome.ok →
      (dev.FlashRead b data w).1.2 = Outcome.crash (Crash.sliceBounds dev.PageSize 4096)) ∧
    (dev.FlashWrite b data w).1 ≠ Outcome.ok ∧
    ((dev.FlashWrite b data w).1 = Outcome.crash (Crash.sliceBounds dev.PageSize 4096) ∨
      ∃ e, (dev.FlashWrite b data w).1 = Outcome.err e) ∧
    ((dev.flashErase b
        (((data.length : Int) + ((dev.PageSize : Int) - 1)) / (dev.PageSize : Int)) w).1
          = Outcome.ok →
      (dev.FlashSetAddress b dev.ProgStart (dev.flashErase b
        (((data.length : Int) + ((dev.PageSize : Int) - 1)) / (dev.PageSize : Int)) w).2).1
          = Outcome.ok →
      (dev.FlashWrite b data w).1 = Outcome.crash (Crash.sliceBounds dev.PageSize 4096)) := by
  have hlen : 0 < data.length := List.length_pos.2 hne
  have hcap : ¬ dev.PageSize ≤ 4096 := by omega
  have hps0 : dev.PageSize ≠ 0 := by omega
  -- FlashRead
  have hread : (dev.FlashRead b data w).1.2 =
        Outcome.crash (Crash.sliceBounds dev.PageSize 4096) ∨
      ∃ e, (dev.FlashRead b data w).1.2 = Outcome.err e := by
    simp only [Device.FlashRead]
    rcases FlashSetAddress_cases b dev dev.ProgStart
      (emit (Out.readingHeader data.length dev.ProgStart dev.PageSize) w) with hs | ⟨e, hs⟩
    · simp only [hs, FlashReadLoop, hlen, if_true, hcap, if_false]
      rcases waitProg_cases b dev PROG_READ (1 * Millisecond)
        (emit Out.readingOpen (dev.FlashSetAddress b dev.ProgStart
          (emit (Out.readingHeader data.length dev.ProgStart dev.PageSize) w)).2)
        with hp | ⟨e, hp⟩
      · simp only [hp]
        exact Or.inl trivial
      · simp only [hp]
        exact Or.inr ⟨e, rfl⟩
    · simp only [hs]
      exact Or.inr ⟨e, rfl⟩
  have hread2 : (dev.FlashSetAddress b dev.ProgStart
        (emit (Out.readingHeader data.length dev.ProgStart dev.PageSize) w)).1 = Outcome.ok →
      (dev.waitProg b PROG_READ (1 * Millisecond)
        (emit Out.readingOpen (dev.FlashSetAddress b dev.ProgStart
          (emit (Out.readingHeader data.length dev.ProgStart dev.PageSize) w)).2)).1
          = Outcome.ok →
      (dev.FlashRead b data w).1.2 = Outcome.crash (Crash.sliceBounds dev.PageSize 4096) := by
    intro hs hp
    simp only [Device.FlashRead, hs, FlashReadLoop, hlen, if_true, hcap, if_false, hp]
  -- FlashWrite
  have hwrite2 : (dev.flashErase b
        (((data.length : Int) + ((dev.PageSize : Int) - 1)) / (dev.PageSize : Int)) w).1
          = Outcome.ok →
      (dev.FlashSetAddress b dev.ProgStart (dev.flashErase b
        (((data.length : Int) + ((dev.PageSize : Int) - 1)) / (dev.PageSize : Int)) w).2).1
          = Outcome.ok →
      (dev.FlashWrite b data w).1 = Outcome.crash (Crash.sliceBounds dev.PageSize 4096) := by
    intro he hs
    simp only [Device.FlashWrite, hps0, if_false, he, hs, Device.flashWrite, flashWriteLoop, hlen,
      if_true, hcap]
  have hwrite : (dev.FlashWrite b data w).1 =
        Outcome.crash (Crash.sliceBounds dev.PageSize 4096) ∨
      ∃ e, (dev.FlashWrite b data w).1 = Outcome.err e := by
    rcases flashErase_cases b dev
      (((data.length : Int) + ((dev.PageSize : Int) - 1)) / (dev.PageSize : Int)) w
      with he | ⟨e, he⟩
    · rcases FlashSetAddress_cases b dev dev.ProgStart (dev.flashErase b
        (((data.length : Int) + ((dev.PageSize : Int) - 1)) / (dev.PageSize : Int)) w).2
        with hs | ⟨e, hs⟩
      · exact Or.inl (hwrite2 he hs)
      · refine Or.inr ⟨e, ?_⟩
        simp only [Device.FlashWrite, hps0, if_false, he, hs]
    · refine Or.inr ⟨e, ?_⟩
      simp only [Device.FlashWrite, hps0, if_false, he]
  refine ⟨?_, hread, hread2, ?_, hwrite, hwrite2⟩
  · rcases hread with h | ⟨e, h⟩ <;> rw [h] <;> intro hc <;> cases hc
  · rcases hwrite with h | ⟨e, h⟩ <;> rw [h] <;> intro hc <;> cases hc

set_option maxRecDepth 1000000 in
/-- C16, witness: pages of 5000 bytes and one byte to read or to write, over a transport on
which every transfer succeeds: both operations end in the panic of the slice expression. -/
theorem pageSize_limit_witness :
    ((sessionOf 5000 0x08002000).FlashRead nullBus [0] (World.start ())).1.2 =
      Outcome.crash (Crash.sliceBounds 5000 4096) ∧
    ((sessionOf 5000 0x08002000).FlashWrite nullBus [1] (World.start ())).1 =
      Outcome.crash (Crash.sliceBounds 5000 4096) :=
  ⟨(pageSize_limit nullBus (sessionOf 5000 0x08002000) [0] (World.start ()) (by decide)
      (by decide)).2.2.1 (by decide) (by decide),
   (pageSize_limit nullBus (sessionOf 5000 0x08002000) [1] (World.start ()) (by decide)
      (by decide)).2.2.2.2.2 (by decide) (by decide)⟩

/-! ## Flash read engine -/

/-- `Device.ReadBytes` returns nil or an error, and keeps the length of the buffer. -/
theorem ReadBytes_cases {σ : Type} (b : Bus σ) (dev : Device) (reg : Byte) (data : List Byte)
    (w : World σ) :
    ((dev.ReadBytes b reg data w).1.2 = Outcome.ok ∨
      ∃ e, (dev.ReadBytes b reg data w).1.2 = Outcome.err e) ∧
    (dev.ReadBytes b reg data w).1.1.length = data.length := by
  obtain ⟨evs, _, hne, _, _, hlast, hlen⟩ :=
    ReadBytesLoop_events b dev (data.length + 1) reg data w (by omega) (by omega)
  refine ⟨?_, hlen⟩
  obtain ⟨l, a, rfl⟩ : ∃ l a, evs = l ++ [a] :=
    ⟨evs.dropLast, evs.getLast hne, (List.dropLast_concat_getLast hne).symm⟩
  have h : (dev.ReadBytes b reg data w).1.2 = Outcome.ofError a.result :=
    hlast a (List.getLast?_concat l)
  rw [h]
  exact ofError_cases _

theorem ceil_step (m psize : Nat) (hm : 0 < m) (hps : 0 < psize) :
    (m + psize - 1) / psize = (m - psize + psize - 1) / psize + 1 := by
  have h1 : m + psize - 1 = (m - 1) + psize := by omega
  rw [h1, Nat.add_div_right _ hps]
  by_cases h : psize ≤ m
  · have h2 : m - psize + psize - 1 = m - 1 := by omega
    rw [h2]
  · have h2 : m - psize + psize - 1 = psize - 1 := by omega
    rw [h2, Nat.div_eq_of_lt (by omega : m - 1 < psize),
      Nat.div_eq_of_lt (by omega : psize - 1 < psize)]

/-- One iteration of the loop of `Device.FlashRead` that is followed by a nil result. -/
theorem FlashReadLoop_step {σ : Type} (b : Bus σ) (dev : Device) (psize : Nat)
    (hps2 : psize ≤ 4096) (fuel pos : Nat) (buf data : List Byte) (w : World σ)
    (hpos : pos < data.length)
    (hok : (FlashReadLoop b dev psize (fuel + 1) pos buf data w).1.2 = Outcome.ok) :
    (dev.waitProg b PROG_READ (1 * Millisecond) w).1 = Outcome.ok ∧
    (dev.ReadBytes b ADDR_DATA (buf.take psize)
      (dev.waitProg b PROG_READ (1 * Millisecond) w).2).1.2 = Outcome.ok ∧
    FlashReadLoop b dev psize (fuel + 1) pos buf data w =
      FlashReadLoop b dev psize fuel (pos + psize)
        ((dev.ReadBytes b ADDR_DATA (buf.take psize)
          (dev.waitProg b PROG_READ (1 * Millisecond) w).2).1.1 ++ buf.drop psize)
        (data.take pos ++ copy (data.drop pos)
          (((dev.ReadBytes b ADDR_DATA (buf.take psize)
            (dev.waitProg b PROG_READ (1 * Millisecond) w).2).1.1 ++ buf.drop psize).take psize))
        (emit Out.hash (dev.ReadBytes b ADDR_DATA (buf.take psize)
          (dev.waitProg b PROG_READ (1 * Millisecond) w).2).2) := by
  simp only [FlashReadLoop, hpos, if_true, hps2] at hok ⊢
  cases hp : (dev.waitProg b PROG_READ (1 * Millisecond) w).1 <;>
    simp only [hp] at hok ⊢ <;> try (cases hok)
  cases hr : (dev.ReadBytes b ADDR_DATA (buf.take psize)
      (dev.waitProg b PROG_READ (1 * Millisecond) w).2).1.2 <;>
    simp only [hr] at hok ⊢ <;> try (cases hok)
  exact ⟨trivial, trivial, trivial⟩

/-- A page copied into the destination at `pos`, followed by what the later pages add, is
the destination below `pos` followed by the pages cut at the end of the destination. -/
theorem read_merge (data page X : List Byte) (pos psize : Nat) (hpl : page.length = psize)
    (hpos : pos < data.length) :
    (data.take pos ++ copy (data.drop pos) page).take (pos + psize)
        ++ X.take (data.length - (pos + psize)) =
      data.take pos ++ (page ++ X).take (data.length - pos) := by
  have hl : (data.take pos).length = pos := by rw [List.length_take]; omega
  have hd : (data.drop pos).length = data.length - pos := List.length_drop pos data
  have h1 : (data.take pos ++ copy (data.drop pos) page).take (pos + psize) =
      data.take pos ++ page.take (data.length - pos) := by
    rw [List.take_append_eq_append_take, hl, List.take_of_length_le (by rw [hl]; omega),
      Nat.add_sub_cancel_left]
    congr 1
    simp only [copy, hd, hpl]
    by_cases hm : psize ≤ data.length - pos
    · rw [List.take_of_length_le (by omega : page.length ≤ data.length - pos),
        List.take_left' hpl]
    · rw [List.drop_eq_nil_of_le (by omega), List.append_nil,
        List.take_of_length_le (by rw [List.length_take]; omega)]
  have h2 : (page ++ X).take (data.length - pos) =
      page.take (data.length - pos) ++ X.take (data.length - pos - page.length) :=
    List.take_append_eq_append_take
  rw [h1, h2, hpl, List.append_assoc]
  congr 2
  congr 1
  omega

/-- The loop of `Device.FlashRead` when it returns nil: one read cycle for every page begun
from `pos` on, and the destination filled from `pos` on with the pages read, cut at its
end. -/
theorem FlashReadLoop_trace {σ : Type} (b : Bus σ) (dev : Device) (psize : Nat)
    (hps1 : 1 ≤ psize) (hps2 : psize ≤ 4096) :
    ∀ (fuel pos : Nat) (buf data : List Byte) (w : World σ),
      buf.length = 4096 → data.length - pos < fuel →
      (FlashReadLoop b dev psize fuel pos buf data w).1.2 = Outcome.ok →
      ∃ cycles : List (List Byte × List (List Byte)),
        cycles.length = (data.length - pos + psize - 1) / psize ∧
        (∀ c ∈ cycles, GoodCycle psize c) ∧
        (FlashReadLoop b dev psize fuel pos buf data w).2.trace =
          w.trace ++ cycles.flatMap (readCycle dev) ∧
        (FlashReadLoop b dev psize fuel pos buf data w).1.1 =
          data.take pos ++
            ((cycles.map (fun c => c.2.flatten)).flatten).take (data.length - pos) := by
  intro fuel
  induction fuel with
  | zero => intro pos buf data w _ h; omega
  | succ fuel ih =>
    intro pos buf data w hbuf hfuel hok
    by_cases hpos : pos < data.length
    · obtain ⟨hp, hr, hstep⟩ := FlashReadLoop_step b dev psize hps2 fuel pos buf data w hpos hok
      rw [hstep] at hok ⊢
      have htake : (buf.take psize).length = psize := by rw [List.length_take]; omega
      obtain ⟨rs, hr1, hr2, hr3, hr4, hptr, _⟩ := waitProg_ok b dev _ _ w hp
      obtain ⟨gots, hlenG, hG, hdata, htr⟩ :=
        ReadBytesLoop_ok b dev ((buf.take psize).length + 1) ADDR_DATA (buf.take psize)
          (dev.waitProg b PROG_READ (1 * Millisecond) w).2 (by omega) (by omega) hr
      have hdata2 : (dev.ReadBytes b ADDR_DATA (buf.take psize)
          (dev.waitProg b PROG_READ (1 * Millisecond) w).2).1.1 = gots.flatten := hdata
      have htr2 : (dev.ReadBytes b ADDR_DATA (buf.take psize)
          (dev.waitProg b PROG_READ (1 * Millisecond) w).2).2.trace =
          (dev.waitProg b PROG_READ (1 * Millisecond) w).2.trace ++ gots.mapIdx
            (fun k g => Event.readBytes dev.Address (toByte (ADDR_DATA.val + 32 * k)) g.length g
              none) := htr
      have hpl : gots.flatten.length = psize := by
        rw [← hdata2, (ReadBytes_cases b dev ADDR_DATA (buf.take psize) _).2, htake]
      rw [hdata2] at hok ⊢
      have htk : (gots.flatten ++ buf.drop psize).take psize = gots.flatten :=
        List.take_left' hpl
      rw [htk] at hok ⊢
      have hbuf1 : (gots.flatten ++ buf.drop psize).length = 4096 := by
        rw [List.length_append, hpl, List.length_drop]; omega
      have hd1 : (data.take pos ++ copy (data.drop pos) gots.flatten).length = data.length := by
        simp only [List.length_append, List.length_take, length_copy, List.length_drop]
        omega
      obtain ⟨cycles, hcl, hgood, htr3, hres⟩ :=
        ih (pos + psize) _ _ _ hbuf1 (by rw [hd1]; omega) hok
      refine ⟨(rs, gots) :: cycles, ?_, ?_, ?_, ?_⟩
      · rw [List.length_cons, hcl, hd1]
        have h : data.length - (pos + psize) = data.length - pos - psize := by omega
        rw [h]
        exact (ceil_step (data.length - pos) psize (by omega) (by omega)).symm
      · intro c hc
        rcases List.mem_cons.1 hc with h | h
        · rw [h]
          refine ⟨hr1, hr2, hr3, hr4, ?_, ?_, hpl⟩
          · show gots.length = _
            rw [hlenG]
            unfold numChunks
            rw [htake]
          · intro k g hk
            show g.length = _
            rw [hG k g hk]
            simp only [chunk, List.length_take, List.length_drop, htake]
        · exact hgood c h
      · rw [htr3]
        show (dev.ReadBytes b ADDR_DATA (buf.take psize) _).2.trace ++ _ = _
        rw [htr2, hptr, List.flatMap_cons]
        simp [readCycle]
      · rw [hres, hd1, List.map_cons, List.flatten_cons]
        exact read_merge data gots.flatten _ pos psize hpl hpos
    · have hstep : FlashReadLoop b dev psize (fuel + 1) pos buf data w =
          ((data, Outcome.ok), emit Out.closeBracket w) := by
        simp only [FlashReadLoop, hpos, if_false]
      rw [hstep]
      refine ⟨[], ?_, by simp, by simp [emit], ?_⟩
      · have h : data.length - pos + psize - 1 = psize - 1 := by omega
        rw [h, Nat.div_eq_of_lt (by omega)]
        rfl
      · simp [List.take_of_length_le (by omega : data.length ≤ pos)]

/-- The loop of `Device.FlashRead` returns nil or an error when the page size is between 1
and 4096: it neither panics nor runs on. -/
theorem FlashReadLoop_cases {σ : Type} (b : Bus σ) (dev : Device) (psize : Nat)
    (hps1 : 1 ≤ psize) (hps2 : psize ≤ 4096) :
    ∀ (fuel pos : Nat) (buf data : List Byte) (w : World σ), data.length - pos < fuel →
      (FlashReadLoop b dev psize fuel pos buf data w).1.2 = Outcome.ok ∨
      ∃ e, (FlashReadLoop b dev psize fuel pos buf data w).1.2 = Outcome.err e := by
  intro fuel
  induction fuel with
  | zero => intro pos buf data w h; omega
  | succ fuel ih =>
    intro pos buf data w hfuel
    by_cases hpos : pos < data.length
    · simp only [FlashReadLoop, hpos, if_true, hps2]
      rcases waitProg_cases b dev PROG_READ (1 * Millisecond) w with hp | ⟨e, hp⟩
      · simp only [hp]
        rcases (ReadBytes_cases b dev ADDR_DATA (buf.take psize)
          (dev.waitProg b PROG_READ (1 * Millisecond) w).2).1 with hr | ⟨e, hr⟩
        · simp only [hr]
          apply ih
          simp only [List.length_append, List.length_take, length_copy, List.length_drop]
          omega
        · simp only [hr]
          exact Or.inr ⟨e, rfl⟩
      · simp only [hp]
        exact Or.inr ⟨e, rfl⟩
    · simp only [FlashReadLoop, hpos, if_false]
      exact Or.inl trivial

/-! ## How transport errors travel -/

theorem Clean_nil : Clean [] := by
  intro ev h
  cases h

theorem Clean_append {xs ys : List Event} (hx : Clean xs) (hy : Clean ys) : Clean (xs ++ ys) := by
  intro ev h
  rcases List.mem_append.1 h with h | h
  · exact hx ev h
  · exact hy ev h

theorem pollEvents_append (addr : Byte) (gap : Nat) (xs ys : List (Byte × Option Error)) :
    pollEvents addr gap (xs ++ ys) = pollEvents addr gap xs ++ pollEvents addr gap ys := by
  simp [pollEvents, List.flatMap_append]

/-- Polls whose reads succeeded are clean. -/
theorem pollEvents_clean (addr : Byte) (gap : Nat) (rs : List (Byte × Option Error))
    (h : ∀ p ∈ rs, p.2 = none) : Clean (pollEvents addr gap rs) := by
  intro ev hev
  simp only [pollEvents, List.mem_flatMap] at hev
  obtain ⟨p, hp, hev⟩ := hev
  simp only [List.mem_cons, List.mem_singleton, List.not_mem_nil, or_false] at hev
  rcases hev with rfl | rfl
  · exact ⟨rfl, rfl⟩
  · exact ⟨h p hp, rfl⟩

/-- Transport errors pass through a run that is preceded by clean transfers. -/
theorem Passes_append {prog : Byte} {xs ys : List Event} {o : Outcome} (hx : Clean xs)
    (hy : Passes prog ys o) : Passes prog (xs ++ ys) o := by
  rcases hy with ⟨hc, ho⟩ | ⟨l, ev, e, rfl, hl, hev, hst, ho⟩
  · exact Or.inl ⟨Clean_append hx hc, ho⟩
  · exact Or.inr ⟨xs ++ l, ev, e, by simp, Clean_append hx hl, hev, hst, ho⟩

/-- A run through which transport errors pass returns nil or an error. -/
theorem Passes_cases {prog : Byte} {evs : List Event} {o : Outcome} (h : Passes prog evs o) :
    o = Outcome.ok ∨ ∃ e, o = Outcome.err e := by
  rcases h with ⟨_, ho | ho⟩ | ⟨_, _, e, _, _, _, _, ho⟩
  · exact Or.inl ho
  · exact Or.inr ⟨_, ho⟩
  · exact Or.inr ⟨e, ho⟩

/-- A run through which transport errors pass and that returned nil is clean. -/
theorem Passes_ok {prog : Byte} {evs : List Event} (h : Passes prog evs Outcome.ok) :
    Clean evs := by
  rcases h with ⟨hc, _⟩ | ⟨_, _, e, _, _, _, _, ho⟩
  · exact hc
  · cases ho

/-- Transport errors pass through `Device.WriteBytes`. -/
theorem Passes_WriteBytes {σ : Type} (b : Bus σ) (dev : Device) (prog reg : Byte)
    (data : List Byte) (w : World σ) :
    ∃ evs, (dev.WriteBytes b reg data w).2.trace = w.trace ++ evs ∧
      Passes prog evs (dev.WriteBytes b reg data w).1 := by
  obtain ⟨evs, htr, hne, hidx, hdrop, hlast, _, _⟩ :=
    WriteBytesLoop_events b dev (data.length + 1) reg data w (by omega) (by omega)
  refine ⟨evs, htr, ?_⟩
  have hkind : ∀ ev ∈ evs, ev.isStatusRead = false := by
    intro ev hev
    obtain ⟨k, hk⟩ := List.mem_iff_getElem?.1 hev
    rw [(hidx k ev hk).2]
    rfl
  obtain ⟨l, a, rfl⟩ : ∃ l a, evs = l ++ [a] :=
    ⟨evs.dropLast, evs.getLast hne, (List.dropLast_concat_getLast hne).symm⟩
  have ho : (dev.WriteBytes b reg data w).1 = Outcome.ofError a.result :=
    hlast a (List.getLast?_concat l)
  rw [List.dropLast_concat] at hdrop
  have hl : Clean l := fun ev hev => ⟨hdrop ev hev, hkind ev (by simp [hev])⟩
  cases ha : a.result with
  | none =>
    refine Or.inl ⟨Clean_append hl ?_, Or.inl ?_⟩
    · intro ev hev
      simp only [List.mem_singleton] at hev
      subst hev
      exact ⟨ha, hkind ev (by simp)⟩
    · rw [ho, ha]; rfl
  | some e =>
    exact Or.inr ⟨l, a, e, rfl, hl, ha, hkind a (by simp), by rw [ho, ha]; rfl⟩

/-- Transport errors pass through `Device.FlashSetAddress`. -/
theorem Passes_FlashSetAddress {σ : Type} (b : Bus σ) (dev : Device) (prog : Byte) (addr : Nat)
    (w : World σ) :
    ∃ evs, (dev.FlashSetAddress b addr w).2.trace = w.trace ++ evs ∧
      Passes prog evs (dev.FlashSetAddress b addr w).1 :=
  Passes_WriteBytes b dev prog ADDR_ADDR (addrBytes addr) w

/-- Transport errors pass through `Device.ReadBytes`. -/
theorem Passes_ReadBytes {σ : Type} (b : Bus σ) (dev : Device) (prog reg : Byte)
    (data : List Byte) (w : World σ) :
    ∃ evs, (dev.ReadBytes b reg data w).2.trace = w.trace ++ evs ∧
      Passes prog evs (dev.ReadBytes b reg data w).1.2 := by
  obtain ⟨evs, htr, hne, hform, hdrop, hlast, _⟩ :=
    ReadBytesLoop_events b dev (data.length + 1) reg data w (by omega) (by omega)
  refine ⟨evs, htr, ?_⟩
  have hkind : ∀ ev ∈ evs, ev.isStatusRead = false := by
    intro ev hev
    obtain ⟨r, n, g, h⟩ := hform ev hev
    rw [h]
    rfl
  obtain ⟨l, a, rfl⟩ : ∃ l a, evs = l ++ [a] :=
    ⟨evs.dropLast, evs.getLast hne, (List.dropLast_concat_getLast hne).symm⟩
  have ho : (dev.ReadBytes b reg data w).1.2 = Outcome.ofError a.result :=
    hlast a (List.getLast?_concat l)
  rw [List.dropLast_concat] at hdrop
  have hl : Clean l := fun ev hev => ⟨hdrop ev hev, hkind ev (by simp [hev])⟩
  cases ha : a.result with
  | none =>
    refine Or.inl ⟨Clean_append hl ?_, Or.inl ?_⟩
    · intro ev hev
      simp only [List.mem_singleton] at hev
      subst hev
      exact ⟨ha, hkind ev (by simp)⟩
    · rw [ho, ha]; rfl
  | some e =>
    exact Or.inr ⟨l, a, e, rfl, hl, ha, hkind a (by simp), by rw [ho, ha]; rfl⟩

/-- Transport errors pass through `Device.waitProg`, which can also time out. -/
theorem Passes_waitProg {σ : Type} (b : Bus σ) (dev : Device) (prog : Byte) (gap : Nat)
    (w : World σ) :
    ∃ evs, (dev.waitProg b prog gap w).2.trace = w.trace ++ evs ∧
      Passes prog evs (dev.waitProg b prog gap w).1 := by
  cases hwr : (b.WriteByte w.bus dev.Address ADDR_PROG prog).1 with
  | some e =>
    refine ⟨[Event.writeByte dev.Address ADDR_PROG prog (some e)], ?_, ?_⟩
    · simp [Device.waitProg, Device.WriteByte, busWriteByte, hwr]
    · refine Or.inr ⟨[], _, e, rfl, Clean_nil, rfl, rfl, ?_⟩
      simp [Device.waitProg, Device.WriteByte, busWriteByte, hwr]
  | none =>
    have hstep : dev.waitProg b prog gap w =
        waitProgLoop b dev prog gap 3 (dev.WriteByte b ADDR_PROG prog w).2 := by
      simp [Device.waitProg, Device.WriteByte, busWriteByte, hwr]
    have hwt : (dev.WriteByte b ADDR_PROG prog w).2.trace =
        w.trace ++ [Event.writeByte dev.Address ADDR_PROG prog none] := by
      simp [Device.WriteByte, busWriteByte, hwr]
    have hop : Clean [Event.writeByte dev.Address ADDR_PROG prog none] := by
      intro ev hev
      simp only [List.mem_singleton] at hev
      subst hev
      exact ⟨rfl, rfl⟩
    rw [hstep]
    obtain ⟨rs, _, htr, _, _, hpre, hend⟩ :=
      waitProgLoop_trace b dev prog gap 3 (dev.WriteByte b ADDR_PROG prog w).2
    refine ⟨[Event.writeByte dev.Address ADDR_PROG prog none] ++ pollEvents dev.Address gap rs,
      by rw [htr, hwt, List.append_assoc], Passes_append hop ?_⟩
    rcases hend with ⟨h1, h2⟩ | ⟨r, e, h1, h2⟩ | ⟨_, h1, h2⟩
    · obtain ⟨ys, hys⟩ := List.getLast?_eq_some_iff.1 h1
      refine Or.inl ⟨pollEvents_clean _ _ _ ?_, Or.inl h2⟩
      intro p hp
      rw [hys] at hp hpre
      rw [List.dropLast_concat] at hpre
      rcases List.mem_append.1 hp with h | h
      · exact (hpre p h).1
      · simp only [List.mem_singleton] at h
        rw [h]
    · obtain ⟨ys, hys⟩ := List.getLast?_eq_some_iff.1 h1
      rw [hys] at hpre ⊢
      rw [List.dropLast_concat] at hpre
      refine Or.inr ⟨pollEvents dev.Address gap ys ++ [Event.sleep gap],
        Event.readByte dev.Address ADDR_PROG r (some e), e, ?_, ?_, rfl, rfl, h2⟩
      · rw [pollEvents_append]
        simp [pollEvents]
      · refine Clean_append (pollEvents_clean _ _ _ (fun p hp => (hpre p hp).1)) ?_
        intro ev hev
        simp only [List.mem_singleton] at hev
        subst hev
        exact ⟨rfl, rfl⟩
    · exact Or.inl ⟨pollEvents_clean _ _ _ (fun p hp => (h1 p hp).1), Or.inr h2⟩

theorem isStatusFailure_of_not_status (ev : Event) (h : ev.isStatusRead = false) :
    ev.isStatusFailure = false := by
  cases ev <;> simp_all [Event.isStatusRead, Event.isStatusFailure]

/-- Clean transfers succeeded and hold no failed status read. -/
theorem Clean_quiet {evs : List Event} (h : Clean evs) :
    ∀ ev ∈ evs, ev.result = none ∧ ev.isStatusFailure = false :=
  fun ev hev => ⟨(h ev hev).1, isStatusFailure_of_not_status ev (h ev hev).2⟩

theorem Clean_countP {evs : List Event} (h : Clean evs) :
    evs.countP Event.isStatusRead = 0 := by
  rw [List.countP_eq_zero]
  intro ev hev
  rw [(h ev hev).2]
  simp

theorem Clean_singleton (ev : Event) (h1 : ev.result = none) (h2 : ev.isStatusRead = false) :
    Clean [ev] := by
  intro x hx
  simp only [List.mem_singleton] at hx
  subst hx
  exact ⟨h1, h2⟩

/-- Polls are no control transfers. -/
theorem pollEvents_control (addr : Byte) (gap : Nat) (rs : List (Byte × Option Error)) :
    (pollEvents addr gap rs).filter Event.isControl = [] := by
  rw [List.filter_eq_nil_iff]
  intro ev hev
  simp only [pollEvents, List.mem_flatMap] at hev
  obtain ⟨p, _, hev⟩ := hev
  simp only [List.mem_cons, List.mem_singleton, List.not_mem_nil, or_false] at hev
  rcases hev with rfl | rfl <;> simp [Event.isControl, Event.isAddrWrite, Event.isOp]

/-- The read of the error status by `Device.ErrorStatusByte`, and the code it returns. -/
theorem ErrorStatusByte_event {σ : Type} (b : Bus σ) (dev : Device) (w : World σ) :
    ∃ got res,
      (dev.ErrorStatusByte b w).2.trace = w.trace ++ [Event.readByte dev.Address ADDR_ERR got res] ∧
      (dev.ErrorStatusByte b w).1 = statusCode got res := by
  refine ⟨(b.ReadByte w.bus dev.Address ADDR_ERR).1.1, (b.ReadByte w.bus dev.Address ADDR_ERR).1.2,
    ?_, ?_⟩
  · cases h : (b.ReadByte w.bus dev.Address ADDR_ERR).1.2 <;>
      simp [Device.ErrorStatusByte, Device.ReadByte, busReadByte, h]
  · cases h : (b.ReadByte w.bus dev.Address ADDR_ERR).1.2 <;>
      simp [Device.ErrorStatusByte, Device.ReadByte, busReadByte, h, statusCode]

theorem statusCode_zero (got : Byte) (res : Option Error) (h : statusCode got res = 0) :
    res = none ∧ got = 0 := by
  cases res with
  | none => exact ⟨rfl, h⟩
  | some e => simp [statusCode] at h

/-- One iteration of the loop of `Device.flashErase`, by the results of its three steps. -/
theorem flashEraseLoop_unfold {σ : Type} (b : Bus σ) (dev : Device) (n : Int) (fuel pos : Nat)
    (w : World σ) (hpos : (pos : Int) < n) (sa p : Outcome × World σ) (e : Byte × World σ)
    (hsa : dev.FlashSetAddress b (eraseAddr dev pos) (emit Out.hash w) = sa)
    (hp : dev.waitProg b PROG_ERASE_PAGE (50 * Millisecond) sa.2 = p)
    (he : dev.ErrorStatusByte b p.2 = e) :
    flashEraseLoop b dev n (fuel + 1) pos w =
      if sa.1 = Outcome.ok then
        if p.1 = Outcome.ok then
          if e.1 ≠ 0 then (Outcome.err (Error.eraseFailed (eraseAddr dev pos) pos n e.1), e.2)
          else flashEraseLoop b dev n fuel (pos + 1) e.2
        else p
      else sa := by
  subst hsa hp he
  simp only [flashEraseLoop, hpos, if_true, eraseAddr]
  split
  · rename_i h1
    simp only [h1, if_true]
    split
    · rename_i h2
      simp only [h2, if_true]
    · rename_i h2
      have h3 : ¬ (dev.waitProg b PROG_ERASE_PAGE (50 * Millisecond)
          (dev.FlashSetAddress b (u32 (dev.ProgStart + u32 (u32 pos * dev.PageSize)))
            (emit Out.hash w)).2).1 = Outcome.ok := fun h => h2 h
      simp only [h3, if_false]
  · rename_i h1
    have h3 : ¬ (dev.FlashSetAddress b (u32 (dev.ProgStart + u32 (u32 pos * dev.PageSize)))
        (emit Out.hash w)).1 = Outcome.ok := fun h => h1 h
    simp only [h3, if_false]

/-- The transfers of one completed page of `Device.flashErase`. -/
theorem erase_cycle_facts (dev : Device) (k : Nat) (rs : List Byte) :
    (∀ ev ∈ ([Event.writeBytes dev.Address ADDR_ADDR (addrBytes (eraseAddr dev k)) none] ++
        (Event.writeByte dev.Address ADDR_PROG PROG_ERASE_PAGE none ::
          pollEvents dev.Address (50 * Millisecond) (rs.map (fun r => (r, none))))),
      ev.result = none ∧ ev.isStatusRead = false) ∧
    ([Event.writeBytes dev.Address ADDR_ADDR (addrBytes (eraseAddr dev k)) none] ++
        (Event.writeByte dev.Address ADDR_PROG PROG_ERASE_PAGE none ::
          pollEvents dev.Address (50 * Millisecond) (rs.map (fun r => (r, none))))).filter
      Event.isControl = eraseControl dev k := by
  constructor
  · have h : Clean ([Event.writeBytes dev.Address ADDR_ADDR (addrBytes (eraseAddr dev k)) none] ++
        ([Event.writeByte dev.Address ADDR_PROG PROG_ERASE_PAGE none] ++
          pollEvents dev.Address (50 * Millisecond) (rs.map (fun r => (r, none))))) :=
      Clean_append (Clean_singleton _ rfl rfl) (Clean_append (Clean_singleton _ rfl rfl)
        (pollEvents_clean _ _ _ (by simp)))
    exact h
  · simp only [List.singleton_append, List.filter_cons, pollEvents_control]
    simp [Event.isControl, Event.isAddrWrite, Event.isOp, eraseControl]

/-- The loop of `Device.flashErase`, whatever the transport does: `m` pages completed with
status 0, whose transfers `pre` all succeeded; then the transfers `tail` of the page the
loop ended at. -/
theorem flashEraseLoop_profile {σ : Type} (b : Bus σ) (dev : Device) (n : Int) :
    ∀ (fuel pos : Nat) (w : World σ),
      ∃ (m : Nat) (pre tail : List Event),
        (flashEraseLoop b dev n fuel pos w).2.trace = w.trace ++ (pre ++ tail) ∧
        (∀ ev ∈ pre, ev.result = none ∧ ev.isStatusFailure = false) ∧
        pre.countP Event.isStatusRead = m ∧
        pre.filter Event.isControl = (List.range' pos m).flatMap (eraseControl dev) ∧
        (m = 0 ∨ ((pos + m : Nat) : Int) ≤ n) ∧
        EraseEnd dev n (pos + m) tail (flashEraseLoop b dev n fuel pos w).1 := by
  intro fuel
  induction fuel with
  | zero =>
    intro pos w
    exact ⟨0, [], [], by simp [flashEraseLoop], by simp, rfl, rfl, Or.inl rfl,
      Or.inl ⟨rfl, Or.inr rfl⟩⟩
  | succ fuel ih =>
    intro pos w
    by_cases hpos : (pos : Int) < n
    · obtain ⟨evA, htrA, hpA⟩ :=
        Passes_FlashSetAddress b dev PROG_ERASE_PAGE (eraseAddr dev pos) (emit Out.hash w)
      have hstep := flashEraseLoop_unfold b dev n fuel pos w hpos _ _ _ rfl rfl rfl
      rw [hstep]
      by_cases h1 : (dev.FlashSetAddress b (eraseAddr dev pos) (emit Out.hash w)).1 = Outcome.ok
      · obtain ⟨htrA2, _, _⟩ := FlashSetAddress_ok b dev _ _ h1
        obtain ⟨evP, htrP, hpP⟩ := Passes_waitProg b dev PROG_ERASE_PAGE (50 * Millisecond)
          (dev.FlashSetAddress b (eraseAddr dev pos) (emit Out.hash w)).2
        simp only [h1, if_true]
        by_cases h2 : (dev.waitProg b PROG_ERASE_PAGE (50 * Millisecond)
            (dev.FlashSetAddress b (eraseAddr dev pos) (emit Out.hash w)).2).1 = Outcome.ok
        · obtain ⟨rs, _, _, _, _, htrP2, _⟩ := waitProg_ok b dev _ _ _ h2
          obtain ⟨got, res, htrE, hcode⟩ := ErrorStatusByte_event b dev
            (dev.waitProg b PROG_ERASE_PAGE (50 * Millisecond)
              (dev.FlashSetAddress b (eraseAddr dev pos) (emit Out.hash w)).2).2
          obtain ⟨hclean, hctl⟩ := erase_cycle_facts dev pos rs
          simp only [h2, if_true]
          by_cases h3 : (dev.ErrorStatusByte b (dev.waitProg b PROG_ERASE_PAGE (50 * Millisecond)
              (dev.FlashSetAddress b (eraseAddr dev pos) (emit Out.hash w)).2).2).1 = 0
          · simp only [h3, ne_eq, not_true_eq_false, if_false]
            obtain ⟨m, pre, tail, htr, hpre, hcount, hfilter, hle, hend⟩ := ih (pos + 1)
              (dev.ErrorStatusByte b (dev.waitProg b PROG_ERASE_PAGE (50 * Millisecond)
                (dev.FlashSetAddress b (eraseAddr dev pos) (emit Out.hash w)).2).2).2
            rw [hcode] at h3
            obtain ⟨hres, hgot⟩ := statusCode_zero got res h3
            subst hres hgot
            refine ⟨m + 1,
              ([Event.writeBytes dev.Address ADDR_ADDR (addrBytes (eraseAddr dev pos)) none] ++
                (Event.writeByte dev.Address ADDR_PROG PROG_ERASE_PAGE none ::
                  pollEvents dev.Address (50 * Millisecond) (rs.map (fun r => (r, none))))) ++
                [Event.readByte dev.Address ADDR_ERR 0 none] ++ pre, tail, ?_, ?_, ?_, ?_, ?_, ?_⟩
            · rw [htr, htrE, htrP2, htrA2]
              simp [emit]
            · intro ev hev
              rcases List.mem_append.1 hev with hev | hev
              · rcases List.mem_append.1 hev with hev | hev
                · exact Clean_quiet hclean ev hev
                · simp only [List.mem_singleton] at hev
                  subst hev
                  exact ⟨rfl, rfl⟩
              · exact hpre ev hev
            · rw [List.countP_append, List.countP_append, Clean_countP hclean, hcount]
              simp [Event.isStatusRead]
              omega
            · rw [List.filter_append, List.filter_append, hctl, hfilter, List.range'_succ,
                List.flatMap_cons]
              simp [Event.isControl, Event.isAddrWrite, Event.isOp]
            · right
              rcases hle with hle | hle
              · subst hle
                push_cast
                omega
              · push_cast at hle ⊢
                omega
            · have hk : pos + (m + 1) = pos + 1 + m := by omega
              rw [hk]
              exact hend
          · simp only [h3, ne_eq, not_false_eq_true, if_true]
            refine ⟨0, [], ([Event.writeBytes dev.Address ADDR_ADDR
                  (addrBytes (eraseAddr dev pos)) none] ++
                (Event.writeByte dev.Address ADDR_PROG PROG_ERASE_PAGE none ::
                  pollEvents dev.Address (50 * Millisecond) (rs.map (fun r => (r, none))))) ++
                [Event.readByte dev.Address ADDR_ERR got res], ?_, by simp, rfl, rfl, Or.inl rfl,
              ?_⟩
            · rw [htrE, htrP2, htrA2]
              simp [emit]
            · refine Or.inr (Or.inr ⟨hpos, _, got, res, rfl, hclean, hctl, ?_, ?_⟩)
              · rw [← hcode]; exact h3
              · rw [hcode]
                rfl
        · simp only [h2, if_false]
          refine ⟨0, [], [Event.writeBytes dev.Address ADDR_ADDR
              (addrBytes (eraseAddr dev pos)) none] ++ evP, ?_, by simp, rfl, rfl, Or.inl rfl, ?_⟩
          · rw [htrP, htrA2]
            simp [emit]
          · exact Or.inr (Or.inl ⟨hpos,
              Passes_append (Clean_singleton _ rfl rfl) hpP, h2⟩)
      · simp only [h1, if_false]
        refine ⟨0, [], evA, ?_, by simp, rfl, rfl, Or.inl rfl, ?_⟩
        · rw [htrA]
          simp [emit]
        · exact Or.inr (Or.inl ⟨hpos, hpA, h1⟩)
    · refine ⟨0, [], [], ?_, by simp, rfl, rfl, Or.inl rfl, Or.inl ⟨rfl, Or.inl ⟨?_, hpos⟩⟩⟩
      · simp [flashEraseLoop, hpos, emit]
      · simp [flashEraseLoop, hpos]

/-- One iteration of the loop of `Device.FlashRead`, by the results of its two steps. -/
theorem FlashReadLoop_unfold {σ : Type} (b : Bus σ) (dev : Device) (psize : Nat)
    (hps2 : psize ≤ 4096) (fuel pos : Nat) (buf data : List Byte) (w : World σ)
    (hpos : pos < data.length) (p : Outcome × World σ) (rd : (List Byte × Outcome) × World σ)
    (hp : dev.waitProg b PROG_READ (1 * Millisecond) w = p)
    (hrd : dev.ReadBytes b ADDR_DATA (buf.take psize) p.2 = rd) :
    FlashReadLoop b dev psize (fuel + 1) pos buf data w =
      if p.1 = Outcome.ok then
        if rd.1.2 = Outcome.ok then
          FlashReadLoop b dev psize fuel (pos + psize) (rd.1.1 ++ buf.drop psize)
            (data.take pos ++ copy (data.drop pos) ((rd.1.1 ++ buf.drop psize).take psize))
            (emit Out.hash rd.2)
        else ((data, rd.1.2), rd.2)
      else ((data, p.1), p.2) := by
  subst hp hrd
  simp only [FlashReadLoop, hpos, if_true, hps2]
  split
  · rename_i h1
    simp only [h1, if_true]
    split
    · rename_i h2
      simp only [h2, if_true]
    · rename_i h2
      have h3 : ¬ (dev.ReadBytes b ADDR_DATA (buf.take psize)
          (dev.waitProg b PROG_READ (1 * Millisecond) w).2).1.2 = Outcome.ok := fun h => h2 h
      simp only [h3, if_false]
  · rename_i h1
    have h3 : ¬ (dev.waitProg b PROG_READ (1 * Millisecond) w).1 = Outcome.ok := fun h => h1 h
    simp only [h3, if_false]

/-- Transport errors pass through the loop of `Device.FlashRead`, which can also end on the
timeout of a Read operation. -/
theorem Passes_FlashReadLoop {σ : Type} (b : Bus σ) (dev : Device) (psize : Nat)
    (hps1 : 1 ≤ psize) (hps2 : psize ≤ 4096) :
    ∀ (fuel pos : Nat) (buf data : List Byte) (w : World σ), data.length - pos < fuel →
      ∃ evs, (FlashReadLoop b dev psize fuel pos buf data w).2.trace = w.trace ++ evs ∧
        Passes PROG_READ evs (FlashReadLoop b dev psize fuel pos buf data w).1.2 := by
  intro fuel
  induction fuel with
  | zero => intro pos buf data w h; omega
  | succ fuel ih =>
    intro pos buf data w hfuel
    by_cases hpos : pos < data.length
    · rw [FlashReadLoop_unfold b dev psize hps2 fuel pos buf data w hpos _ _ rfl rfl]
      obtain ⟨evP, htrP, hpP⟩ := Passes_waitProg b dev PROG_READ (1 * Millisecond) w
      by_cases h1 : (dev.waitProg b PROG_READ (1 * Millisecond) w).1 = Outcome.ok
      · simp only [h1, if_true]
        rw [h1] at hpP
        obtain ⟨evR, htrR, hpR⟩ := Passes_ReadBytes b dev PROG_READ ADDR_DATA (buf.take psize)
          (dev.waitProg b PROG_READ (1 * Millisecond) w).2
        by_cases h2 : (dev.ReadBytes b ADDR_DATA (buf.take psize)
            (dev.waitProg b PROG_READ (1 * Millisecond) w).2).1.2 = Outcome.ok
        · simp only [h2, if_true]
          rw [h2] at hpR
          obtain ⟨evs, htr, hp⟩ := ih (pos + psize)
            ((dev.ReadBytes b ADDR_DATA (buf.take psize)
              (dev.waitProg b PROG_READ (1 * Millisecond) w).2).1.1 ++ buf.drop psize)
            (data.take pos ++ copy (data.drop pos)
              (((dev.ReadBytes b ADDR_DATA (buf.take psize)
                (dev.waitProg b PROG_READ (1 * Millisecond) w).2).1.1 ++ buf.drop psize).take
                  psize))
            (emit Out.hash (dev.ReadBytes b ADDR_DATA (buf.take psize)
              (dev.waitProg b PROG_READ (1 * Millisecond) w).2).2)
            (by
              simp only [List.length_append, List.length_take, length_copy, List.length_drop]
              omega)
          refine ⟨(evP ++ evR) ++ evs, ?_, Passes_append
            (Clean_append (Passes_ok hpP) (Passes_ok hpR)) hp⟩
          rw [htr]
          show (dev.ReadBytes b ADDR_DATA (buf.take psize) _).2.trace ++ _ = _
          rw [htrR, htrP]
          simp
        · simp only [h2, if_false]
          exact ⟨evP ++ evR, by rw [htrR, htrP, List.append_assoc],
            Passes_append (Passes_ok hpP) hpR⟩
      · simp only [h1, if_false]
        exact ⟨evP, htrP, hpP⟩
    · refine ⟨[], ?_, Or.inl ⟨Clean_nil, Or.inl ?_⟩⟩
      · simp [FlashReadLoop, hpos, emit]
      · simp [FlashReadLoop, hpos]

/-- Transport errors pass through `Device.FlashRead`. -/
theorem Passes_FlashRead {σ : Type} (b : Bus σ) (dev : Device) (data : List Byte) (w : World σ)
    (hps1 : 1 ≤ dev.PageSize) (hps2 : dev.PageSize ≤ 4096) :
    ∃ evs, (dev.FlashRead b data w).2.trace = w.trace ++ evs ∧
      Passes PROG_READ evs (dev.FlashRead b data w).1.2 := by
  obtain ⟨evA, htrA, hpA⟩ := Passes_FlashSetAddress b dev PROG_READ dev.ProgStart
    (emit (Out.readingHeader data.length dev.ProgStart dev.PageSize) w)
  simp only [Device.FlashRead]
  rcases FlashSetAddress_cases b dev dev.ProgStart
    (emit (Out.readingHeader data.length dev.ProgStart dev.PageSize) w) with hs | ⟨e, hs⟩
  · simp only [hs]
    rw [hs] at hpA
    obtain ⟨evs, htr, hp⟩ := Passes_FlashReadLoop b dev dev.PageSize hps1 hps2
      (data.length + 1) 0 (List.replicate 4096 0) data
      (emit Out.readingOpen (dev.FlashSetAddress b dev.ProgStart
        (emit (Out.readingHeader data.length dev.ProgStart dev.PageSize) w)).2) (by omega)
    refine ⟨evA ++ evs, ?_, Passes_append (Passes_ok hpA) hp⟩
    show (FlashReadLoop b dev dev.PageSize (data.length + 1) 0 (List.replicate 4096 0) data
      _).2.trace = _
    rw [htr]
    show (dev.FlashSetAddress b dev.ProgStart _).2.trace ++ _ = _
    rw [htrA]
    simp [emit]
  · simp only [hs]
    rw [hs] at hpA
    exact ⟨evA, by rw [htrA]; simp [emit], hpA⟩

/-- What `Device.FlashRead` does when it returns nil: the address write, the read cycles
and the destination. -/
theorem FlashRead_ok_trace {σ : Type} (b : Bus σ) (dev : Device) (data : List Byte)
    (w : World σ) (hps1 : 1 ≤ dev.PageSize) (hps2 : dev.PageSize ≤ 4096) :
    (dev.FlashRead b data w).1.2 = Outcome.ok →
      ∃ cycles : List (List Byte × List (List Byte)),
        cycles.length = (data.length + dev.PageSize - 1) / dev.PageSize ∧
        (∀ c ∈ cycles, GoodCycle dev.PageSize c) ∧
        (dev.FlashRead b data w).2.trace =
          w.trace ++ Event.writeBytes dev.Address ADDR_ADDR (addrBytes dev.ProgStart) none ::
            cycles.flatMap (readCycle dev) ∧
        (dev.FlashRead b data w).1.1 =
          ((cycles.map (fun c => c.2.flatten)).flatten).take data.length := by
  intro hok
  rcases FlashSetAddress_cases b dev dev.ProgStart
    (emit (Out.readingHeader data.length dev.ProgStart dev.PageSize) w) with hs | ⟨e, hs⟩
  · obtain ⟨htrA, _, _⟩ := FlashSetAddress_ok b dev _ _ hs
    have hform : dev.FlashRead b data w =
        ((FlashReadLoop b dev dev.PageSize (data.length + 1) 0 (List.replicate 4096 0) data
            (emit Out.readingOpen (dev.FlashSetAddress b dev.ProgStart
              (emit (Out.readingHeader data.length dev.ProgStart dev.PageSize) w)).2)).1,
          emit Out.newline
            (FlashReadLoop b dev dev.PageSize (data.length + 1) 0 (List.replicate 4096 0) data
              (emit Out.readingOpen (dev.FlashSetAddress b dev.ProgStart
                (emit (Out.readingHeader data.length dev.ProgStart dev.PageSize) w)).2)).2) := by
      simp only [Device.FlashRead, hs]
    rw [hform] at hok ⊢
    obtain ⟨cycles, hlen, hgood, htr, hres⟩ :=
      FlashReadLoop_trace b dev dev.PageSize hps1 hps2 (data.length + 1) 0
        (List.replicate 4096 0) data
        (emit Out.readingOpen (dev.FlashSetAddress b dev.ProgStart
          (emit (Out.readingHeader data.length dev.ProgStart dev.PageSize) w)).2)
        (List.length_replicate 4096 0) (by omega) hok
    refine ⟨cycles, by simpa using hlen, hgood, ?_, ?_⟩
    · show (FlashReadLoop b dev dev.PageSize (data.length + 1) 0 (List.replicate 4096 0) data
        _).2.trace = _
      rw [htr]
      show (dev.FlashSetAddress b dev.ProgStart _).2.trace ++ _ = _
      rw [htrA]
      simp [emit]
    · show (FlashReadLoop b dev dev.PageSize (data.length + 1) 0 (List.replicate 4096 0) data
        _).1.1 = _
      rw [hres]
      simp
  · have hform : (dev.FlashRead b data w).1.2 = Outcome.err e := by
      simp only [Device.FlashRead, hs]
    rw [hform] at hok
    cases hok

/-! ## The read engine over a transport that never fails -/

/-- On a transport whose byte transfers never fail and on which one of the three reads of
register 19 that follow the write of `prog` to it returns 0, `Device.waitProg` returns
nil. -/
theorem waitProg_ok_of_bus {σ : Type} (b : Bus σ) (dev : Device) (prog : Byte) (gap : Nat)
    (w : World σ)
    (hW : ∀ s a r x, (b.WriteByte s a r x).1 = none)
    (hR : ∀ s a r, (b.ReadByte s a r).1.2 = none)
    (hpoll : ∀ s a,
      (b.ReadByte (b.WriteByte s a ADDR_PROG prog).2 a ADDR_PROG).1.1 = 0 ∨
      (b.ReadByte (b.ReadByte (b.WriteByte s a ADDR_PROG prog).2 a ADDR_PROG).2
        a ADDR_PROG).1.1 = 0 ∨
      (b.ReadByte (b.ReadByte (b.ReadByte (b.WriteByte s a ADDR_PROG prog).2 a ADDR_PROG).2
        a ADDR_PROG).2 a ADDR_PROG).1.1 = 0) :
    (dev.waitProg b prog gap w).1 = Outcome.ok := by
  have h := hpoll w.bus dev.Address
  simp only [Device.waitProg, Device.WriteByte, busWriteByte, hW, waitProgLoop, Device.ReadByte,
    busReadByte, sleep, hR]
  by_cases h1 : (b.ReadByte (b.WriteByte w.bus dev.Address ADDR_PROG prog).2 dev.Address
      ADDR_PROG).1.1 = 0
  · simp only [h1, if_true]
  · simp only [h1, if_false]
    by_cases h2 : (b.ReadByte (b.ReadByte (b.WriteByte w.bus dev.Address ADDR_PROG prog).2
        dev.Address ADDR_PROG).2 dev.Address ADDR_PROG).1.1 = 0
    · simp only [h2, if_true]
    · simp only [h2, if_false]
      rcases h with h | h | h
      · exact absurd h h1
      · exact absurd h h2
      · simp only [h, if_true]

/-- On a transport that never fails and on which no Read operation times out, the loop of
`Device.FlashRead` returns nil. -/
theorem FlashReadLoop_ok_of_bus {σ : Type} (b : Bus σ) (dev : Device) (psize : Nat)
    (hps1 : 1 ≤ psize) (hps2 : psize ≤ 4096)
    (hRs : ∀ s a r d, (b.ReadBytes s a r d).1.2 = none)
    (hW : ∀ s a r x, (b.WriteByte s a r x).1 = none)
    (hR : ∀ s a r, (b.ReadByte s a r).1.2 = none)
    (hpoll : ∀ s a,
      (b.ReadByte (b.WriteByte s a ADDR_PROG PROG_READ).2 a ADDR_PROG).1.1 = 0 ∨
      (b.ReadByte (b.ReadByte (b.WriteByte s a ADDR_PROG PROG_READ).2 a ADDR_PROG).2
        a ADDR_PROG).1.1 = 0 ∨
      (b.ReadByte (b.ReadByte (b.ReadByte (b.WriteByte s a ADDR_PROG PROG_READ).2 a
        ADDR_PROG).2 a ADDR_PROG).2 a ADDR_PROG).1.1 = 0) :
    ∀ (fuel pos : Nat) (buf data : List Byte) (w : World σ), data.length - pos < fuel →
      (FlashReadLoop b dev psize fuel pos buf data w).1.2 = Outcome.ok := by
  intro fuel
  induction fuel with
  | zero => intro pos buf data w h; omega
  | succ fuel ih =>
    intro pos buf data w hfuel
    by_cases hpos : pos < data.length
    · rw [FlashReadLoop_unfold b dev psize hps2 fuel pos buf data w hpos _ _ rfl rfl,
        if_pos (waitProg_ok_of_bus b dev PROG_READ (1 * Millisecond) w hW hR hpoll),
        if_pos (ReadBytes_ok_of_bus b dev hRs ADDR_DATA _ _)]
      apply ih
      simp only [List.length_append, List.length_take, length_copy, List.length_drop]
      omega
    · simp only [FlashReadLoop, hpos, if_false]

/-- On a transport that never fails and on which no Read operation times out,
`Device.FlashRead` returns nil. -/
theorem FlashRead_ok_of_bus {σ : Type} (b : Bus σ) (dev : Device) (data : List Byte)
    (w : World σ) (hps1 : 1 ≤ dev.PageSize) (hps2 : dev.PageSize ≤ 4096)
    (hWs : ∀ s a r d, (b.WriteBytes s a r d).1 = none)
    (hRs : ∀ s a r d, (b.ReadBytes s a r d).1.2 = none)
    (hW : ∀ s a r x, (b.WriteByte s a r x).1 = none)
    (hR : ∀ s a r, (b.ReadByte s a r).1.2 = none)
    (hpoll : ∀ s a,
      (b.ReadByte (b.WriteByte s a ADDR_PROG PROG_READ).2 a ADDR_PROG).1.1 = 0 ∨
      (b.ReadByte (b.ReadByte (b.WriteByte s a ADDR_PROG PROG_READ).2 a ADDR_PROG).2
        a ADDR_PROG).1.1 = 0 ∨
      (b.ReadByte (b.ReadByte (b.ReadByte (b.WriteByte s a ADDR_PROG PROG_READ).2 a
        ADDR_PROG).2 a ADDR_PROG).2 a ADDR_PROG).1.1 = 0) :
    (dev.FlashRead b data w).1.2 = Outcome.ok := by
  have hs : (dev.FlashSetAddress b dev.ProgStart
      (emit (Out.readingHeader data.length dev.ProgStart dev.PageSize) w)).1 = Outcome.ok :=
    WriteBytes_ok_of_bus b dev hWs ADDR_ADDR _ _
  simp only [Device.FlashRead, hs]
  exact FlashReadLoop_ok_of_bus b dev dev.PageSize hps1 hps2 hRs hW hR hpoll _ _ _ _ _
    (by omega)

theorem TimedOutPoll_append {addr : Byte} {gap : Nat} (xs : List Event) {ys : List Event}
    (h : TimedOutPoll addr gap ys) : TimedOutPoll addr gap (xs ++ ys) := by
  obtain ⟨l, g1, g2, g3, h1, h2, h3, rfl⟩ := h
  exact ⟨xs ++ l, g1, g2, g3, h1, h2, h3, by rw [List.append_assoc]⟩

/-- A chunked write returns nil unless one of its transfers failed. -/
theorem WriteBytes_ok_or_failed {σ : Type} (b : Bus σ) (dev : Device) (reg : Byte)
    (data : List Byte) (w : World σ) :
    ∃ evs, (dev.WriteBytes b reg data w).2.trace = w.trace ++ evs ∧
      ((dev.WriteBytes b reg data w).1 = Outcome.ok ∨ ∃ ev ∈ evs, ev.result ≠ none) := by
  obtain ⟨evs, htr, hne, _, _, hlast, _, _⟩ :=
    WriteBytesLoop_events b dev (data.length + 1) reg data w (by omega) (by omega)
  refine ⟨evs, htr, ?_⟩
  obtain ⟨l, a, rfl⟩ : ∃ l a, evs = l ++ [a] :=
    ⟨evs.dropLast, evs.getLast hne, (List.dropLast_concat_getLast hne).symm⟩
  have h := hlast a (List.getLast?_concat l)
  cases hres : a.result with
  | none =>
    rw [hres] at h
    exact Or.inl h
  | some e => exact Or.inr ⟨a, by simp, by rw [hres]; simp⟩

/-- A chunked read returns nil unless one of its transfers failed. -/
theorem ReadBytes_ok_or_failed {σ : Type} (b : Bus σ) (dev : Device) (reg : Byte)
    (data : List Byte) (w : World σ) :
    ∃ evs, (dev.ReadBytes b reg data w).2.trace = w.trace ++ evs ∧
      ((dev.ReadBytes b reg data w).1.2 = Outcome.ok ∨ ∃ ev ∈ evs, ev.result ≠ none) := by
  obtain ⟨evs, htr, hne, _, _, hlast, _⟩ :=
    ReadBytesLoop_events b dev (data.length + 1) reg data w (by omega) (by omega)
  refine ⟨evs, htr, ?_⟩
  obtain ⟨l, a, rfl⟩ : ∃ l a, evs = l ++ [a] :=
    ⟨evs.dropLast, evs.getLast hne, (List.dropLast_concat_getLast hne).symm⟩
  have h := hlast a (List.getLast?_concat l)
  cases hres : a.result with
  | none =>
    rw [hres] at h
    exact Or.inl h
  | some e => exact Or.inr ⟨a, by simp, by rw [hres]; simp⟩

/-- An operation returns nil unless one of its transfers failed or its three polls all
read a non-zero byte. -/
theorem waitProg_verdict {σ : Type} (b : Bus σ) (dev : Device) (prog : Byte) (gap : Nat)
    (w : World σ) :
    ∃ evs, (dev.waitProg b prog gap w).2.trace = w.trace ++ evs ∧
      ((dev.waitProg b prog gap w).1 = Outcome.ok ∨ (∃ ev ∈ evs, ev.result ≠ none) ∨
        TimedOutPoll dev.Address gap evs) := by
  cases hwr : (b.WriteByte w.bus dev.Address ADDR_PROG prog).1 with
  | some e =>
    refine ⟨[Event.writeByte dev.Address ADDR_PROG prog (some e)], ?_, Or.inr (Or.inl ?_)⟩
    · simp [Device.waitProg, Device.WriteByte, busWriteByte, hwr]
    · exact ⟨_, List.mem_singleton.2 rfl, by simp [Event.result]⟩
  | none =>
    have hstep : dev.waitProg b prog gap w =
        waitProgLoop b dev prog gap 3 (dev.WriteByte b ADDR_PROG prog w).2 := by
      simp [Device.waitProg, Device.WriteByte, busWriteByte, hwr]
    have hwt : (dev.WriteByte b ADDR_PROG prog w).2.trace =
        w.trace ++ [Event.writeByte dev.Address ADDR_PROG prog none] := by
      simp [Device.WriteByte, busWriteByte, hwr]
    rw [hstep]
    obtain ⟨rs, _, htr, _, _, _, hend⟩ :=
      waitProgLoop_trace b dev prog gap 3 (dev.WriteByte b ADDR_PROG prog w).2
    refine ⟨[Event.writeByte dev.Address ADDR_PROG prog none] ++ pollEvents dev.Address gap rs,
      by rw [htr, hwt, List.append_assoc], ?_⟩
    rcases hend with ⟨_, h2⟩ | ⟨r, e, h1, _⟩ | ⟨hlen, h1, _⟩
    · exact Or.inl h2
    · obtain ⟨ys, hys⟩ := List.getLast?_eq_some_iff.1 h1
      refine Or.inr (Or.inl ⟨Event.readByte dev.Address ADDR_PROG r (some e), ?_, ?_⟩)
      · rw [hys, pollEvents_append]
        simp [pollEvents]
      · simp [Event.result]
    · refine Or.inr (Or.inr ?_)
      match rs, hlen, h1 with
      | [(a1, r1), (a2, r2), (a3, r3)], _, h1 =>
        obtain ⟨hr1, ha1⟩ := h1 (a1, r1) (by simp)
        obtain ⟨hr2, ha2⟩ := h1 (a2, r2) (by simp)
        obtain ⟨hr3, ha3⟩ := h1 (a3, r3) (by simp)
        have hr1b : r1 = none := hr1
        have hr2b : r2 = none := hr2
        have hr3b : r3 = none := hr3
        subst hr1b hr2b hr3b
        exact ⟨[Event.writeByte dev.Address ADDR_PROG prog none], a1, a2, a3, ha1, ha2, ha3,
          rfl⟩

/-- The loop of `Device.FlashRead` returns nil unless one of its transfers failed or it
ends on a poll that timed out. -/
theorem FlashReadLoop_verdict {σ : Type} (b : Bus σ) (dev : Device) (psize : Nat)
    (hps1 : 1 ≤ psize) (hps2 : psize ≤ 4096) :
    ∀ (fuel pos : Nat) (buf data : List Byte) (w : World σ), data.length - pos < fuel →
      ∃ evs, (FlashReadLoop b dev psize fuel pos buf data w).2.trace = w.trace ++ evs ∧
        ((FlashReadLoop b dev psize fuel pos buf data w).1.2 = Outcome.ok ∨
          (∃ ev ∈ evs, ev.result ≠ none) ∨
          TimedOutPoll dev.Address (1 * Millisecond) evs) := by
  intro fuel
  induction fuel with
  | zero => intro pos buf data w h; omega
  | succ fuel ih =>
    intro pos buf data w hfuel
    by_cases hpos : pos < data.length
    · rw [FlashReadLoop_unfold b dev psize hps2 fuel pos buf data w hpos _ _ rfl rfl]
      obtain ⟨evP, htrP, hvP⟩ := waitProg_verdict b dev PROG_READ (1 * Millisecond) w
      by_cases h1 : (dev.waitProg b PROG_READ (1 * Millisecond) w).1 = Outcome.ok
      · simp only [h1, if_true]
        obtain ⟨evR, htrR, hvR⟩ := ReadBytes_ok_or_failed b dev ADDR_DATA (buf.take psize)
          (dev.waitProg b PROG_READ (1 * Millisecond) w).2
        by_cases h2 : (dev.ReadBytes b ADDR_DATA (buf.take psize)
            (dev.waitProg b PROG_READ (1 * Millisecond) w).2).1.2 = Outcome.ok
        · simp only [h2, if_true]
          obtain ⟨evs, htr, hv⟩ := ih (pos + psize)
            ((dev.ReadBytes b ADDR_DATA (buf.take psize)
              (dev.waitProg b PROG_READ (1 * Millisecond) w).2).1.1 ++ buf.drop psize)
            (data.take pos ++ copy (data.drop pos)
              (((dev.ReadBytes b ADDR_DATA (buf.take psize)
                (dev.waitProg b PROG_READ (1 * Millisecond) w).2).1.1 ++ buf.drop psize).take
                  psize))
            (emit Out.hash (dev.ReadBytes b ADDR_DATA (buf.take psize)
              (dev.waitProg b PROG_READ (1 * Millisecond) w).2).2)
            (by
              simp only [List.length_append, List.length_take, length_copy, List.length_drop]
              omega)
          refine ⟨(evP ++ evR) ++ evs, ?_, ?_⟩
          · rw [htr]
            show (dev.ReadBytes b ADDR_DATA (buf.take psize) _).2.trace ++ _ = _
            rw [htrR, htrP]
            simp
          · rcases hv with h | ⟨ev, hev, hr⟩ | h
            · exact Or.inl h
            · exact Or.inr (Or.inl ⟨ev, List.mem_append_right _ hev, hr⟩)
            · exact Or.inr (Or.inr (TimedOutPoll_append _ h))
        · simp only [h2, if_false]
          refine ⟨evP ++ evR, by rw [htrR, htrP, List.append_assoc], Or.inr (Or.inl ?_)⟩
          rcases hvR with h | ⟨ev, hev, hr⟩
          · exact absurd h h2
          · exact ⟨ev, List.mem_append_right _ hev, hr⟩
      · simp only [h1, if_false]
        refine ⟨evP, htrP, ?_⟩
        rcases hvP with h | h | h
        · exact absurd h h1
        · exact Or.inr (Or.inl h)
        · exact Or.inr (Or.inr h)
    · refine ⟨[], ?_, Or.inl ?_⟩
      · simp [FlashReadLoop, hpos, emit]
      · simp [FlashReadLoop, hpos]

/-- The method `Device.FlashRead` returns nil unless one of its transfers failed or it ends
on a poll that timed out. -/
theorem FlashRead_verdict {σ : Type} (b : Bus σ) (dev : Device) (data : List Byte)
    (w : World σ) (hps1 : 1 ≤ dev.PageSize) (hps2 : dev.PageSize ≤ 4096) :
    ∃ evs, (dev.FlashRead b data w).2.trace = w.trace ++ evs ∧
      ((dev.FlashRead b data w).1.2 = Outcome.ok ∨ (∃ ev ∈ evs, ev.result ≠ none) ∨
        TimedOutPoll dev.Address (1 * Millisecond) evs) := by
  obtain ⟨evA, htrA, hvA⟩ := WriteBytes_ok_or_failed b dev ADDR_ADDR (addrBytes dev.ProgStart)
    (emit (Out.readingHeader data.length dev.ProgStart dev.PageSize) w)
  have htrA2 : (dev.FlashSetAddress b dev.ProgStart
      (emit (Out.readingHeader data.length dev.ProgStart dev.PageSize) w)).2.trace =
      w.trace ++ evA := htrA
  by_cases hs : (dev.FlashSetAddress b dev.ProgStart
      (emit (Out.readingHeader data.length dev.ProgStart dev.PageSize) w)).1 = Outcome.ok
  · simp only [Device.FlashRead, hs]
    obtain ⟨evs, htr, hv⟩ := FlashReadLoop_verdict b dev dev.PageSize hps1 hps2
      (data.length + 1) 0 (List.replicate 4096 0) data
      (emit Out.readingOpen (dev.FlashSetAddress b dev.ProgStart
        (emit (Out.readingHeader data.length dev.ProgStart dev.PageSize) w)).2) (by omega)
    refine ⟨evA ++ evs, ?_, ?_⟩
    · show (FlashReadLoop b dev dev.PageSize (data.length + 1) 0 (List.replicate 4096 0) data
        _).2.trace = _
      rw [htr]
      show (dev.FlashSetAddress b dev.ProgStart _).2.trace ++ _ = _
      rw [htrA2, List.append_assoc]
    · rcases hv with h | ⟨ev, hev, hr⟩ | h
      · exact Or.inl h
      · exact Or.inr (Or.inl ⟨ev, List.mem_append_right _ hev, hr⟩)
      · exact Or.inr (Or.inr (TimedOutPoll_append _ h))
  · rcases hvA with h | ⟨ev, hev, hr⟩
    · exact absurd h hs
    · refine ⟨evA, ?_, Or.inr (Or.inl ⟨ev, hev, hr⟩)⟩
      rcases FlashSetAddress_cases b dev dev.ProgStart
        (emit (Out.readingHeader data.length dev.ProgStart dev.PageSize) w) with h | ⟨e, he⟩
      · exact absurd h hs
      · simp only [Device.FlashRead, he]
        exact htrA2

/-- C17: for every session with `1 <= pageSize <= 4096` and every destination of length
`n`, `FlashRead` returns nil or an error (it neither panics on an index nor runs on) and
keeps the length of the destination.  Over a transport on which no transfer fails and no
poll of a Read operation times out (one of the three reads of register 19 that follow the
write of the Read code to it returns 0), `FlashRead` returns nil, its bus activity is one
write of the little-endian bytes of `progStart` to the target-address register followed by
exactly `ceil(n / pageSize)` read cycles, each one Read operation (the code written to
register 19 and 1 to 3 polls ending on 0) followed by one read of `pageSize` bytes from the
data-window register in chunks of at most 32 bytes, and the destination is the first `n`
bytes of the concatenation of the pages read, in order.  The same holds, over any
transport, of a run none of whose transfers failed and that does not end on a poll that
timed out (three polls that all read a non-zero byte).  A run none of whose transfers
failed and that did not return the timeout error returns nil, and a run that returns nil
has that bus activity and that destination. -/
theorem FlashRead_engine {σ : Type} (b : Bus σ) (dev : Device) (data : List Byte) (w : World σ)
    (hps1 : 1 ≤ dev.PageSize) (hps2 : dev.PageSize ≤ 4096) :
    ((dev.FlashRead b data w).1.2 = Outcome.ok ∨
      ∃ e, (dev.FlashRead b data w).1.2 = Outcome.err e) ∧
    (dev.FlashRead b data w).1.1.length = data.length ∧
    ((∀ s a r d, (b.WriteBytes s a r d).1 = none) →
      (∀ s a r d, (b.ReadBytes s a r d).1.2 = none) →
      (∀ s a r x, (b.WriteByte s a r x).1 = none) →
      (∀ s a r, (b.ReadByte s a r).1.2 = none) →
      (∀ s a,
        (b.ReadByte (b.WriteByte s a ADDR_PROG PROG_READ).2 a ADDR_PROG).1.1 = 0 ∨
        (b.ReadByte (b.ReadByte (b.WriteByte s a ADDR_PROG PROG_READ).2 a ADDR_PROG).2
          a ADDR_PROG).1.1 = 0 ∨
        (b.ReadByte (b.ReadByte (b.ReadByte (b.WriteByte s a ADDR_PROG PROG_READ).2 a
          ADDR_PROG).2 a ADDR_PROG).2 a ADDR_PROG).1.1 = 0) →
      (dev.FlashRead b data w).1.2 = Outcome.ok ∧
      ∃ cycles : List (List Byte × List (List Byte)),
        cycles.length = (data.length + dev.PageSize - 1) / dev.PageSize ∧
        (∀ c ∈ cycles, GoodCycle dev.PageSize c) ∧
        (dev.FlashRead b data w).2.trace =
          w.trace ++ Event.writeBytes dev.Address ADDR_ADDR (addrBytes dev.ProgStart) none ::
            cycles.flatMap (readCycle dev) ∧
        (dev.FlashRead b data w).1.1 =
          ((cycles.map (fun c => c.2.flatten)).flatten).take data.length) ∧
    (∀ evs, (dev.FlashRead b data w).2.trace = w.trace ++ evs →
      (∀ ev ∈ evs, ev.result = none) →
      ¬ TimedOutPoll dev.Address (1 * Millisecond) evs →
      (dev.FlashRead b data w).1.2 = Outcome.ok ∧
      ∃ cycles : List (List Byte × List (List Byte)),
        cycles.length = (data.length + dev.PageSize - 1) / dev.PageSize ∧
        (∀ c ∈ cycles, GoodCycle dev.PageSize c) ∧
        evs = Event.writeBytes dev.Address ADDR_ADDR (addrBytes dev.ProgStart) none ::
            cycles.flatMap (readCycle dev) ∧
        (dev.FlashRead b data w).1.1 =
          ((cycles.map (fun c => c.2.flatten)).flatten).take data.length) ∧
    (∀ evs, (dev.FlashRead b data w).2.trace = w.trace ++ evs →
      (∀ ev ∈ evs, ev.result = none) →
      (dev.FlashRead b data w).1.2 ≠ Outcome.err (Error.timedOut PROG_READ) →
      (dev.FlashRead b data w).1.2 = Outcome.ok) ∧
    ((dev.FlashRead b data w).1.2 = Outcome.ok →
      ∃ cycles : List (List Byte × List (List Byte)),
        cycles.length = (data.length + dev.PageSize - 1) / dev.PageSize ∧
        (∀ c ∈ cycles, GoodCycle dev.PageSize c) ∧
        (dev.FlashRead b data w).2.trace =
          w.trace ++ Event.writeBytes dev.Address ADDR_ADDR (addrBytes dev.ProgStart) none ::
            cycles.flatMap (readCycle dev) ∧
        (dev.FlashRead b data w).1.1 =
          ((cycles.map (fun c => c.2.flatten)).flatten).take data.length) := by
  obtain ⟨evs0, htr0, hp0⟩ := Passes_FlashRead b dev data w hps1 hps2
  refine ⟨Passes_cases hp0, FlashRead_length b dev data w, ?_, ?_, ?_, ?_⟩
  · intro hWs hRs hW hR hpoll
    have hok := FlashRead_ok_of_bus b dev data w hps1 hps2 hWs hRs hW hR hpoll
    exact ⟨hok, FlashRead_ok_trace b dev data w hps1 hps2 hok⟩
  · intro evs htr hnone hto
    obtain ⟨evs1, htr1, hv⟩ := FlashRead_verdict b dev data w hps1 hps2
    have hevs : evs1 = evs := List.append_cancel_left (htr1.symm.trans htr)
    subst hevs
    have hok : (dev.FlashRead b data w).1.2 = Outcome.ok := by
      rcases hv with h | ⟨ev, hev, hr⟩ | h
      · exact h
      · exact absurd (hnone ev hev) hr
      · exact absurd h hto
    obtain ⟨cycles, hlen, hgood, htr2, hdst⟩ := FlashRead_ok_trace b dev data w hps1 hps2 hok
    exact ⟨hok, cycles, hlen, hgood, List.append_cancel_left (htr.symm.trans htr2), hdst⟩
  · intro evs htr hnone hto
    rw [htr0] at htr
    have hevs : evs0 = evs := List.append_cancel_left htr
    subst hevs
    rcases hp0 with ⟨_, ho | ho⟩ | ⟨l, ev, e, rfl, _, hev, _, _⟩
    · exact ho
    · exact absurd ho hto
    · rw [hnone ev (by simp)] at hev
      cases hev
  · exact FlashRead_ok_trace b dev data w hps1 hps2

set_option maxRecDepth 1000000 in
/-- C17, witness: six bytes read in pages of 4 from a model device, on which no transfer
fails and every operation completes before the first poll, whose flash holds the low byte
of every address: the read returns nil after two read cycles, and the destination holds
the first six bytes of the two pages. -/
theorem FlashRead_engine_witness :
    ((sessionOf 4 0x08002000).FlashRead chipBus [9, 9, 9, 9, 9, 9]
        (World.start (Chip.fresh 4 (fun a => toByte a)))).1 = ([0, 1, 2, 3, 4, 5], Outcome.ok) ∧
    ((sessionOf 4 0x08002000).FlashRead chipBus [9, 9, 9, 9, 9, 9]
        (World.start (Chip.fresh 4 (fun a => toByte a)))).1.2 = Outcome.ok ∧
    ∃ cycles : List (List Byte × List (List Byte)),
      cycles.length = 2 ∧
      (∀ c ∈ cycles, GoodCycle 4 c) ∧
      ((sessionOf 4 0x08002000).FlashRead chipBus [9, 9, 9, 9, 9, 9]
          (World.start (Chip.fresh 4 (fun a => toByte a)))).2.trace =
        [] ++ Event.writeBytes 0x6C ADDR_ADDR (addrBytes 0x08002000) none ::
          cycles.flatMap (readCycle (sessionOf 4 0x08002000)) ∧
      ((sessionOf 4 0x08002000).FlashRead chipBus [9, 9, 9, 9, 9, 9]
          (World.start (Chip.fresh 4 (fun a => toByte a)))).1.1 =
        ((cycles.map (fun c => c.2.flatten)).flatten).take 6 :=
  ⟨by decide,
   (FlashRead_engine chipBus (sessionOf 4 0x08002000) [9, 9, 9, 9, 9, 9]
      (World.start (Chip.fresh 4 (fun a => toByte a))) (by decide) (by decide)).2.2.1
      (fun _ _ _ _ => rfl) (fun _ _ _ _ => rfl) (fun _ _ _ _ => rfl) (fun _ _ _ => rfl)
      (fun s _ => Or.inl (Chip.write_op_regs_op s PROG_READ))⟩

/-! ## Transport errors in the erase and write engines -/

theorem data_register_ne_addr (k : Nat) : toByte (ADDR_DATA.val + 32 * k) ≠ ADDR_ADDR := by
  intro h
  have h2 := congrArg Fin.val h
  simp only [toByte, ADDR_DATA, ADDR_ADDR] at h2
  have h3 : (24 + 32 * k) % 256 = 20 := h2
  omega

/-- Transport errors pass through a write to the data window, none of whose transfers is a
control transfer. -/
theorem Passes_WriteBytes_data {σ : Type} (b : Bus σ) (dev : Device) (prog : Byte)
    (data : List Byte) (w : World σ) :
    ∃ evs, (dev.WriteBytes b ADDR_DATA data w).2.trace = w.trace ++ evs ∧
      Passes prog evs (dev.WriteBytes b ADDR_DATA data w).1 ∧
      evs.filter Event.isControl = [] := by
  obtain ⟨evs, htr, hp⟩ := Passes_WriteBytes b dev prog ADDR_DATA data w
  obtain ⟨evs2, htr2, _, hidx, _⟩ :=
    WriteBytesLoop_events b dev (data.length + 1) ADDR_DATA data w (by omega) (by omega)
  have htr3 : (dev.WriteBytes b ADDR_DATA data w).2.trace = w.trace ++ evs2 := htr2
  have heq : evs = evs2 := List.append_cancel_left (htr.symm.trans htr3)
  subst heq
  refine ⟨evs, htr, hp, ?_⟩
  rw [List.filter_eq_nil_iff]
  intro ev hev
  obtain ⟨k, hk⟩ := List.mem_iff_getElem?.1 hev
  rw [(hidx k ev hk).2]
  simp [Event.isControl, Event.isAddrWrite, Event.isOp, data_register_ne_addr]

/-- One iteration of the loop of `Device.flashWrite`, by the results of its three steps. -/
theorem flashWriteLoop_unfold {σ : Type} (b : Bus σ) (dev : Device) (psize : Nat)
    (data : List Byte) (hps2 : psize ≤ 4096) (fuel pos : Nat) (buf : List Byte) (w : World σ)
    (hpos : pos < data.length) (r p : Outcome × World σ) (e : Byte × World σ)
    (hr : dev.WriteBytes b ADDR_DATA
      ((copy (buf.take psize) (data.drop pos) ++ buf.drop psize).take psize) w = r)
    (hp : dev.waitProg b PROG_WRITE (3 * Millisecond) r.2 = p)
    (he : dev.ErrorStatusByte b p.2 = e) :
    flashWriteLoop b dev psize data (fuel + 1) pos buf w =
      if r.1 = Outcome.ok then
        if p.1 = Outcome.ok then
          if e.1 ≠ 0 then (Outcome.err (Error.writeFailed e.1), e.2)
          else flashWriteLoop b dev psize data fuel (pos + psize)
            (copy (buf.take psize) (data.drop pos) ++ buf.drop psize) (emit Out.hash e.2)
        else p
      else r := by
  subst hr hp he
  simp only [flashWriteLoop, hpos, if_true, hps2]
  split
  · rename_i h1
    simp only [h1, if_true]
    split
    · rename_i h2
      simp only [h2, if_true]
    · rename_i h2
      have h3 : ¬ (dev.waitProg b PROG_WRITE (3 * Millisecond)
          (dev.WriteBytes b ADDR_DATA
            ((copy (buf.take psize) (data.drop pos) ++ buf.drop psize).take psize) w).2).1
            = Outcome.ok := fun h => h2 h
      simp only [h3, if_false]
  · rename_i h1
    have h3 : ¬ (dev.WriteBytes b ADDR_DATA
        ((copy (buf.take psize) (data.drop pos) ++ buf.drop psize).take psize) w).1
          = Outcome.ok := fun h => h1 h
    simp only [h3, if_false]

/-- The transfers of a Write operation that completed: clean, and one control transfer. -/
theorem write_op_facts (dev : Device) (rs : List Byte) :
    Clean (Event.writeByte dev.Address ADDR_PROG PROG_WRITE none ::
      pollEvents dev.Address (3 * Millisecond) (rs.map (fun r => (r, none)))) ∧
    (Event.writeByte dev.Address ADDR_PROG PROG_WRITE none ::
      pollEvents dev.Address (3 * Millisecond) (rs.map (fun r => (r, none)))).filter
        Event.isControl = [Event.writeByte dev.Address ADDR_PROG PROG_WRITE none] := by
  constructor
  · have h : Clean ([Event.writeByte dev.Address ADDR_PROG PROG_WRITE none] ++
        pollEvents dev.Address (3 * Millisecond) (rs.map (fun r => (r, none)))) :=
      Clean_append (Clean_singleton _ rfl rfl) (pollEvents_clean _ _ _ (by simp))
    exact h
  · simp only [List.filter_cons, pollEvents_control]
    simp [Event.isControl, Event.isAddrWrite, Event.isOp]

/-- The loop of `Device.flashWrite`, whatever the transport does: `m` pages completed with
status 0, whose transfers `pre` all succeeded, one Write operation each; then the transfers
`tail` of the page the loop ended at. -/
theorem flashWriteLoop_profile {σ : Type} (b : Bus σ) (dev : Device) (psize : Nat)
    (data : List Byte) :
    ∀ (fuel pos : Nat) (buf : List Byte) (w : World σ),
      ∃ (m : Nat) (pre tail : List Event),
        (flashWriteLoop b dev psize data fuel pos buf w).2.trace = w.trace ++ (pre ++ tail) ∧
        (∀ ev ∈ pre, ev.result = none ∧ ev.isStatusFailure = false) ∧
        pre.filter Event.isControl =
          List.replicate m (Event.writeByte dev.Address ADDR_PROG PROG_WRITE none) ∧
        ((flashWriteLoop b dev psize data fuel pos buf w).1 = Outcome.ok → 1 ≤ psize →
          tail = [] ∧ m = (data.length - pos + psize - 1) / psize) ∧
        WriteEnd dev tail (flashWriteLoop b dev psize data fuel pos buf w).1 := by
  intro fuel
  induction fuel with
  | zero =>
    intro pos buf w
    refine ⟨0, [], [], by simp [flashWriteLoop], by simp, rfl, ?_,
      Or.inl ⟨rfl, Or.inr (Or.inl rfl)⟩⟩
    intro h
    simp [flashWriteLoop] at h
  | succ fuel ih =>
    intro pos buf w
    by_cases hpos : pos < data.length
    · by_cases hps2 : psize ≤ 4096
      · obtain ⟨evW, htrW, hpW, hctlW⟩ := Passes_WriteBytes_data b dev PROG_WRITE
          ((copy (buf.take psize) (data.drop pos) ++ buf.drop psize).take psize) w
        rw [flashWriteLoop_unfold b dev psize data hps2 fuel pos buf w hpos _ _ _ rfl rfl rfl]
        by_cases h1 : (dev.WriteBytes b ADDR_DATA
            ((copy (buf.take psize) (data.drop pos) ++ buf.drop psize).take psize) w).1
              = Outcome.ok
        · simp only [h1, if_true]
          rw [h1] at hpW
          have hcW := Passes_ok hpW
          obtain ⟨evP, htrP, hpP⟩ := Passes_waitProg b dev PROG_WRITE (3 * Millisecond)
            (dev.WriteBytes b ADDR_DATA
              ((copy (buf.take psize) (data.drop pos) ++ buf.drop psize).take psize) w).2
          by_cases h2 : (dev.waitProg b PROG_WRITE (3 * Millisecond)
              (dev.WriteBytes b ADDR_DATA
                ((copy (buf.take psize) (data.drop pos) ++ buf.drop psize).take psize) w).2).1
                = Outcome.ok
          · obtain ⟨rs, _, _, _, _, htrP2, _⟩ := waitProg_ok b dev _ _ _ h2
            obtain ⟨got, res, htrE, hcode⟩ := ErrorStatusByte_event b dev
              (dev.waitProg b PROG_WRITE (3 * Millisecond)
                (dev.WriteBytes b ADDR_DATA
                  ((copy (buf.take psize) (data.drop pos) ++ buf.drop psize).take psize) w).2).2
            obtain ⟨hcleanP, hctlP⟩ := write_op_facts dev rs
            simp only [h2, if_true]
            by_cases h3 : (dev.ErrorStatusByte b (dev.waitProg b PROG_WRITE (3 * Millisecond)
                (dev.WriteBytes b ADDR_DATA
                  ((copy (buf.take psize) (data.drop pos) ++ buf.drop psize).take psize)
                  w).2).2).1 = 0
            · simp only [h3, ne_eq, not_true_eq_false, if_false]
              obtain ⟨m, pre, tail, htr, hpre, hfilter, hok, hend⟩ := ih (pos + psize)
                (copy (buf.take psize) (data.drop pos) ++ buf.drop psize)
                (emit Out.hash (dev.ErrorStatusByte b
                  (dev.waitProg b PROG_WRITE (3 * Millisecond)
                    (dev.WriteBytes b ADDR_DATA
                      ((copy (buf.take psize) (data.drop pos) ++ buf.drop psize).take psize)
                      w).2).2).2)
              rw [hcode] at h3
              obtain ⟨hres, hgot⟩ := statusCode_zero got res h3
              subst hres hgot
              refine ⟨m + 1,
                (evW ++ (Event.writeByte dev.Address ADDR_PROG PROG_WRITE none ::
                    pollEvents dev.Address (3 * Millisecond) (rs.map (fun r => (r, none))))) ++
                  [Event.readByte dev.Address ADDR_ERR 0 none] ++ pre, tail, ?_, ?_, ?_, ?_, hend⟩
              · rw [htr]
                show (dev.ErrorStatusByte b _).2.trace ++ _ = _
                rw [htrE, htrP2, htrW]
                simp
              · intro ev hev
                rcases List.mem_append.1 hev with hev | hev
                · rcases List.mem_append.1 hev with hev | hev
                  · exact Clean_quiet (Clean_append hcW hcleanP) ev hev
                  · simp only [List.mem_singleton] at hev
                    subst hev
                    exact ⟨rfl, rfl⟩
                · exact hpre ev hev
              · rw [List.filter_append, List.filter_append, List.filter_append, hctlW, hctlP,
                  hfilter, List.replicate_succ]
                simp [Event.isControl, Event.isAddrWrite, Event.isOp]
              · intro ho hps1
                obtain ⟨ht, hm⟩ := hok ho hps1
                refine ⟨ht, ?_⟩
                rw [hm]
                have h : data.length - (pos + psize) = data.length - pos - psize := by omega
                rw [h]
                exact (ceil_step (data.length - pos) psize (by omega) (by omega)).symm
            · simp only [h3, ne_eq, not_false_eq_true, if_true]
              refine ⟨0, [], (evW ++ (Event.writeByte dev.Address ADDR_PROG PROG_WRITE none ::
                    pollEvents dev.Address (3 * Millisecond) (rs.map (fun r => (r, none))))) ++
                  [Event.readByte dev.Address ADDR_ERR got res], ?_, by simp, rfl, ?_, ?_⟩
              · rw [htrE, htrP2, htrW]
                simp
              · intro ho
                cases ho
              · refine Or.inr (Or.inr ⟨_, got, res, rfl, Clean_append hcW hcleanP, ?_, ?_⟩)
                · rw [← hcode]; exact h3
                · rw [hcode]
          · simp only [h2, if_false]
            refine ⟨0, [], evW ++ evP, ?_, by simp, rfl, ?_, ?_⟩
            · rw [htrP, htrW]
              simp
            · intro ho
              exact False.elim ho
            · exact Or.inr (Or.inl ⟨Passes_append hcW hpP, h2⟩)
        · simp only [h1, if_false]
          refine ⟨0, [], evW, ?_, by simp, rfl, ?_, ?_⟩
          · rw [htrW]
            simp
          · intro ho
            exact False.elim ho
          · exact Or.inr (Or.inl ⟨hpW, h1⟩)
      · refine ⟨0, [], [], ?_, by simp, rfl, ?_,
          Or.inl ⟨rfl, Or.inr (Or.inr ⟨Crash.sliceBounds psize 4096, ?_⟩)⟩⟩
        · simp [flashWriteLoop, hpos, hps2]
        · intro ho
          simp [flashWriteLoop, hpos, hps2] at ho
        · simp only [flashWriteLoop, hpos, if_true, hps2, if_false]
    · refine ⟨0, [], [], ?_, by simp, rfl, ?_, Or.inl ⟨rfl, Or.inl ?_⟩⟩
      · simp [flashWriteLoop, hpos, emit]
      · intro _ hps1
        refine ⟨rfl, ?_⟩
        have h : data.length - pos + psize - 1 = psize - 1 := by omega
        rw [h, Nat.div_eq_of_lt (by omega)]
      · simp [flashWriteLoop, hpos]

/-- In a run whose transfers all succeeded no transfer failed. -/
theorem all_none_verdict (evs : List Event) (h : ∀ ev ∈ evs, ev.result = none)
    (P : Event → Error → Prop) :
    (∀ ev ∈ evs.dropLast, ev.result = none) ∧
    ∀ ev e, evs.getLast? = some ev → ev.result = some e → P ev e := by
  constructor
  · intro ev hev
    exact h ev (List.mem_of_mem_dropLast hev)
  · intro ev e hlast hres
    obtain ⟨ys, hys⟩ := List.getLast?_eq_some_iff.1 hlast
    rw [h ev (by rw [hys]; simp)] at hres
    cases hres

/-- A run that is made of transfers `pre` that succeeded and of a tail that is empty, or
passes transport errors on, or ends on the read of a non-zero error status: only its last
transfer can have failed; the run returns the error of a failed last transfer, except that
a failed read of the error status is turned into the code 0x80. -/
theorem stops_at_failure (a prog : Byte) (F : Byte → Outcome) (pre tail : List Event)
    (o : Outcome) (hpre : ∀ ev ∈ pre, ev.result = none)
    (hend : (tail = [] ∨ Passes prog tail o) ∨
      ∃ head got res, tail = head ++ [Event.readByte a ADDR_ERR got res] ∧ Clean head ∧
        o = F (statusCode got res)) :
    (∀ ev ∈ (pre ++ tail).dropLast, ev.result = none) ∧
    ∀ ev e, (pre ++ tail).getLast? = some ev → ev.result = some e →
      (ev.isStatusRead = false → o = Outcome.err e) ∧ (ev.isStatusRead = true → o = F 0x80) := by
  rcases hend with (ht | hp) | ⟨head, got, res, ht, hclean, ho⟩
  · subst ht
    rw [List.append_nil]
    exact all_none_verdict pre hpre _
  · rcases hp with ⟨hc, _⟩ | ⟨l, x, e0, rfl, hl, hx, hst, ho⟩
    · refine all_none_verdict (pre ++ tail) ?_ _
      intro ev hev
      rcases List.mem_append.1 hev with h | h
      · exact hpre ev h
      · exact (hc ev h).1
    · rw [← List.append_assoc, List.dropLast_concat, List.getLast?_concat]
      constructor
      · intro ev hev
        rcases List.mem_append.1 hev with h | h
        · exact hpre ev h
        · exact (hl ev h).1
      · intro ev e hlast hres
        have hev : x = ev := Option.some.inj hlast
        subst hev
        rw [hx] at hres
        have he : e0 = e := Option.some.inj hres
        subst he
        refine ⟨fun _ => ho, fun h => ?_⟩
        rw [hst] at h
        cases h
  · subst ht
    rw [← List.append_assoc, List.dropLast_concat, List.getLast?_concat]
    constructor
    · intro ev hev
      rcases List.mem_append.1 hev with h | h
      · exact hpre ev h
      · exact (hclean ev h).1
    · intro ev e hlast hres
      have hev : Event.readByte a ADDR_ERR got res = ev := Option.some.inj hlast
      subst hev
      have hres2 : res = some e := hres
      subst hres2
      refine ⟨fun h => ?_, fun _ => ho⟩
      have h2 : (Event.readByte a ADDR_ERR got (some e)).isStatusRead = true := rfl
      rw [h2] at h
      cases h

/-- The transfers of `Device.flashErase`, by those of its loop. -/
theorem flashErase_profile {σ : Type} (b : Bus σ) (dev : Device) (n : Int) (w : World σ) :
    ∃ (m : Nat) (pre tail : List Event),
      (dev.flashErase b n w).2.trace = w.trace ++ (pre ++ tail) ∧
      (∀ ev ∈ pre, ev.result = none ∧ ev.isStatusFailure = false) ∧
      pre.countP Event.isStatusRead = m ∧
      pre.filter Event.isControl = (List.range' 0 m).flatMap (eraseControl dev) ∧
      (m = 0 ∨ ((m : Nat) : Int) ≤ n) ∧
      EraseEnd dev n m tail (dev.flashErase b n w).1 := by
  obtain ⟨m, pre, tail, htr, hpre, hcount, hfilter, hle, hend⟩ :=
    flashEraseLoop_profile b dev n (n.toNat + 1) 0 (emit Out.erasingOpen w)
  rw [Nat.zero_add] at hle hend
  exact ⟨m, pre, tail, htr, hpre, hcount, hfilter, hle, hend⟩

/-- The transfers of `Device.flashWrite`, by those of its loop. -/
theorem flashWrite_profile {σ : Type} (b : Bus σ) (dev : Device) (data : List Byte)
    (w : World σ) :
    ∃ (m : Nat) (pre tail : List Event),
      (dev.flashWrite b data w).2.trace = w.trace ++ (pre ++ tail) ∧
      (∀ ev ∈ pre, ev.result = none ∧ ev.isStatusFailure = false) ∧
      pre.filter Event.isControl =
        List.replicate m (Event.writeByte dev.Address ADDR_PROG PROG_WRITE none) ∧
      ((dev.flashWrite b data w).1 = Outcome.ok → 1 ≤ dev.PageSize →
        tail = [] ∧ m = (data.length + dev.PageSize - 1) / dev.PageSize) ∧
      WriteEnd dev tail (dev.flashWrite b data w).1 := by
  obtain ⟨m, pre, tail, htr, hpre, hfilter, hok, hend⟩ :=
    flashWriteLoop_profile b dev dev.PageSize data (data.length + 1) 0 (List.replicate 4096 0)
      (emit Out.writingOpen w)
  rw [Nat.sub_zero] at hok
  exact ⟨m, pre, tail, htr, hpre, hfilter, hok, hend⟩

/-- C14 (amended): in every run of `flashErase` and of `flashWrite` only the last transfer
can have failed; when it failed with the transport error `e` and is not the read of the
error-status register, the engine returns exactly `e`; when it is the read of the
error-status register (offset 18), the engine does not return `e`: `ErrorStatusByte`
replaces the failed read by the code 0x80 and the engine returns the erase-failed error,
respectively the write-failed error, with the code 0x80. -/
theorem engine_transport_errors {σ : Type} (b : Bus σ) (dev : Device) (n : Int)
    (data : List Byte) (w : World σ) :
    (∃ evs, (dev.flashErase b n w).2.trace = w.trace ++ evs) ∧
    (∀ evs, (dev.flashErase b n w).2.trace = w.trace ++ evs →
      (∀ ev ∈ evs.dropLast, ev.result = none) ∧
      ∀ ev e, evs.getLast? = some ev → ev.result = some e →
        (ev.isStatusRead = false → (dev.flashErase b n w).1 = Outcome.err e) ∧
        (ev.isStatusRead = true → ∃ k,
          (dev.flashErase b n w).1 = Outcome.err (Error.eraseFailed (eraseAddr dev k) k n 0x80))) ∧
    (∃ evs, (dev.flashWrite b data w).2.trace = w.trace ++ evs) ∧
    (∀ evs, (dev.flashWrite b data w).2.trace = w.trace ++ evs →
      (∀ ev ∈ evs.dropLast, ev.result = none) ∧
      ∀ ev e, evs.getLast? = some ev → ev.result = some e →
        (ev.isStatusRead = false → (dev.flashWrite b data w).1 = Outcome.err e) ∧
        (ev.isStatusRead = true →
          (dev.flashWrite b data w).1 = Outcome.err (Error.writeFailed 0x80))) := by
  obtain ⟨m, pre, tail, htr, hpre, _, _, _, hend⟩ := flashErase_profile b dev n w
  obtain ⟨m2, pre2, tail2, htr2, hpre2, _, _, hend2⟩ := flashWrite_profile b dev data w
  refine ⟨⟨_, htr⟩, ?_, ⟨_, htr2⟩, ?_⟩
  · intro evs hevs
    have heq : pre ++ tail = evs := List.append_cancel_left (htr.symm.trans hevs)
    subst heq
    have hv := stops_at_failure dev.Address PROG_ERASE_PAGE
      (fun c => Outcome.err (Error.eraseFailed (eraseAddr dev m) m n c)) pre tail
      (dev.flashErase b n w).1 (fun ev hev => (hpre ev hev).1)
      (by
        rcases hend with ⟨ht, _⟩ | ⟨_, hp, _⟩ | ⟨_, head, got, res, ht, hc, _, _, ho⟩
        · exact Or.inl (Or.inl ht)
        · exact Or.inl (Or.inr hp)
        · exact Or.inr ⟨head, got, res, ht, hc, ho⟩)
    refine ⟨hv.1, fun ev e hlast hres => ⟨(hv.2 ev e hlast hres).1, fun hst => ⟨m, ?_⟩⟩⟩
    exact (hv.2 ev e hlast hres).2 hst
  · intro evs hevs
    have heq : pre2 ++ tail2 = evs := List.append_cancel_left (htr2.symm.trans hevs)
    subst heq
    exact stops_at_failure dev.Address PROG_WRITE
      (fun c => Outcome.err (Error.writeFailed c)) pre2 tail2
      (dev.flashWrite b data w).1 (fun ev hev => (hpre2 ev hev).1)
      (by
        rcases hend2 with ⟨ht, _⟩ | ⟨hp, _⟩ | ⟨head, got, res, ht, hc, _, ho⟩
        · exact Or.inl (Or.inl ht)
        · exact Or.inl (Or.inr hp)
        · exact Or.inr ⟨head, got, res, ht, hc, ho⟩)

set_option maxRecDepth 1000000 in
/-- C14, witness: pages of 4 bytes over a transport that fails after `s` transfers.  With
`s = 1` the operation code is the transfer that fails and both engines return the transport
error itself; with `s = 3` the read of the error status fails and the engines return the
erase-failed and the write-failed error with the code 0x80. -/
theorem engine_transport_errors_witness :
    ((sessionOf 4 0x08002000).flashErase flakyBus 1 (World.start 1)).1 =
      Outcome.err (Error.transport 5) ∧
    ((sessionOf 4 0x08002000).flashWrite flakyBus [1, 2, 3, 4] (World.start 1)).1 =
      Outcome.err (Error.transport 5) ∧
    (∃ k, ((sessionOf 4 0x08002000).flashErase flakyBus 1 (World.start 3)).1 =
      Outcome.err (Error.eraseFailed (eraseAddr (sessionOf 4 0x08002000) k) k 1 0x80)) ∧
    ((sessionOf 4 0x08002000).flashWrite flakyBus [1, 2, 3, 4] (World.start 3)).1 =
      Outcome.err (Error.writeFailed 0x80) :=
  ⟨(((engine_transport_errors flakyBus (sessionOf 4 0x08002000) 1 [1, 2, 3, 4]
        (World.start 1)).2.1
      [Event.writeBytes 0x6C ADDR_ADDR [0x00, 0x20, 0x00, 0x08] none,
       Event.writeByte 0x6C ADDR_PROG PROG_ERASE_PAGE (some (Error.transport 5))]
      (by decide)).2 _ (Error.transport 5) rfl rfl).1 rfl,
   (((engine_transport_errors flakyBus (sessionOf 4 0x08002000) 1 [1, 2, 3, 4]
        (World.start 1)).2.2.2
      [Event.writeBytes 0x6C ADDR_DATA [1, 2, 3, 4] none,
       Event.writeByte 0x6C ADDR_PROG PROG_WRITE (some (Error.transport 5))]
      (by decide)).2 _ (Error.transport 5) rfl rfl).1 rfl,
   (((engine_transport_errors flakyBus (sessionOf 4 0x08002000) 1 [1, 2, 3, 4]
        (World.start 3)).2.1
      [Event.writeBytes 0x6C ADDR_ADDR [0x00, 0x20, 0x00, 0x08] none,
       Event.writeByte 0x6C ADDR_PROG PROG_ERASE_PAGE none,
       Event.sleep (50 * Millisecond),
       Event.readByte 0x6C ADDR_PROG 0 none,
       Event.readByte 0x6C ADDR_ERR 0 (some (Error.transport 5))]
      (by decide)).2 _ (Error.transport 5) rfl rfl).2 rfl,
   (((engine_transport_errors flakyBus (sessionOf 4 0x08002000) 1 [1, 2, 3, 4]
        (World.start 3)).2.2.2
      [Event.writeBytes 0x6C ADDR_DATA [1, 2, 3, 4] none,
       Event.writeByte 0x6C ADDR_PROG PROG_WRITE none,
       Event.sleep (3 * Millisecond),
       Event.readByte 0x6C ADDR_PROG 0 none,
       Event.readByte 0x6C ADDR_ERR 0 (some (Error.transport 5))]
      (by decide)).2 _ (Error.transport 5) rfl rfl).2 rfl⟩

set_option maxRecDepth 1000000 in
/-- C14, as stated, fails at the read of the error-status register: over a transport whose
fourth transfer fails with the error 5, the last transfer of `flashErase(1)` and of
`flashWrite` of one page is the read of register 18, it fails with the error 5, and the
engines return the erase-failed and the write-failed error with the code 0x80, not the
transport error. -/
theorem status_read_failure_is_masked :
    ((sessionOf 4 0x08002000).flashErase flakyBus 1 (World.start 3)).2.trace.getLast? =
      some (Event.readByte 0x6C ADDR_ERR 0 (some (Error.transport 5))) ∧
    ((sessionOf 4 0x08002000).flashErase flakyBus 1 (World.start 3)).1 =
      Outcome.err (Error.eraseFailed 0x08002000 0 1 0x80) ∧
    ((sessionOf 4 0x08002000).flashErase flakyBus 1 (World.start 3)).1 ≠
      Outcome.err (Error.transport 5) ∧
    ((sessionOf 4 0x08002000).flashWrite flakyBus [1, 2, 3, 4] (World.start 3)).2.trace.getLast? =
      some (Event.readByte 0x6C ADDR_ERR 0 (some (Error.transport 5))) ∧
    ((sessionOf 4 0x08002000).flashWrite flakyBus [1, 2, 3, 4] (World.start 3)).1 =
      Outcome.err (Error.writeFailed 0x80) ∧
    ((sessionOf 4 0x08002000).flashWrite flakyBus [1, 2, 3, 4] (World.start 3)).1 ≠
      Outcome.err (Error.transport 5) := by
  decide

/-! ## A failed erase stops the walk -/

/-- An element with a property that no element of `pre` has, in a list that is `pre`
followed by one element, is that last element. -/
theorem last_of_append_eq {α : Type} (P : α → Prop) (l r pre : List α) (ev st : α)
    (h : l ++ ev :: r = pre ++ [st]) (hpre : ∀ x ∈ pre, ¬ P x) (hev : P ev) :
    r = [] ∧ l = pre ∧ ev = st := by
  rcases List.eq_nil_or_concat r with hr | ⟨r2, z, hr⟩
  · subst hr
    obtain ⟨h1, h2⟩ := List.append_inj' h rfl
    exact ⟨rfl, h1, List.singleton_inj.1 h2⟩
  · subst hr
    have h2 : (l ++ ev :: r2) ++ [z] = pre ++ [st] := by
      rw [← h]
      simp
    obtain ⟨h3, _⟩ := List.append_inj' h2 rfl
    exact absurd hev (hpre ev (by rw [← h3]; simp))

/-- The page address of the erase walk is `progStart + pos * pageSize` in 32 bits. -/
theorem eraseAddr_eq (dev : Device) (pos : Nat) :
    eraseAddr dev pos = (dev.ProgStart + pos * dev.PageSize) % 2 ^ 32 := by
  simp only [eraseAddr, u32]
  rw [Nat.add_mod, Nat.mod_mod, Nat.mul_mod, Nat.mod_mod, ← Nat.mul_mod, ← Nat.add_mod]

theorem eraseControl_no_write (dev : Device) (ks : List Nat) (a : Byte) (res : Option Error) :
    Event.writeByte a ADDR_PROG PROG_WRITE res ∉ ks.flatMap (eraseControl dev) := by
  intro h
  obtain ⟨k, _, hk⟩ := List.mem_flatMap.1 h
  simp only [eraseControl, List.mem_cons, List.mem_singleton, List.not_mem_nil, or_false] at hk
  rcases hk with hk | hk
  · cases hk
  · injection hk with _ _ h3 _
    exact absurd h3 (by decide)

/-- A run through which transport errors pass holds no failed read of the error status. -/
theorem Passes_no_status_failure {prog : Byte} {evs : List Event} {o : Outcome}
    (h : Passes prog evs o) : ∀ ev ∈ evs, ev.isStatusFailure = false := by
  rcases h with ⟨hc, _⟩ | ⟨l, x, e, rfl, hl, _, hst, _⟩
  · exact fun ev hev => (Clean_quiet hc ev hev).2
  · intro ev hev
    rcases List.mem_append.1 hev with h | h
    · exact (Clean_quiet hl ev h).2
    · simp only [List.mem_singleton] at h
      subst h
      exact isStatusFailure_of_not_status ev hst

/-- C19 (amended): in a run of `flashErase(n)`, a read of the error-status register that
gives a non-zero code `c` is the last transfer of the run; every transfer before it
succeeded and no earlier status read gave a non-zero code; with `k` the number of status
reads before it (the pages erased with status 0), `k < n` and `flashErase` returns the
erase-failed error carrying the address `(progStart + k * pageSize) mod 2^32`, the page
index `k`, the page count `n` and the code `c`; the control transfers of the run are the
address write and the ErasePage operation of the pages `0, ..., k` and nothing else, so no
Write operation is issued; and a `FlashWrite` whose page count is `n` is this run and
nothing more. -/
theorem erase_failure_stops {σ : Type} (b : Bus σ) (dev : Device) (n : Int) (w : World σ)
    (l r : List Event) (ev : Event)
    (htr : (dev.flashErase b n w).2.trace = w.trace ++ (l ++ ev :: r))
    (hev : ev.isStatusFailure = true) :
    r = [] ∧
    (∀ x ∈ l, x.result = none ∧ x.isStatusFailure = false) ∧
    ((l.countP Event.isStatusRead : Nat) : Int) < n ∧
    (∃ got res, ev = Event.readByte dev.Address ADDR_ERR got res ∧ statusCode got res ≠ 0 ∧
      (dev.flashErase b n w).1 = Outcome.err (Error.eraseFailed
        (eraseAddr dev (l.countP Event.isStatusRead)) (l.countP Event.isStatusRead) n
        (statusCode got res))) ∧
    eraseAddr dev (l.countP Event.isStatusRead) =
      (dev.ProgStart + l.countP Event.isStatusRead * dev.PageSize) % 2 ^ 32 ∧
    (l ++ ev :: r).filter Event.isControl =
      (List.range (l.countP Event.isStatusRead + 1)).flatMap (eraseControl dev) ∧
    (∀ a res, Event.writeByte a ADDR_PROG PROG_WRITE res ∉ l ++ ev :: r) ∧
    (∀ data : List Byte, dev.PageSize ≠ 0 →
      n = ((data.length : Int) + ((dev.PageSize : Int) - 1)) / (dev.PageSize : Int) →
      dev.FlashWrite b data w = dev.flashErase b n w) := by
  obtain ⟨m, pre, tail, htr2, hpre, hcount, hfilter, _, hend⟩ := flashErase_profile b dev n w
  have heq : l ++ ev :: r = pre ++ tail := List.append_cancel_left (htr.symm.trans htr2)
  have hmem : ev ∈ pre ++ tail := by rw [← heq]; simp
  rcases hend with ⟨ht, _⟩ | ⟨_, hp, _⟩ | ⟨hlt, head, got, res, ht, hclean, hctl, hcode, ho⟩
  · subst ht
    rw [List.append_nil] at hmem
    rw [(hpre ev hmem).2] at hev
    cases hev
  · rcases List.mem_append.1 hmem with h | h
    · rw [(hpre ev h).2] at hev
      cases hev
    · rw [Passes_no_status_failure hp ev h] at hev
      cases hev
  · subst ht
    rw [← List.append_assoc] at heq
    have hquiet : ∀ x ∈ pre ++ head, x.result = none ∧ x.isStatusFailure = false := by
      intro x hx
      rcases List.mem_append.1 hx with h | h
      · exact hpre x h
      · exact Clean_quiet hclean x h
    obtain ⟨hr, hl, hevst⟩ := last_of_append_eq (fun x => x.isStatusFailure = true) l r
      (pre ++ head) ev _ heq
      (fun x hx hx2 => by
        have hx3 : x.isStatusFailure = true := hx2
        rw [(hquiet x hx).2] at hx3
        cases hx3) hev
    subst hr hl hevst
    have hk : (pre ++ head).countP Event.isStatusRead = m := by
      rw [List.countP_append, hcount, Clean_countP hclean, Nat.add_zero]
    have hst : Event.isControl (Event.readByte dev.Address ADDR_ERR got res) = false := rfl
    have hfl : (pre ++ head ++ [Event.readByte dev.Address ADDR_ERR got res]).filter
        Event.isControl = (List.range (m + 1)).flatMap (eraseControl dev) := by
      rw [List.filter_append, List.filter_append, hfilter, hctl, List.range_succ,
        List.flatMap_append, ← List.range_eq_range']
      simp [hst]
    rw [hk]
    refine ⟨rfl, hquiet, hlt, ⟨got, res, rfl, hcode, ho⟩, eraseAddr_eq dev m, hfl, ?_, ?_⟩
    · intro a rr hx
      have hx2 : Event.writeByte a ADDR_PROG PROG_WRITE rr ∈
          (pre ++ head ++ [Event.readByte dev.Address ADDR_ERR got res]).filter
            Event.isControl := by
        rw [List.mem_filter]
        exact ⟨hx, rfl⟩
      rw [hfl] at hx2
      exact eraseControl_no_write dev _ a rr hx2
    · intro data hps0 hn
      subst hn
      refine Prod.ext ?_ ?_
      · simp only [Device.FlashWrite, hps0, if_false, ho]
      · simp only [Device.FlashWrite, hps0, if_false, ho]

set_option maxRecDepth 1000000 in
/-- C19, witness: two pages of 4 bytes to erase on a device whose error status reads 0
after the first page and 7 after the second: the erase fails at page 1, and `FlashWrite` of
an image of 8 bytes is this run. -/
theorem erase_failure_stops_witness :
    ((sessionOf 4 0x08002000).flashErase statusBus 2 (World.start [0, 7])).1 =
      Outcome.err (Error.eraseFailed 0x08002004 1 2 7) ∧
    ((sessionOf 4 0x08002000).flashErase statusBus 2 (World.start [0, 7])).2.trace.filter
        Event.isControl =
      (List.range 2).flatMap (eraseControl (sessionOf 4 0x08002000)) ∧
    (sessionOf 4 0x08002000).FlashWrite statusBus sampleImage (World.start [0, 7]) =
      (sessionOf 4 0x08002000).flashErase statusBus 2 (World.start [0, 7]) :=
  ⟨by decide, by decide,
   (erase_failure_stops statusBus (sessionOf 4 0x08002000) 2 (World.start [0, 7])
      [Event.writeBytes 0x6C ADDR_ADDR [0x00, 0x20, 0x00, 0x08] none,
       Event.writeByte 0x6C ADDR_PROG PROG_ERASE_PAGE none,
       Event.sleep (50 * Millisecond),
       Event.readByte 0x6C ADDR_PROG 0 none,
       Event.readByte 0x6C ADDR_ERR 0 none,
       Event.writeBytes 0x6C ADDR_ADDR [0x04, 0x20, 0x00, 0x08] none,
       Event.writeByte 0x6C ADDR_PROG PROG_ERASE_PAGE none,
       Event.sleep (50 * Millisecond),
       Event.readByte 0x6C ADDR_PROG 0 none]
      [] (Event.readByte 0x6C ADDR_ERR 7 none) (by decide) rfl).2.2.2.2.2.2.2
      sampleImage (by decide) (by decide)⟩

set_option maxRecDepth 1000000 in
/-- C19, as stated, fails when the address of the page passes 2^32: with the application
at 0xFFFFFFFF and pages of 1 byte, a failure at page 1 is reported at the address 0, not at
`progStart + 1 * pageSize`. -/
theorem erase_failure_address_wraps :
    ((sessionOf 1 0xFFFFFFFF).flashErase statusBus 2 (World.start [0, 7])).1 =
      Outcome.err (Error.eraseFailed 0 1 2 7) ∧
    (sessionOf 1 0xFFFFFFFF).ProgStart + 1 * (sessionOf 1 0xFFFFFFFF).PageSize = 4294967296 ∧
    ((sessionOf 1 0xFFFFFFFF).flashErase statusBus 2 (World.start [0, 7])).1 ≠
      Outcome.err (Error.eraseFailed
        ((sessionOf 1 0xFFFFFFFF).ProgStart + 1 * (sessionOf 1 0xFFFFFFFF).PageSize) 1 2 7) := by
  decide

/-! ## The phases of the orchestrator -/

/-- The page count of `Device.FlashWrite`, an `int` division, is the ceiling of
`len / pageSize`. -/
theorem pageCount_eq (len ps : Nat) (hps : 1 ≤ ps) :
    ((len : Int) + ((ps : Int) - 1)) / (ps : Int) = (((len + ps - 1) / ps : Nat) : Int) := by
  have h : (len : Int) + ((ps : Int) - 1) = ((len + ps - 1 : Nat) : Int) := by omega
  rw [h]
  exact (Int.natCast_div _ _).symm

/-- `Device.FlashWrite`, by the results of its four phases. -/
theorem FlashWrite_unfold {σ : Type} (b : Bus σ) (dev : Device) (data : List Byte)
    (w : World σ) (hps0 : dev.PageSize ≠ 0) (er sa wr : Outcome × World σ)
    (rd : (List Byte × Outcome) × World σ)
    (her : dev.flashErase b
      (((data.length : Int) + ((dev.PageSize : Int) - 1)) / (dev.PageSize : Int)) w = er)
    (hsa : dev.FlashSetAddress b dev.ProgStart er.2 = sa)
    (hwr : dev.flashWrite b data sa.2 = wr)
    (hrd : dev.FlashRead b (List.replicate data.length 0) wr.2 = rd) :
    dev.FlashWrite b data w =
      if er.1 = Outcome.ok then
        if sa.1 = Outcome.ok then
          if wr.1 = Outcome.ok then
            if rd.1.2 = Outcome.ok then verifyLoop b dev data rd.1.1 (data.length + 1) 0 rd.2
            else (rd.1.2, rd.2)
          else wr
        else sa
      else er := by
  subst her hsa hwr hrd
  simp only [Device.FlashWrite, hps0, if_false]
  split
  · rename_i h1
    simp only [h1, if_true]
    split
    · rename_i h2
      simp only [h2, if_true]
      split
      · rename_i h3
        simp only [h3, if_true]
        split
        · rename_i h4
          simp only [h4, if_true]
        · rename_i h4
          rw [if_neg (fun h => h4 h)]
      · rename_i h3
        rw [if_neg (fun h => h3 h)]
    · rename_i h2
      rw [if_neg (fun h => h2 h)]
  · rename_i h1
    rw [if_neg (fun h => h1 h)]

/-- The comparison loop that returns nil issued no transfer. -/
theorem verifyLoop_ok_trace {σ : Type} (b : Bus σ) (dev : Device) (data data_copy : List Byte) :
    ∀ (fuel i : Nat) (w : World σ), (verifyLoop b dev data data_copy fuel i w).1 = Outcome.ok →
      (verifyLoop b dev data data_copy fuel i w).2.trace = w.trace := by
  intro fuel
  induction fuel with
  | zero =>
    intro i w h
    simp [verifyLoop] at h
  | succ fuel ih =>
    intro i w h
    by_cases hi : i < data.length
    · by_cases hi2 : i < data_copy.length
      · by_cases hne : data.getD i 0 ≠ data_copy.getD i 0
        · simp only [verifyLoop, hi, hi2, if_true] at h
          rw [if_pos hne] at h
          exact absurd h (reportMismatch_ne_ok b dev data data_copy i w)
        · simp only [verifyLoop, hi, hi2, if_true] at h ⊢
          rw [if_neg hne] at h ⊢
          exact ih (i + 1) w h
      · simp [verifyLoop, hi, hi2] at h
    · simp [verifyLoop, hi, emit]

/-- The transfers of one read cycle succeeded, and its one control transfer is the Read
operation. -/
theorem readCycle_facts (dev : Device) (c : List Byte × List (List Byte)) :
    (∀ ev ∈ readCycle dev c, ev.result = none) ∧
    (readCycle dev c).filter Event.isControl =
      [Event.writeByte dev.Address ADDR_PROG PROG_READ none] := by
  constructor
  · intro ev hev
    simp only [readCycle, List.mem_append, List.mem_cons, List.mem_mapIdx] at hev
    rcases hev with (h | h) | ⟨k, _, h⟩
    · rw [h]; rfl
    · exact (pollEvents_clean _ _ _ (by simp) ev h).1
    · rw [← h]; rfl
  · simp only [readCycle, List.filter_append, List.filter_cons, pollEvents_control]
    have h : (c.2.mapIdx (fun k g => Event.readBytes dev.Address (toByte (ADDR_DATA.val + 32 * k))
        g.length g none)).filter Event.isControl = [] := by
      rw [List.filter_eq_nil_iff]
      intro ev hev
      obtain ⟨k, _, h⟩ := List.mem_mapIdx.1 hev
      rw [← h]
      simp [Event.isControl, Event.isAddrWrite, Event.isOp]
    rw [h]
    simp [Event.isControl, Event.isAddrWrite, Event.isOp]

theorem readCycles_facts (dev : Device) (cycles : List (List Byte × List (List Byte))) :
    (∀ ev ∈ cycles.flatMap (readCycle dev), ev.result = none) ∧
    (cycles.flatMap (readCycle dev)).filter Event.isControl =
      List.replicate cycles.length (Event.writeByte dev.Address ADDR_PROG PROG_READ none) := by
  induction cycles with
  | nil => simp
  | cons c t ih =>
    constructor
    · intro ev hev
      rw [List.flatMap_cons] at hev
      rcases List.mem_append.1 hev with h | h
      · exact (readCycle_facts dev c).1 ev h
      · exact ih.1 ev h
    · rw [List.flatMap_cons, List.filter_append, (readCycle_facts dev c).2, ih.2,
        List.length_cons, List.replicate_succ]
      rfl

/-- The operations of the erase of `N` pages are `N` ErasePage operations. -/
theorem eraseControl_ops (dev : Device) (N : Nat) :
    ((List.range N).flatMap (eraseControl dev)).filter Event.isOp =
      List.replicate N (Event.writeByte dev.Address ADDR_PROG PROG_ERASE_PAGE none) := by
  induction N with
  | zero => simp
  | succ k ih =>
    rw [List.range_succ, List.flatMap_append, List.filter_append, ih, List.replicate_succ',
      List.flatMap_singleton]
    simp [eraseControl, Event.isOp, Event.isAddrWrite, List.filter_cons]

theorem isOp_isControl (ev : Event) (h : ev.isOp = true) : ev.isControl = true := by
  simp [Event.isControl, h]

/-- C18: for every session with `1 <= pageSize <= 4096` and every image, in a run of
`FlashWrite` that returns nil, with `N = ceil(len(image) / pageSize)`: every transfer
succeeded; the control transfers of the run (writes to the target-address register and
operation codes) are, in this order, the address write and the ErasePage operation of the
pages `0, ..., N - 1`, one write of `progStart` to the target-address register, `N` Write
operations, one write of `progStart` to the target-address register, and `N` Read
operations; so the operations issued are `N` ErasePage, then `N` Write, then `N` Read. -/
theorem FlashWrite_phases {σ : Type} (b : Bus σ) (dev : Device) (image : List Byte)
    (w : World σ) (hps1 : 1 ≤ dev.PageSize) (hps2 : dev.PageSize ≤ 4096)
    (hok : (dev.FlashWrite b image w).1 = Outcome.ok) :
    ∃ evs : List Event,
      (dev.FlashWrite b image w).2.trace = w.trace ++ evs ∧
      (∀ ev ∈ evs, ev.result = none) ∧
      evs.filter Event.isControl =
        (List.range ((image.length + dev.PageSize - 1) / dev.PageSize)).flatMap
            (eraseControl dev) ++
          (Event.writeBytes dev.Address ADDR_ADDR (addrBytes dev.ProgStart) none ::
            List.replicate ((image.length + dev.PageSize - 1) / dev.PageSize)
              (Event.writeByte dev.Address ADDR_PROG PROG_WRITE none)) ++
          (Event.writeBytes dev.Address ADDR_ADDR (addrBytes dev.ProgStart) none ::
            List.replicate ((image.length + dev.PageSize - 1) / dev.PageSize)
              (Event.writeByte dev.Address ADDR_PROG PROG_READ none)) ∧
      evs.filter Event.isOp =
        List.replicate ((image.length + dev.PageSize - 1) / dev.PageSize)
            (Event.writeByte dev.Address ADDR_PROG PROG_ERASE_PAGE none) ++
          List.replicate ((image.length + dev.PageSize - 1) / dev.PageSize)
            (Event.writeByte dev.Address ADDR_PROG PROG_WRITE none) ++
          List.replicate ((image.length + dev.PageSize - 1) / dev.PageSize)
            (Event.writeByte dev.Address ADDR_PROG PROG_READ none) := by
  have hps0 : dev.PageSize ≠ 0 := by omega
  have hcontrol : ∃ evs : List Event,
      (dev.FlashWrite b image w).2.trace = w.trace ++ evs ∧
      (∀ ev ∈ evs, ev.result = none) ∧
      evs.filter Event.isControl =
        (List.range ((image.length + dev.PageSize - 1) / dev.PageSize)).flatMap
            (eraseControl dev) ++
          (Event.writeBytes dev.Address ADDR_ADDR (addrBytes dev.ProgStart) none ::
            List.replicate ((image.length + dev.PageSize - 1) / dev.PageSize)
              (Event.writeByte dev.Address ADDR_PROG PROG_WRITE none)) ++
          (Event.writeBytes dev.Address ADDR_ADDR (addrBytes dev.ProgStart) none ::
            List.replicate ((image.length + dev.PageSize - 1) / dev.PageSize)
              (Event.writeByte dev.Address ADDR_PROG PROG_READ none)) := by
    rw [FlashWrite_unfold b dev image w hps0 _ _ _ _ rfl rfl rfl rfl] at hok ⊢
    rw [pageCount_eq image.length dev.PageSize hps1] at hok ⊢
    by_cases h1 : (dev.flashErase b
        (((image.length + dev.PageSize - 1) / dev.PageSize : Nat) : Int) w).1 = Outcome.ok
    · simp only [h1, if_true] at hok ⊢
      by_cases h2 : (dev.FlashSetAddress b dev.ProgStart (dev.flashErase b
          (((image.length + dev.PageSize - 1) / dev.PageSize : Nat) : Int) w).2).1 = Outcome.ok
      · simp only [h2, if_true] at hok ⊢
        by_cases h3 : (dev.flashWrite b image (dev.FlashSetAddress b dev.ProgStart
            (dev.flashErase b (((image.length + dev.PageSize - 1) / dev.PageSize : Nat) : Int)
              w).2).2).1 = Outcome.ok
        · simp only [h3, if_true] at hok ⊢
          by_cases h4 : (dev.FlashRead b (List.replicate image.length 0)
              (dev.flashWrite b image (dev.FlashSetAddress b dev.ProgStart
                (dev.flashErase b
                  (((image.length + dev.PageSize - 1) / dev.PageSize : Nat) : Int)
                  w).2).2).2).1.2 = Outcome.ok
          · simp only [h4, if_true] at hok ⊢
            rw [verifyLoop_ok_trace b dev image _ _ _ _ hok]
            -- the four phases
            obtain ⟨m, pre, tail, htrE, hpreE, _, hfE, hle, hendE⟩ := flashErase_profile b dev
              (((image.length + dev.PageSize - 1) / dev.PageSize : Nat) : Int) w
            obtain ⟨htrA, _, _⟩ := FlashSetAddress_ok b dev _ _ h2
            obtain ⟨m2, pre2, tail2, htrW, hpreW, hfW, hokW, _⟩ := flashWrite_profile b dev image
              (dev.FlashSetAddress b dev.ProgStart (dev.flashErase b
                (((image.length + dev.PageSize - 1) / dev.PageSize : Nat) : Int) w).2).2
            obtain ⟨cycles, hlenC, _, htrR, _⟩ := FlashRead_ok_trace b dev
              (List.replicate image.length 0)
              (dev.flashWrite b image (dev.FlashSetAddress b dev.ProgStart
                (dev.flashErase b
                  (((image.length + dev.PageSize - 1) / dev.PageSize : Nat) : Int)
                  w).2).2).2 hps1 hps2 h4
            rw [List.length_replicate] at hlenC
            obtain ⟨htW, hmW⟩ := hokW h3 hps1
            subst htW
            have htE : tail = [] ∧ m = (image.length + dev.PageSize - 1) / dev.PageSize := by
              rw [h1] at hendE
              rcases hendE with ⟨ht, ho | ho⟩ | ⟨_, _, ho⟩ | ⟨_, _, _, _, _, _, _, _, ho⟩
              · refine ⟨ht, ?_⟩
                have h := ho.2
                rcases hle with hle | hle
                · omega
                · omega
              · cases ho
              · exact absurd rfl ho
              · cases ho
            obtain ⟨htE1, hmE⟩ := htE
            subst htE1
            obtain ⟨hnoneR, hfR⟩ := readCycles_facts dev cycles
            refine ⟨pre ++ [Event.writeBytes dev.Address ADDR_ADDR (addrBytes dev.ProgStart) none]
              ++ pre2 ++ (Event.writeBytes dev.Address ADDR_ADDR (addrBytes dev.ProgStart) none ::
                cycles.flatMap (readCycle dev)), ?_, ?_, ?_⟩
            · rw [htrR, htrW, htrA, htrE]
              simp
            · intro ev hev
              simp only [List.mem_append, List.mem_cons, List.mem_singleton, List.not_mem_nil,
                or_false] at hev
              rcases hev with ((h | h) | h) | (h | h)
              · exact (hpreE ev h).1
              · rw [h]; rfl
              · exact (hpreW ev h).1
              · rw [h]; rfl
              · exact hnoneR ev h
            · have hA : Event.isControl (Event.writeBytes dev.Address ADDR_ADDR
                  (addrBytes dev.ProgStart) none) = true := rfl
              simp only [List.filter_append, List.filter_cons, List.filter_nil, hA, if_true, hfE,
                hfW, hfR, hlenC, hmW, hmE, ← List.range_eq_range']
              simp
          · simp only [h4, if_false] at hok
        · simp only [h3, if_false] at hok
      · simp only [h2, if_false] at hok
    · simp only [h1, if_false] at hok
  obtain ⟨evs, htr, hnone, hctl⟩ := hcontrol
  refine ⟨evs, htr, hnone, hctl, ?_⟩
  have hff : evs.filter Event.isOp = (evs.filter Event.isControl).filter Event.isOp := by
    rw [List.filter_filter]
    apply List.filter_congr
    intro ev _
    cases h : ev.isOp
    · simp
    · simp [isOp_isControl ev h]
  rw [hff, hctl]
  have hW : Event.isOp (Event.writeByte dev.Address ADDR_PROG PROG_WRITE none) = true := rfl
  have hR : Event.isOp (Event.writeByte dev.Address ADDR_PROG PROG_READ none) = true := rfl
  have hA : Event.isOp (Event.writeBytes dev.Address ADDR_ADDR (addrBytes dev.ProgStart) none)
      = false := rfl
  simp only [List.filter_append, List.filter_cons, List.filter_replicate, eraseControl_ops, hW, hR,
    hA, if_true]
  simp

set_option maxRecDepth 1000000 in
/-- C18, witness: the image 1, ..., 8 written in pages of 4 bytes to a model device: two
ErasePage operations, then two Write operations, then two Read operations, with the address
register written with `progStart` before the Write and before the Read operations. -/
theorem FlashWrite_phases_witness :
    ((sessionOf 4 0x08002000).FlashWrite chipBus sampleImage
        (World.start (Chip.fresh 4 (fun _ => 0xFF)))).2.trace.filter Event.isControl =
      [Event.writeBytes 0x6C ADDR_ADDR [0x00, 0x20, 0x00, 0x08] none,
       Event.writeByte 0x6C ADDR_PROG PROG_ERASE_PAGE none,
       Event.writeBytes 0x6C ADDR_ADDR [0x04, 0x20, 0x00, 0x08] none,
       Event.writeByte 0x6C ADDR_PROG PROG_ERASE_PAGE none,
       Event.writeBytes 0x6C ADDR_ADDR [0x00, 0x20, 0x00, 0x08] none,
       Event.writeByte 0x6C ADDR_PROG PROG_WRITE none,
       Event.writeByte 0x6C ADDR_PROG PROG_WRITE none,
       Event.writeBytes 0x6C ADDR_ADDR [0x00, 0x20, 0x00, 0x08] none,
       Event.writeByte 0x6C ADDR_PROG PROG_READ none,
       Event.writeByte 0x6C ADDR_PROG PROG_READ none] ∧
    ∃ evs : List Event,
      ((sessionOf 4 0x08002000).FlashWrite chipBus sampleImage
          (World.start (Chip.fresh 4 (fun _ => 0xFF)))).2.trace = [] ++ evs ∧
      (∀ ev ∈ evs, ev.result = none) ∧
      evs.filter Event.isControl =
        (List.range 2).flatMap (eraseControl (sessionOf 4 0x08002000)) ++
          (Event.writeBytes 0x6C ADDR_ADDR (addrBytes 0x08002000) none ::
            List.replicate 2 (Event.writeByte 0x6C ADDR_PROG PROG_WRITE none)) ++
          (Event.writeBytes 0x6C ADDR_ADDR (addrBytes 0x08002000) none ::
            List.replicate 2 (Event.writeByte 0x6C ADDR_PROG PROG_READ none)) ∧
      evs.filter Event.isOp =
        List.replicate 2 (Event.writeByte 0x6C ADDR_PROG PROG_ERASE_PAGE none) ++
          List.replicate 2 (Event.writeByte 0x6C ADDR_PROG PROG_WRITE none) ++
          List.replicate 2 (Event.writeByte 0x6C ADDR_PROG PROG_READ none) :=
  ⟨by decide,
   FlashWrite_phases chipBus (sessionOf 4 0x08002000) sampleImage
     (World.start (Chip.fresh 4 (fun _ => 0xFF))) (by decide) (by decide) (by decide)⟩

/-! ## The read command: how many bytes are read -/

theorem and_ffff (x : Nat) : x &&& 0xFFFF = x % 65536 :=
  Nat.and_pow_two_sub_one_eq_mod x 16

/-- The case "read" of `process_command` once the arguments are accepted and the session is
open: `L` is the length asked for (-1 when it is omitted). -/
theorem process_command_read_eq {σ : Type} (b : Bus σ) (i2c_addr : Byte)
    (parseInt : String → Option Int) (writeFile : String → List Byte → Option Nat)
    (args : List String) (w : World σ) (d : Device) (L : Int)
    (hargs : (args.length = 2 ∧ L = -1) ∨ (args.length = 3 ∧ parseInt (args.getD 2 "") = some L))
    (hopen : (Open b 1 i2c_addr w).1 = Except.ok d) :
    process_command_read b i2c_addr parseInt writeFile args w =
      if (if L < 0 then
            (((d.FlashSize : Int) - ((d.ProgStart % 65536 / 1024 : Nat) : Int)) % 65536) * 1024
          else L) >
          (((d.FlashSize : Int) - ((d.ProgStart % 65536 / 1024 : Nat) : Int)) % 65536) * 1024 then
        ⟨CmdOutcome.err (CmdError.sizeLimit
          ((((d.FlashSize : Int) - ((d.ProgStart % 65536 / 1024 : Nat) : Int)) % 65536) * 1024)),
          none, d.Close b (Open b 1 i2c_addr w).2⟩
      else finishRead b d writeFile (args.getD 1 "")
        (d.FlashRead b (List.replicate
          (if L < 0 then
            (((d.FlashSize : Int) - ((d.ProgStart % 65536 / 1024 : Nat) : Int)) % 65536) * 1024
          else L).toNat 0) (Open b 1 i2c_addr w).2) := by
  have hb : u16 ((d.ProgStart &&& 0xFFFF) / 1024) = d.ProgStart % 65536 / 1024 := by
    rw [and_ffff]
    unfold u16
    have h : d.ProgStart % 65536 / 1024 < 64 := by omega
    omega
  have hlen : (if args.length = 3 then parseInt (args.getD 2 "") else some (-1)) = some L := by
    rcases hargs with ⟨h, hL⟩ | ⟨h, hL⟩
    · rw [if_neg (by omega), hL]
    · rw [if_pos h, hL]
  have h1 : ¬ args.length < 2 := by rcases hargs with ⟨h, _⟩ | ⟨h, _⟩ <;> omega
  have h2 : ¬ args.length > 3 := by rcases hargs with ⟨h, _⟩ | ⟨h, _⟩ <;> omega
  simp only [process_command_read, h1, h2, if_false, hlen, hopen, hb]

/-- C15: in the read command, once the arguments are accepted and the session `d` is open,
with `N = 1024 * ((flashSize - floor((progStart mod 65536) / 1024)) mod 65536)` and `L` the
length asked for (-1 when it is omitted): a negative `L` makes the command read into a
buffer of exactly `N` bytes; `0 <= L <= N` (the boundary `L = N` included) makes it read
into a buffer of exactly `L` bytes; `L > N` makes it return the size-limit error naming `N`
with no transfer after those of `Open` but the closing of the bus: no flash read is issued
and nothing is written.  The buffer given to the file, when there is one, has the length of
the buffer read into. -/
theorem read_length_limit {σ : Type} (b : Bus σ) (i2c_addr : Byte)
    (parseInt : String → Option Int) (writeFile : String → List Byte → Option Nat)
    (args : List String) (w : World σ) (d : Device) (L : Int)
    (hargs : (args.length = 2 ∧ L = -1) ∨ (args.length = 3 ∧ parseInt (args.getD 2 "") = some L))
    (hopen : (Open b 1 i2c_addr w).1 = Except.ok d) :
    0 ≤ 1024 * (((d.FlashSize : Int) - ((d.ProgStart % 65536 / 1024 : Nat) : Int)) % 65536) ∧
    (L < 0 →
      process_command_read b i2c_addr parseInt writeFile args w =
        finishRead b d writeFile (args.getD 1 "")
          (d.FlashRead b (List.replicate
            (1024 * (((d.FlashSize : Int) - ((d.ProgStart % 65536 / 1024 : Nat) : Int)) % 65536)).toNat
            0) (Open b 1 i2c_addr w).2)) ∧
    (0 ≤ L →
      L ≤ 1024 * (((d.FlashSize : Int) - ((d.ProgStart % 65536 / 1024 : Nat) : Int)) % 65536) →
      process_command_read b i2c_addr parseInt writeFile args w =
        finishRead b d writeFile (args.getD 1 "")
          (d.FlashRead b (List.replicate L.toNat 0) (Open b 1 i2c_addr w).2)) ∧
    (1024 * (((d.FlashSize : Int) - ((d.ProgStart % 65536 / 1024 : Nat) : Int)) % 65536) < L →
      process_command_read b i2c_addr parseInt writeFile args w =
        ⟨CmdOutcome.err (CmdError.sizeLimit
          (1024 * (((d.FlashSize : Int) - ((d.ProgStart % 65536 / 1024 : Nat) : Int)) % 65536))),
          none, busClose b (Open b 1 i2c_addr w).2⟩) ∧
    (∀ (K : Nat) (buf : List Byte),
      (finishRead b d writeFile (args.getD 1 "")
        (d.FlashRead b (List.replicate K 0) (Open b 1 i2c_addr w).2)).written = some buf →
      buf.length = K) := by
  have hN : 0 ≤ (((d.FlashSize : Int) - ((d.ProgStart % 65536 / 1024 : Nat) : Int)) % 65536) :=
    Int.emod_nonneg _ (by decide)
  have hcomm : 1024 * (((d.FlashSize : Int) - ((d.ProgStart % 65536 / 1024 : Nat) : Int)) % 65536) =
      (((d.FlashSize : Int) - ((d.ProgStart % 65536 / 1024 : Nat) : Int)) % 65536) * 1024 :=
    Int.mul_comm _ _
  have hrun := process_command_read_eq b i2c_addr parseInt writeFile args w d L hargs hopen
  rw [hcomm]
  refine ⟨by omega, ?_, ?_, ?_, ?_⟩
  · intro hL
    rw [hrun, if_pos hL, if_neg (lt_irrefl _)]
  · intro hL0 hLN
    rw [hrun, if_neg (by omega), if_neg (by omega)]
  · intro hLN
    have hL0 : ¬ L < 0 := by omega
    rw [hrun, if_neg hL0, if_pos hLN]
    rfl
  · intro K buf hbuf
    have hlen := FlashRead_length b d (List.replicate K 0) (Open b 1 i2c_addr w).2
    rw [List.length_replicate] at hlen
    unfold finishRead at hbuf
    split at hbuf
    · split at hbuf
      · have h : (d.FlashRead b (List.replicate K 0) (Open b 1 i2c_addr w).2).1.1 = buf :=
          Option.some.inj hbuf
        rw [← h, hlen]
      · have h : (d.FlashRead b (List.replicate K 0) (Open b 1 i2c_addr w).2).1.1 = buf :=
          Option.some.inj hbuf
        rw [← h, hlen]
    · cases hbuf
    · cases hbuf
    · cases hbuf
set_option maxRecDepth 1000000 in
/-- C15, witness: a device of 9 KiB of flash whose application starts at 0x08002000, so
that 1024 bytes can be read: asking for 1025 bytes is refused with the limit 1024 and
nothing but the closing of the bus follows the transfers of `Open`; asking for 8 bytes
reads 8 bytes and gives them to the file. -/
theorem read_length_limit_witness :
    (Open chipBus 1 0x6C (World.start smallChip)).1 = Except.ok
      { Address := 0x6C, I2cBus := 3, McuId := 0x440, PageSize := 4, FlashSize := 9,
        ProgStart := 0x08002000, Version := 1 } ∧
    process_command_read chipBus 0x6C (fun _ => some 1025) (fun _ _ => none)
        ["read", "dump.bin", "1025"] (World.start smallChip) =
      ⟨CmdOutcome.err (CmdError.sizeLimit 1024), none,
        busClose chipBus (Open chipBus 1 0x6C (World.start smallChip)).2⟩ ∧
    (process_command_read chipBus 0x6C (fun _ => some 8) (fun _ _ => none)
        ["read", "dump.bin", "8"] (World.start smallChip)).outcome = CmdOutcome.ok ∧
    (process_command_read chipBus 0x6C (fun _ => some 8) (fun _ _ => none)
        ["read", "dump.bin", "8"] (World.start smallChip)).written =
      some [0, 1, 2, 3, 4, 5, 6, 7] :=
  ⟨rfl,
   (read_length_limit chipBus 0x6C (fun _ => some 1025) (fun _ _ => none)
      ["read", "dump.bin", "1025"] (World.start smallChip)
      { Address := 0x6C, I2cBus := 3, McuId := 0x440, PageSize := 4, FlashSize := 9,
        ProgStart := 0x08002000, Version := 1 } 1025
      (Or.inr ⟨rfl, rfl⟩) rfl).2.2.2.1 (by decide),
   by decide, by decide⟩

end I2cflash
